import Mathlib

/-!
Verification of the pjson streaming JSON parser (`src/lib.rs`).

The Rust source is embedded shallowly:

* the input buffer `json : &[u8]` becomes `json : List Nat` (byte values);
* the visitor closure `FnMut(usize, usize, usize) -> i64` becomes a pure
  function of the list of previously fired events together with the current
  event (`Vis` below) — any deterministic stateful visitor is a function of
  its call history, so this is fully general;
* every recognizer returns the same tuple as the Rust code (`i`, `ok`,
  `stop`, plus the fired-event trace for the functions that call the
  visitor);
* the scanning loops are written as structurally recursive functions on an
  explicit gas argument (always called with gas `json.length + 1`, which is
  enough because every iteration advances the cursor); the mutually
  recursive grammar recognizers (`vany`/`vobject`/`varray`) take a fuel
  argument, decremented at every mutual call, and the top-level `parse`
  supplies a generous fuel.  Running out of gas or fuel behaves like a
  parse error at the current offset; theorems about successful runs are
  therefore unaffected by the artificial bound.
-/

namespace PJson

/-! ### Info bit flags (constants from the top of lib.rs) -/

def STRING : Nat := 2
def NUMBER : Nat := 4
def TRUE : Nat := 8
def FALSE : Nat := 16
def NULL : Nat := 32
def OBJECT : Nat := 64
def ARRAY : Nat := 128
def COMMA : Nat := 256
def COLON : Nat := 512
def START : Nat := 1024
def END : Nat := 2048
def OPEN : Nat := 4096
def CLOSE : Nat := 8192
def KEY : Nat := 16384
def VALUE : Nat := 32768
def ESCAPED : Nat := 65536
def SIGN : Nat := 131072
def DOT : Nat := 262144
def E : Nat := 524288

def UNCHECKED : Nat := 2

/-! ### Character classification (the CHTABLE bit sets) -/

/-- `CHWS`: `\t`, `\n`, `\r`, space. -/
def isws (c : Nat) : Bool := c = 9 || c = 10 || c = 13 || c = 32

/-- `CHNUM`: ASCII digits. -/
def isnum (c : Nat) : Bool := 48 ≤ c && c ≤ 57

/-- `CHSTRTOK`: bytes below 0x20, `"` and `\`. -/
def isstrtok (c : Nat) : Bool := c < 32 || c = 34 || c = 92

/-- `CHSQUASH`: `"`, `{`, `[`, `}`, `]`. -/
def issquash (c : Nat) : Bool := c = 34 || c = 123 || c = 91 || c = 125 || c = 93

/-- `CHOPEN`: `{`, `[`. -/
def isopench (c : Nat) : Bool := c = 123 || c = 91

/-- `CHCLOSE`: `}`, `]`. -/
def isclosech (c : Nat) : Bool := c = 125 || c = 93

/-- Read a byte of the buffer (Rust `json[i]`; callers are in bounds). -/
def rd (json : List Nat) (i : Nat) : Nat := json.getD i 0

/-! ### Events and visitors -/

/-- One visitor callback: Rust `f(start, end, info)`.  `s`/`e` are the
half-open range bounds, `info` the bitmask. -/
structure Ev where
  s : Nat
  e : Nat
  info : Nat
deriving Repr, DecidableEq

/-- A visitor: given the events fired so far (most recent first) and the
current event, produce the `i64` control value. -/
abbrev Vis := List Ev → Ev → Int

/-- Result of the visitor-calling recognizers: cursor, `ok`, `stop`, and
the trace of all events fired so far (most recent first). -/
structure PRes where
  i : Nat
  ok : Bool
  stop : Bool
  tr : List Ev
deriving Repr, DecidableEq

/-- Result of `vstring`/`vnumber`: cursor, collected info bits, `ok`, `stop`. -/
structure SRes where
  i : Nat
  info : Nat
  ok : Bool
  stop : Bool
deriving Repr, DecidableEq

/-- Result of the keyword/token scanners: cursor, `ok`, `stop`. -/
structure KRes where
  i : Nat
  ok : Bool
  stop : Bool
deriving Repr, DecidableEq

/-! ### Whitespace and digit scanning loops -/

/-- Whitespace-skipping loop (`while i < len { if isws { i += 1; continue } ... }`). -/
def skipWsG (json : List Nat) : Nat → Nat → Nat
  | 0, i => i
  | g + 1, i =>
    if i < json.length ∧ isws (rd json i) then skipWsG json g (i + 1) else i

def skipWs (json : List Nat) (i : Nat) : Nat := skipWsG json (json.length + 1) i

/-- Digit-run loop of `vnumber` (`while i < len { if !isnum break; i += 1 }`). -/
def digitsG (json : List Nat) : Nat → Nat → Nat
  | 0, i => i
  | g + 1, i =>
    if i < json.length ∧ isnum (rd json i) then digitsG json g (i + 1) else i

def digits (json : List Nat) (i : Nat) : Nat := digitsG json (json.length + 1) i

/-! ### String scanner (`vstring`) -/

/-- One of the single-character escapes `"` `\` `/` `b` `f` `n` `r` `t`. -/
def isesc (c : Nat) : Bool :=
  c = 34 || c = 92 || c = 47 || c = 98 || c = 102 || c = 110 || c = 114 || c = 116

/-- Hex digit (`0-9`, `a-f`, `A-F`). -/
def ishex (c : Nat) : Bool :=
  (48 ≤ c && c ≤ 57) || (97 ≤ c && c ≤ 102) || (65 ≤ c && c ≤ 70)

/-- The four-hex-digit loop of the `\\u` escape.  `i` is the position of the
`u`; on success returns the position of the last hex digit with `ok`. -/
def hexRun (json : List Nat) : Nat → Nat → Nat × Bool
  | i, 0 => (i, true)
  | i, k + 1 =>
    if i + 1 = json.length then (i + 1, false)
    else if ishex (rd json (i + 1)) then hexRun json (i + 1) k
    else (i + 1, false)

/-- Body of `vstring`: scan from `i` (just past the opening quote),
accumulating `ESCAPED` into `info`. -/
def vstringG (json : List Nat) : Nat → Nat → Nat → SRes
  | 0, i, info => ⟨i, info, false, true⟩
  | g + 1, i, info =>
    if i < json.length then
      let c := rd json i
      if isstrtok c then
        if c = 34 then ⟨i + 1, info, true, false⟩
        else if c < 32 then ⟨i, info, false, true⟩
        else -- backslash
          if i + 1 = json.length then ⟨i + 1, info ||| ESCAPED, false, true⟩
          else
            let c2 := rd json (i + 1)
            if isesc c2 then vstringG json g (i + 2) (info ||| ESCAPED)
            else if c2 = 117 then
              if (hexRun json (i + 1) 4).2 then vstringG json g (i + 6) (info ||| ESCAPED)
              else ⟨(hexRun json (i + 1) 4).1, info ||| ESCAPED, false, true⟩
            else ⟨i + 1, info ||| ESCAPED, false, true⟩
      else vstringG json g (i + 1) info
    else ⟨i, info, false, true⟩

def vstring (json : List Nat) (i : Nat) : SRes :=
  vstringG json (json.length + 1) i 0

/-! ### Number scanner (`vnumber`) -/

/-- Exponent part: at `i`, consume `e`/`E`, optional sign and a digit run. -/
def vnumExp (json : List Nat) (i : Nat) (info : Nat) : SRes :=
  if rd json i = 101 ∨ rd json i = 69 then
    let info := info ||| E
    let i := i + 1
    if i = json.length then ⟨i, info, false, true⟩
    else
      let i := if rd json i = 43 ∨ rd json i = 45 then i + 1 else i
      if i = json.length then ⟨i, info, false, true⟩
      else if isnum (rd json i) then ⟨digits json (i + 1), info, true, false⟩
      else ⟨i, info, false, true⟩
  else ⟨i, info, true, false⟩

/-- Fraction part (the `'base` loop): at `i`, optionally consume `.` and a
digit run, then the exponent. -/
def vnumFrac (json : List Nat) (i : Nat) (info : Nat) : SRes :=
  if rd json i = 46 then
    let info := info ||| DOT
    let i := i + 1
    if i = json.length then ⟨i, info, false, true⟩
    else if isnum (rd json i) then
      let i := digits json (i + 1)
      if i = json.length then ⟨i, info, true, false⟩
      else vnumExp json i info
    else ⟨i, info, false, true⟩
  else vnumExp json i info

/-- Significand (the `'significand` loop): a lone `0` is consumed exactly,
any other first digit starts a digit run. -/
def vnumSig (json : List Nat) (i : Nat) (info : Nat) : SRes :=
  let j := if rd json i = 48 then i + 1 else digits json i
  if j = json.length then ⟨j, info, true, false⟩
  else vnumFrac json j info

/-- `vnumber`: entered at `i0` = one past the first byte of the number
(the Rust code immediately does `i -= 1`). -/
def vnumber (json : List Nat) (i0 : Nat) : SRes :=
  let i := i0 - 1
  if rd json i = 45 then
    let i := i + 1
    if i = json.length then ⟨i, SIGN, false, true⟩
    else if isnum (rd json i) then vnumSig json i SIGN
    else ⟨i, SIGN, false, true⟩
  else vnumSig json i 0

/-! ### Keyword scanners -/

def vtrue (json : List Nat) (i : Nat) : KRes :=
  if i + 3 ≤ json.length then
    if rd json i = 114 ∧ rd json (i + 1) = 117 ∧ rd json (i + 2) = 101 then
      ⟨i + 3, true, false⟩
    else ⟨i, false, true⟩
  else ⟨i, false, true⟩

def vnull (json : List Nat) (i : Nat) : KRes :=
  if i + 3 ≤ json.length then
    if rd json i = 117 ∧ rd json (i + 1) = 108 ∧ rd json (i + 2) = 108 then
      ⟨i + 3, true, false⟩
    else ⟨i, false, true⟩
  else ⟨i, false, true⟩

def vfalse (json : List Nat) (i : Nat) : KRes :=
  if i + 4 ≤ json.length then
    if rd json i = 97 ∧ rd json (i + 1) = 108 ∧ rd json (i + 2) = 115 ∧
        rd json (i + 3) = 101 then
      ⟨i + 4, true, false⟩
    else ⟨i, false, true⟩
  else ⟨i, false, true⟩

/-! ### Colon and comma token scanners -/

def vcolonG (json : List Nat) : Nat → Nat → KRes
  | 0, i => ⟨i, false, true⟩
  | g + 1, i =>
    if i < json.length then
      if rd json i = 58 then ⟨i + 1, true, false⟩
      else if isws (rd json i) then vcolonG json g (i + 1)
      else ⟨i, false, true⟩
    else ⟨i, false, true⟩

def vcolon (json : List Nat) (i : Nat) : KRes :=
  vcolonG json (json.length + 1) i

def vcommaG (json : List Nat) (endch : Nat) : Nat → Nat → KRes
  | 0, i => ⟨i, false, true⟩
  | g + 1, i =>
    if i < json.length then
      if rd json i = 44 then ⟨i, true, false⟩
      else if rd json i = endch then ⟨i, true, false⟩
      else if isws (rd json i) then vcommaG json endch g (i + 1)
      else ⟨i, false, true⟩
    else ⟨i, false, true⟩

def vcomma (json : List Nat) (i : Nat) (endch : Nat) : KRes :=
  vcommaG json endch (json.length + 1) i

/-! ### Squash (unchecked fast skip) -/

/-- Count the run of backslashes at positions `j, j-1, ...` stopping before
`s` (the Rust `while j > s-1` loop; `s ≥ 1` at every call site). -/
def bsRun (json : List Nat) : Nat → Nat → Nat
  | 0, _ => 0
  | j + 1, s =>
    if 1 ≤ s ∧ s ≤ j + 1 then
      if rd json (j + 1) = 92 then bsRun json j s + 1 else 0
    else 0

/-- Inner string scan of `squash`: advance to the next unescaped `"`.
`s` is the index of the first content byte.  Returns the index of the
closing quote, or `json.length` if none. -/
def squashStrG (json : List Nat) (s : Nat) : Nat → Nat → Nat
  | 0, i => i
  | g + 1, i =>
    if i < json.length then
      if rd json i = 34 then
        if rd json (i - 1) = 92 then
          if bsRun json (i - 2) s % 2 = 0 then squashStrG json s g (i + 1)
          else i
        else i
      else squashStrG json s g (i + 1)
    else i

def squashStr (json : List Nat) (i s : Nat) : Nat :=
  squashStrG json s (json.length + 1) i

/-- Main loop of `squash`, carrying the bracket depth (starts at 1). -/
def squashG (json : List Nat) : Nat → Nat → Nat → Nat
  | 0, i, _ => i
  | g + 1, i, depth =>
    if i < json.length then
      let c := rd json i
      if issquash c then
        if c = 34 then
          let j := squashStr json (i + 1) (i + 1)
          if j < json.length then squashG json g (j + 1) depth else j
        else if isopench c then squashG json g (i + 1) (depth + 1)
        else if depth = 1 then i + 1
        else squashG json g (i + 1) (depth - 1)
      else squashG json g (i + 1) depth
    else i

/-- `squash`: skip a balanced-bracket body, entered just past `{` or `[`. -/
def squash (json : List Nat) (i : Nat) : Nat :=
  squashG json (json.length + 1) i 1

/-! ### The mutually recursive grammar recognizers -/

/-- Fire an event unless `skip`: returns whether the visitor said stop
(returned 0) and the updated trace. -/
def fireStop (f : Vis) (skip : Bool) (tr : List Ev) (ev : Ev) : Bool × List Ev :=
  if skip then (false, tr)
  else (decide (f tr ev = 0), ev :: tr)

/-- Close-bracket callback of a container (`f(i-1, i, kind|CLOSE|dinfo)`),
with the `START → END` replacement of the outermost container. -/
def vclose (i : Nat) (dinfo : Nat) (f : Vis) (skip : Bool) (tr : List Ev)
    (kind : Nat) : PRes :=
  if skip then ⟨i, true, false, tr⟩
  else
    let dinfo2 := if dinfo &&& START = START then (dinfo ^^^ START) ||| END else dinfo
    let cev : Ev := ⟨i - 1, i, kind ||| CLOSE ||| dinfo2⟩
    if f tr cev = 0 then ⟨i, true, true, cev :: tr⟩
    else ⟨i, true, false, cev :: tr⟩

/-- Scalar tail of `vany`: after a scanner returns, fire the single value
callback (adding `END` when `dinfo` carries `START`). -/
def vscalarTail (mark i : Nat) (info : Nat) (ok stop : Bool) (dinfo : Nat)
    (f : Vis) (skip : Bool) (tr : List Ev) : PRes :=
  if stop then ⟨i, ok, stop, tr⟩
  else if skip then ⟨i, ok, stop, tr⟩
  else
    let dinfo2 := if dinfo &&& START = START then dinfo ||| END else dinfo
    let ev : Ev := ⟨mark, i, info ||| dinfo2⟩
    if f tr ev = 0 then ⟨i, true, true, ev :: tr⟩
    else ⟨i, ok, stop, ev :: tr⟩

/-- Descriptor of one pending recognizer invocation.  The grammar
recognizers of lib.rs are mutually recursive; to keep the embedding
structurally recursive on the fuel (and hence computable by the kernel)
they are expressed as one step function `run` over these descriptors,
with `vany`, `vobject`, ... below as definitional wrappers.  The stages
`okey1`..`okey6` (resp. `elems1`, `elems2`) are the sequential points of
the Rust `'key` loop of `vobject` (resp. the element loop of `varray`). -/
inductive Call where
  | any (i dinfo : Nat) (skip : Bool) (tr : List Ev)
  | opn (i dinfo : Nat) (skip : Bool) (tr : List Ev) (kind : Nat)
  | body (i dinfo : Nat) (skip oskip : Bool) (tr : List Ev) (kind : Nat)
  | obj (i : Nat) (skip : Bool) (tr : List Ev)
  | okey (i : Nat) (skip : Bool) (tr : List Ev)
  | okey1 (mark si sinfo : Nat) (skip : Bool) (tr : List Ev)
  | okey2 (si : Nat) (skip : Bool) (tr : List Ev)
  | okey3 (ci : Nat) (skip : Bool) (tr : List Ev)
  | okey4 (ci : Nat) (skip : Bool) (tr : List Ev)
  | okey5 (ai : Nat) (skip : Bool) (tr : List Ev)
  | okey6 (mi : Nat) (skip : Bool) (tr : List Ev)
  | arr (i : Nat) (skip : Bool) (tr : List Ev)
  | elems (i : Nat) (skip : Bool) (tr : List Ev)
  | elems1 (ai : Nat) (skip : Bool) (tr : List Ev)
  | elems2 (mi : Nat) (skip : Bool) (tr : List Ev)

/-- Cursor position of a pending call (used for the fuel-exhaustion error). -/
def Call.pos : Call → Nat
  | .any i _ _ _ => i
  | .opn i _ _ _ _ => i
  | .body i _ _ _ _ _ => i
  | .obj i _ _ => i
  | .okey i _ _ => i
  | .okey1 _ si _ _ _ => si
  | .okey2 si _ _ => si
  | .okey3 ci _ _ => ci
  | .okey4 ci _ _ => ci
  | .okey5 ai _ _ => ai
  | .okey6 mi _ _ => mi
  | .arr i _ _ => i
  | .elems i _ _ => i
  | .elems1 ai _ _ => ai
  | .elems2 mi _ _ => mi

/-- Trace carried by a pending call. -/
def Call.trace : Call → List Ev
  | .any _ _ _ tr => tr
  | .opn _ _ _ tr _ => tr
  | .body _ _ _ _ tr _ => tr
  | .obj _ _ tr => tr
  | .okey _ _ tr => tr
  | .okey1 _ _ _ _ tr => tr
  | .okey2 _ _ tr => tr
  | .okey3 _ _ tr => tr
  | .okey4 _ _ tr => tr
  | .okey5 _ _ tr => tr
  | .okey6 _ _ tr => tr
  | .arr _ _ tr => tr
  | .elems _ _ tr => tr
  | .elems1 _ _ tr => tr
  | .elems2 _ _ tr => tr

/-- One fuel-indexed step interpreter for the mutually recursive grammar
recognizers of lib.rs.  Fuel is decremented at every transfer; running out
behaves like a parse error at the current position (`parse` supplies more
fuel than any run can consume). -/
def run (json : List Nat) (opts : Nat) (f : Vis) : Nat → Call → PRes
  | 0, c => ⟨c.pos, false, true, c.trace⟩
  | fuel + 1, c =>
    match c with
    | .any i dinfo skip tr =>
      -- vany: skip whitespace, dispatch on the first byte
      let j := skipWs json i
      if j < json.length then
        let c := rd json j
        if c = 34 then
          let sr := vstring json (j + 1)
          vscalarTail j sr.i (sr.info ||| STRING) sr.ok sr.stop dinfo f skip tr
        else if c = 123 then
          run json opts f fuel (.opn j dinfo skip tr OBJECT)
        else if c = 91 then
          run json opts f fuel (.opn j dinfo skip tr ARRAY)
        else if c = 45 ∨ isnum c then
          let sr := vnumber json (j + 1)
          vscalarTail j sr.i (sr.info ||| NUMBER) sr.ok sr.stop dinfo f skip tr
        else if c = 116 then
          let kr := vtrue json (j + 1)
          vscalarTail j kr.i TRUE kr.ok kr.stop dinfo f skip tr
        else if c = 110 then
          let kr := vnull json (j + 1)
          vscalarTail j kr.i NULL kr.ok kr.stop dinfo f skip tr
        else if c = 102 then
          let kr := vfalse json (j + 1)
          vscalarTail j kr.i FALSE kr.ok kr.stop dinfo f skip tr
        else ⟨j, false, true, tr⟩
      else ⟨j, false, true, tr⟩
    | .opn i dinfo skip tr kind =>
      -- container open: fire OPEN (unless skip); 0 = stop, -1 = skip children
      if skip then run json opts f fuel (.body i dinfo skip true tr kind)
      else
        let oev : Ev := ⟨i, i + 1, kind ||| OPEN ||| dinfo⟩
        let r := f tr oev
        if r = 0 then ⟨i, true, true, oev :: tr⟩
        else run json opts f fuel (.body i dinfo skip (decide (r = -1)) (oev :: tr) kind)
    | .body i dinfo skip oskip tr kind =>
      -- container body: squash under UNCHECKED+skip, else full recognizer; then CLOSE
      if opts &&& UNCHECKED = UNCHECKED ∧ oskip = true then
        vclose (squash json (i + 1)) dinfo f skip tr kind
      else
        let r := if kind = OBJECT then run json opts f fuel (.obj (i + 1) oskip tr)
                 else run json opts f fuel (.arr (i + 1) oskip tr)
        if r.stop then r
        else vclose r.i dinfo f skip r.tr kind
    | .obj i skip tr =>
      -- vobject: whitespace, then `}` or a key
      let j := skipWs json i
      if j < json.length then
        if rd json j = 125 then ⟨j + 1, true, false, tr⟩
        else if rd json j = 34 then run json opts f fuel (.okey j skip tr)
        else ⟨j, false, true, tr⟩
      else ⟨j, false, true, tr⟩
    | .okey i skip tr =>
      -- `'key` loop: scan the key string (i at the opening quote)
      let sr := vstring json (i + 1)
      if sr.stop then ⟨sr.i, sr.ok, true, tr⟩
      else run json opts f fuel (.okey1 i sr.i sr.info skip tr)
    | .okey1 mark si sinfo skip tr =>
      -- fire the KEY callback
      let p := fireStop f skip tr ⟨mark, si, sinfo ||| KEY ||| STRING⟩
      if p.1 then ⟨si, true, true, p.2⟩
      else run json opts f fuel (.okey2 si skip p.2)
    | .okey2 si skip tr =>
      -- scan to the colon
      let cr := vcolon json si
      if cr.stop then ⟨cr.i, cr.ok, true, tr⟩
      else run json opts f fuel (.okey3 cr.i skip tr)
    | .okey3 ci skip tr =>
      -- fire the COLON callback
      let p := fireStop f skip tr ⟨ci - 1, ci, COLON⟩
      if p.1 then ⟨ci, true, true, p.2⟩
      else run json opts f fuel (.okey4 ci skip p.2)
    | .okey4 ci skip tr =>
      -- recognize the member value
      let ar := run json opts f fuel (.any ci VALUE skip tr)
      if ar.stop then ar
      else run json opts f fuel (.okey5 ar.i skip ar.tr)
    | .okey5 ai skip tr =>
      -- scan to `,` or `}`
      let mr := vcomma json ai 125
      if mr.stop then ⟨mr.i, mr.ok, true, tr⟩
      else if rd json mr.i = 125 then ⟨mr.i + 1, true, false, tr⟩
      else run json opts f fuel (.okey6 mr.i skip tr)
    | .okey6 mi skip tr =>
      -- fire the COMMA callback, whitespace, then the next key
      let p := fireStop f skip tr ⟨mi, mi + 1, COMMA⟩
      if p.1 then ⟨mi, true, true, p.2⟩
      else
        let j := skipWs json (mi + 1)
        if j < json.length then
          if rd json j = 34 then run json opts f fuel (.okey j skip p.2)
          else ⟨j, false, true, p.2⟩
        else ⟨j, false, true, p.2⟩
    | .arr i skip tr =>
      -- varray: whitespace, then `]` or elements
      let j := skipWs json i
      if j < json.length then
        if rd json j = 93 then ⟨j + 1, true, false, tr⟩
        else run json opts f fuel (.elems j skip tr)
      else ⟨j, false, true, tr⟩
    | .elems i skip tr =>
      -- element loop of varray: recognize one element
      let j := skipWs json i
      if j < json.length then
        let ar := run json opts f fuel (.any j VALUE skip tr)
        if ar.stop then ar
        else run json opts f fuel (.elems1 ar.i skip ar.tr)
      else ⟨j, false, true, tr⟩
    | .elems1 ai skip tr =>
      -- scan to `,` or `]`
      let mr := vcomma json ai 93
      if mr.stop then ⟨mr.i, mr.ok, true, tr⟩
      else if rd json mr.i = 93 then ⟨mr.i + 1, true, false, tr⟩
      else run json opts f fuel (.elems2 mr.i skip tr)
    | .elems2 mi skip tr =>
      -- fire the COMMA callback and continue with the next element
      let p := fireStop f skip tr ⟨mi, mi + 1, COMMA⟩
      if p.1 then ⟨mi, true, true, p.2⟩
      else run json opts f fuel (.elems (mi + 1) skip p.2)

/-- `vany`: recognize any value at `i` (after skipping leading whitespace).
`dinfo` carries the positional flags (`START` or `VALUE`). -/
def vany (fuel : Nat) (json : List Nat) (i : Nat) (opts : Nat) (dinfo : Nat)
    (f : Vis) (skip : Bool) (tr : List Ev) : PRes :=
  run json opts f fuel (.any i dinfo skip tr)

/-- Container open (`{` or `[` at `i`): OPEN callback then the body. -/
def vopen (fuel : Nat) (json : List Nat) (i : Nat) (opts : Nat) (dinfo : Nat)
    (f : Vis) (skip : Bool) (tr : List Ev) (kind : Nat) : PRes :=
  run json opts f fuel (.opn i dinfo skip tr kind)

/-- Container body (with `oskip` the effective skip for the children) and
the CLOSE callback. -/
def vbody (fuel : Nat) (json : List Nat) (i : Nat) (opts : Nat) (dinfo : Nat)
    (f : Vis) (skip oskip : Bool) (tr : List Ev) (kind : Nat) : PRes :=
  run json opts f fuel (.body i dinfo skip oskip tr kind)

/-- `vobject`: at `i` just past `{`. -/
def vobject (fuel : Nat) (json : List Nat) (i : Nat) (opts : Nat) (f : Vis)
    (skip : Bool) (tr : List Ev) : PRes :=
  run json opts f fuel (.obj i skip tr)

/-- The `'key` loop of `vobject` (at the opening quote of a key). -/
def vokey (fuel : Nat) (json : List Nat) (i : Nat) (opts : Nat) (f : Vis)
    (skip : Bool) (tr : List Ev) : PRes :=
  run json opts f fuel (.okey i skip tr)

/-- `varray`: at `i` just past `[`. -/
def varray (fuel : Nat) (json : List Nat) (i : Nat) (opts : Nat) (f : Vis)
    (skip : Bool) (tr : List Ev) : PRes :=
  run json opts f fuel (.arr i skip tr)

/-- Element loop of `varray`. -/
def velems (fuel : Nat) (json : List Nat) (i : Nat) (opts : Nat) (f : Vis)
    (skip : Bool) (tr : List Ev) : PRes :=
  run json opts f fuel (.elems i skip tr)

/-- `vdoc`: the document driver — one value with `START`, then only
trailing whitespace may remain. -/
def vdoc (fuel : Nat) (json : List Nat) (i : Nat) (opts : Nat) (f : Vis)
    (skip : Bool) (tr : List Ev) : PRes :=
  let r := vany fuel json i opts START f skip tr
  if r.stop then r
  else
    let j := skipWs json r.i
    if j < json.length then ⟨j, false, true, r.tr⟩
    else ⟨j, true, false, r.tr⟩

/-- Fuel supplied by `parse`; any run advances the cursor at least once per
handful of mutual calls, so this bound is never reached on real runs. -/
def FUEL (json : List Nat) : Nat := 8 * (json.length + 2)

/-- Full parser state result (with trace), from offset 0 with empty trace. -/
def parseR (json : List Nat) (opts : Nat) (f : Vis) : PRes :=
  vdoc (FUEL json) json 0 opts f false []

/-- `parse`: the public entry point; negates the offset on error. -/
def parse (json : List Nat) (opts : Nat) (f : Vis) : Int :=
  let r := parseR json opts f
  if r.ok then (r.i : Int) else -(r.i : Int)

end PJson

namespace PJson

/-! ### Basic facts about the scanning loops -/

theorem rd_oob {json : List Nat} {i : Nat} (h : json.length ≤ i) : rd json i = 0 :=
  List.getD_eq_default json 0 h

theorem rd_pos_lt {json : List Nat} {i c : Nat} (h : rd json i = c) (hc : 0 < c) :
    i < json.length := by
  by_contra hi
  rw [rd_oob (by omega)] at h
  omega

theorem skipWsG_ge (json : List Nat) : ∀ g i, i ≤ skipWsG json g i := by
  intro g
  induction g with
  | zero => intro i; simp [skipWsG]
  | succ g ih =>
    intro i
    rw [skipWsG]
    split
    · exact le_trans (Nat.le_succ i) (ih (i + 1))
    · exact le_refl i

theorem skipWsG_le (json : List Nat) :
    ∀ g i, i ≤ json.length → skipWsG json g i ≤ json.length := by
  intro g
  induction g with
  | zero => intro i h; simpa [skipWsG] using h
  | succ g ih =>
    intro i h
    rw [skipWsG]
    split
    · exact ih (i + 1) (by omega)
    · exact h

theorem skipWs_ge (json : List Nat) (i : Nat) : i ≤ skipWs json i :=
  skipWsG_ge json _ i

theorem skipWs_le (json : List Nat) (i : Nat) (h : i ≤ json.length) :
    skipWs json i ≤ json.length :=
  skipWsG_le json _ i h

theorem digitsG_ge (json : List Nat) : ∀ g i, i ≤ digitsG json g i := by
  intro g
  induction g with
  | zero => intro i; simp [digitsG]
  | succ g ih =>
    intro i
    rw [digitsG]
    split
    · exact le_trans (Nat.le_succ i) (ih (i + 1))
    · exact le_refl i

theorem digitsG_le (json : List Nat) :
    ∀ g i, i ≤ json.length → digitsG json g i ≤ json.length := by
  intro g
  induction g with
  | zero => intro i h; simpa [digitsG] using h
  | succ g ih =>
    intro i h
    rw [digitsG]
    split
    · exact ih (i + 1) (by omega)
    · exact h

theorem digits_ge (json : List Nat) (i : Nat) : i ≤ digits json i :=
  digitsG_ge json _ i

theorem digits_le (json : List Nat) (i : Nat) (h : i ≤ json.length) :
    digits json i ≤ json.length :=
  digitsG_le json _ i h

theorem hexRun_le (json : List Nat) :
    ∀ k i, i < json.length →
      (hexRun json i k).1 ≤ json.length ∧
      ((hexRun json i k).2 = true →
        (hexRun json i k).1 = i + k ∧ i + k < json.length) := by
  intro k
  induction k with
  | zero =>
    intro i h
    refine ⟨by simpa [hexRun] using h.le, ?_⟩
    intro _
    simp only [hexRun]
    omega
  | succ k ih =>
    intro i h
    rw [hexRun]
    by_cases h1 : i + 1 = json.length
    · rw [if_pos h1]; simp; omega
    · rw [if_neg h1]
      by_cases h2 : ishex (rd json (i + 1)) = true
      · rw [if_pos h2]
        have hx := ih (i + 1) (by omega)
        refine ⟨hx.1, fun hb => ?_⟩
        obtain ⟨ha, hb'⟩ := hx.2 hb
        omega
      · rw [if_neg h2]; simp; omega

theorem vstringG_le (json : List Nat) :
    ∀ g i info, i ≤ json.length → (vstringG json g i info).i ≤ json.length := by
  intro g
  induction g with
  | zero => intro i info h; simpa [vstringG] using h
  | succ g ih =>
    intro i info h
    simp only [vstringG]
    by_cases h1 : i < json.length
    · rw [if_pos h1]
      by_cases h2 : isstrtok (rd json i) = true
      · rw [if_pos h2]
        by_cases h3 : rd json i = 34
        · rw [if_pos h3]; simpa using h1
        · rw [if_neg h3]
          by_cases h4 : rd json i < 32
          · rw [if_pos h4]; simpa using h
          · rw [if_neg h4]
            by_cases h5 : i + 1 = json.length
            · rw [if_pos h5]; simp; omega
            · rw [if_neg h5]
              by_cases h6 : isesc (rd json (i + 1)) = true
              · rw [if_pos h6]; exact ih _ _ (by omega)
              · rw [if_neg h6]
                by_cases h7 : rd json (i + 1) = 117
                · rw [if_pos h7]
                  have hx := hexRun_le json 4 (i + 1) (by omega)
                  by_cases h8 : (hexRun json (i + 1) 4).2 = true
                  · rw [if_pos h8]
                    obtain ⟨ha, hb⟩ := hx.2 h8
                    exact ih _ _ (by omega)
                  · rw [if_neg h8]; exact hx.1
                · rw [if_neg h7]; simp; omega
      · rw [if_neg h2]; exact ih _ _ (by omega)
    · rw [if_neg h1]; simpa using h

end PJson

namespace PJson

/-! ### Bounds and ok/stop dichotomy for the scalar scanners -/

theorem isnum_rd_lt {json : List Nat} {i : Nat} (h : isnum (rd json i) = true) :
    i < json.length := by
  refine rd_pos_lt (rfl : rd json i = rd json i) ?_
  simp only [isnum, Bool.and_eq_true, decide_eq_true_eq] at h
  omega

theorem vstringG_okstop (json : List Nat) :
    ∀ g i info, (vstringG json g i info).ok = !(vstringG json g i info).stop := by
  intro g
  induction g with
  | zero => intro i info; simp [vstringG]
  | succ g ih =>
    intro i info
    simp only [vstringG]
    split_ifs <;> first | rfl | exact ih _ _

theorem vstring_le {json : List Nat} {i : Nat} (h : i ≤ json.length) :
    (vstring json i).i ≤ json.length :=
  vstringG_le json _ i 0 h

theorem vstring_okstop (json : List Nat) (i : Nat) :
    (vstring json i).ok = !(vstring json i).stop :=
  vstringG_okstop json _ i 0

theorem vnumExp_le {json : List Nat} {i : Nat} (info : Nat) (h : i ≤ json.length) :
    (vnumExp json i info).i ≤ json.length := by
  simp only [vnumExp]
  by_cases h1 : rd json i = 101 ∨ rd json i = 69
  · rw [if_pos h1]
    have hi : i < json.length := by
      rcases h1 with h' | h'
      · exact rd_pos_lt h' (by omega)
      · exact rd_pos_lt h' (by omega)
    by_cases h2 : i + 1 = json.length
    · rw [if_pos h2]; dsimp only; omega
    · rw [if_neg h2]
      by_cases h3 : rd json (i + 1) = 43 ∨ rd json (i + 1) = 45
      · rw [if_pos h3]
        by_cases h4 : i + 1 + 1 = json.length
        · rw [if_pos h4]; dsimp only; omega
        · rw [if_neg h4]
          by_cases h5 : isnum (rd json (i + 1 + 1)) = true
          · rw [if_pos h5]; dsimp only
            exact digits_le json _ (by have := isnum_rd_lt h5; omega)
          · rw [if_neg h5]; dsimp only; omega
      · rw [if_neg h3]
        by_cases h4 : i + 1 = json.length
        · rw [if_pos h4]; dsimp only; omega
        · rw [if_neg h4]
          by_cases h5 : isnum (rd json (i + 1)) = true
          · rw [if_pos h5]; dsimp only
            exact digits_le json _ (by have := isnum_rd_lt h5; omega)
          · rw [if_neg h5]; dsimp only; omega
  · rw [if_neg h1]; dsimp only; exact h

theorem vnumExp_okstop (json : List Nat) (i info : Nat) :
    (vnumExp json i info).ok = !(vnumExp json i info).stop := by
  simp only [vnumExp]
  split_ifs <;> rfl

theorem vnumFrac_le {json : List Nat} {i : Nat} (info : Nat) (h : i ≤ json.length) :
    (vnumFrac json i info).i ≤ json.length := by
  simp only [vnumFrac]
  by_cases h1 : rd json i = 46
  · rw [if_pos h1]
    have hi : i < json.length := rd_pos_lt h1 (by omega)
    by_cases h2 : i + 1 = json.length
    · rw [if_pos h2]; dsimp only; omega
    · rw [if_neg h2]
      by_cases h3 : isnum (rd json (i + 1)) = true
      · rw [if_pos h3]
        have hd : digits json (i + 1 + 1) ≤ json.length :=
          digits_le json _ (by have := isnum_rd_lt h3; omega)
        by_cases h4 : digits json (i + 1 + 1) = json.length
        · rw [if_pos h4]; dsimp only; omega
        · rw [if_neg h4]; exact vnumExp_le (info ||| DOT) hd
      · rw [if_neg h3]; dsimp only; omega
  · rw [if_neg h1]; exact vnumExp_le info h

theorem vnumFrac_okstop (json : List Nat) (i info : Nat) :
    (vnumFrac json i info).ok = !(vnumFrac json i info).stop := by
  simp only [vnumFrac]
  split_ifs <;> first | rfl | apply vnumExp_okstop

theorem vnumSig_le {json : List Nat} {i : Nat} (info : Nat) (h : i ≤ json.length) :
    (vnumSig json i info).i ≤ json.length := by
  simp only [vnumSig]
  by_cases h1 : rd json i = 48
  · rw [if_pos h1]
    have hi : i < json.length := rd_pos_lt h1 (by omega)
    by_cases h2 : i + 1 = json.length
    · rw [if_pos h2]; dsimp only; omega
    · rw [if_neg h2]; exact vnumFrac_le info (by omega)
  · rw [if_neg h1]
    have hd : digits json i ≤ json.length := digits_le json i h
    by_cases h2 : digits json i = json.length
    · rw [if_pos h2]; dsimp only; omega
    · rw [if_neg h2]; exact vnumFrac_le info hd

theorem vnumSig_okstop (json : List Nat) (i info : Nat) :
    (vnumSig json i info).ok = !(vnumSig json i info).stop := by
  simp only [vnumSig]
  split_ifs <;> first | rfl | apply vnumFrac_okstop

theorem vnumber_le {json : List Nat} {i0 : Nat} (h : i0 ≤ json.length) :
    (vnumber json i0).i ≤ json.length := by
  simp only [vnumber]
  by_cases h1 : rd json (i0 - 1) = 45
  · rw [if_pos h1]
    have hi : i0 - 1 < json.length := rd_pos_lt h1 (by omega)
    by_cases h2 : i0 - 1 + 1 = json.length
    · rw [if_pos h2]; dsimp only; omega
    · rw [if_neg h2]
      by_cases h3 : isnum (rd json (i0 - 1 + 1)) = true
      · rw [if_pos h3]; exact vnumSig_le SIGN (by have := isnum_rd_lt h3; omega)
      · rw [if_neg h3]; dsimp only; omega
  · rw [if_neg h1]; exact vnumSig_le 0 (by omega)

theorem vnumber_okstop (json : List Nat) (i0 : Nat) :
    (vnumber json i0).ok = !(vnumber json i0).stop := by
  simp only [vnumber]
  split_ifs <;> first | rfl | apply vnumSig_okstop

theorem vtrue_le {json : List Nat} {i : Nat} (h : i ≤ json.length) :
    (vtrue json i).i ≤ json.length := by
  simp only [vtrue]
  split_ifs <;> simp <;> omega

theorem vtrue_okstop (json : List Nat) (i : Nat) :
    (vtrue json i).ok = !(vtrue json i).stop := by
  simp only [vtrue]
  split_ifs <;> rfl

theorem vnull_le {json : List Nat} {i : Nat} (h : i ≤ json.length) :
    (vnull json i).i ≤ json.length := by
  simp only [vnull]
  split_ifs <;> simp <;> omega

theorem vnull_okstop (json : List Nat) (i : Nat) :
    (vnull json i).ok = !(vnull json i).stop := by
  simp only [vnull]
  split_ifs <;> rfl

theorem vfalse_le {json : List Nat} {i : Nat} (h : i ≤ json.length) :
    (vfalse json i).i ≤ json.length := by
  simp only [vfalse]
  split_ifs <;> simp <;> omega

theorem vfalse_okstop (json : List Nat) (i : Nat) :
    (vfalse json i).ok = !(vfalse json i).stop := by
  simp only [vfalse]
  split_ifs <;> rfl

/-! ### Colon and comma scanner facts -/

theorem vcolonG_le (json : List Nat) :
    ∀ g i, i ≤ json.length → (vcolonG json g i).i ≤ json.length := by
  intro g
  induction g with
  | zero => intro i h; simpa [vcolonG] using h
  | succ g ih =>
    intro i h
    simp only [vcolonG]
    split_ifs with h1 h2 h3
    · simpa using h1
    · exact ih _ (by omega)
    · simpa using h
    · simpa using h

theorem vcolonG_spec (json : List Nat) :
    ∀ g i, (vcolonG json g i).stop = false →
      1 ≤ (vcolonG json g i).i ∧ (vcolonG json g i).i ≤ json.length ∧
      rd json ((vcolonG json g i).i - 1) = 58 := by
  intro g
  induction g with
  | zero => intro i h; simp [vcolonG] at h
  | succ g ih =>
    intro i h
    simp only [vcolonG] at h ⊢
    split_ifs at h ⊢ with h1 h2 h3
    · exact ⟨by simp, by simpa using h1, by simpa using h2⟩
    · exact ih _ h

theorem vcolonG_okstop (json : List Nat) :
    ∀ g i, (vcolonG json g i).ok = !(vcolonG json g i).stop := by
  intro g
  induction g with
  | zero => intro i; simp [vcolonG]
  | succ g ih =>
    intro i
    simp only [vcolonG]
    split_ifs <;> first | rfl | exact ih _

theorem vcolon_le {json : List Nat} {i : Nat} (h : i ≤ json.length) :
    (vcolon json i).i ≤ json.length :=
  vcolonG_le json _ i h

theorem vcolon_spec {json : List Nat} {i : Nat} (h : (vcolon json i).stop = false) :
    1 ≤ (vcolon json i).i ∧ (vcolon json i).i ≤ json.length ∧
    rd json ((vcolon json i).i - 1) = 58 :=
  vcolonG_spec json _ i h

theorem vcolon_okstop (json : List Nat) (i : Nat) :
    (vcolon json i).ok = !(vcolon json i).stop :=
  vcolonG_okstop json _ i

theorem vcommaG_le (json : List Nat) (endch : Nat) :
    ∀ g i, i ≤ json.length → (vcommaG json endch g i).i ≤ json.length := by
  intro g
  induction g with
  | zero => intro i h; simpa [vcommaG] using h
  | succ g ih =>
    intro i h
    simp only [vcommaG]
    split_ifs with h1 h2 h3 h4
    · simpa using h1.le
    · simpa using h1.le
    · exact ih _ (by omega)
    · simpa using h
    · simpa using h

theorem vcommaG_spec (json : List Nat) (endch : Nat) :
    ∀ g i, (vcommaG json endch g i).stop = false →
      (vcommaG json endch g i).i < json.length ∧
      (rd json ((vcommaG json endch g i).i) = 44 ∨
        rd json ((vcommaG json endch g i).i) = endch) := by
  intro g
  induction g with
  | zero => intro i h; simp [vcommaG] at h
  | succ g ih =>
    intro i h
    simp only [vcommaG] at h ⊢
    split_ifs at h ⊢ with h1 h2 h3 h4
    · exact ⟨by simpa using h1, Or.inl (by simpa using h2)⟩
    · exact ⟨by simpa using h1, Or.inr (by simpa using h3)⟩
    · exact ih _ h

theorem vcommaG_okstop (json : List Nat) (endch : Nat) :
    ∀ g i, (vcommaG json endch g i).ok = !(vcommaG json endch g i).stop := by
  intro g
  induction g with
  | zero => intro i; simp [vcommaG]
  | succ g ih =>
    intro i
    simp only [vcommaG]
    split_ifs <;> first | rfl | exact ih _

theorem vcomma_le {json : List Nat} {i : Nat} (endch : Nat) (h : i ≤ json.length) :
    (vcomma json i endch).i ≤ json.length :=
  vcommaG_le json endch _ i h

theorem vcomma_spec {json : List Nat} {i endch : Nat}
    (h : (vcomma json i endch).stop = false) :
    (vcomma json i endch).i < json.length ∧
    (rd json ((vcomma json i endch).i) = 44 ∨
      rd json ((vcomma json i endch).i) = endch) :=
  vcommaG_spec json endch _ i h

theorem vcomma_okstop (json : List Nat) (i endch : Nat) :
    (vcomma json i endch).ok = !(vcomma json i endch).stop :=
  vcommaG_okstop json endch _ i

/-! ### Squash bounds -/

theorem squashStrG_ge (json : List Nat) (s : Nat) :
    ∀ g i, i ≤ squashStrG json s g i := by
  intro g
  induction g with
  | zero => intro i; simp [squashStrG]
  | succ g ih =>
    intro i
    simp only [squashStrG]
    split_ifs <;> first | omega | exact le_trans (Nat.le_succ i) (ih (i + 1))

theorem squashStrG_le (json : List Nat) (s : Nat) :
    ∀ g i, i ≤ json.length → squashStrG json s g i ≤ json.length := by
  intro g
  induction g with
  | zero => intro i h; simpa [squashStrG] using h
  | succ g ih =>
    intro i h
    simp only [squashStrG]
    split_ifs with h1 <;> first | omega | exact ih (i + 1) (by omega)

theorem squashStr_ge (json : List Nat) (i s : Nat) : i ≤ squashStr json i s :=
  squashStrG_ge json s _ i

theorem squashStr_le {json : List Nat} {i : Nat} (s : Nat) (h : i ≤ json.length) :
    squashStr json i s ≤ json.length :=
  squashStrG_le json s _ i h

theorem squashG_ge (json : List Nat) :
    ∀ g i depth, i ≤ squashG json g i depth := by
  intro g
  induction g with
  | zero => intro i depth; simp [squashG]
  | succ g ih =>
    intro i depth
    simp only [squashG]
    split_ifs with h1 h2 h3 h4 h5 h6
    · have h7 := squashStr_ge json (i + 1) (i + 1)
      have h8 := ih (squashStr json (i + 1) (i + 1) + 1) depth
      omega
    · exact le_trans (Nat.le_succ i) (squashStr_ge json (i + 1) (i + 1))
    · exact le_trans (Nat.le_succ i) (ih (i + 1) (depth + 1))
    · omega
    · exact le_trans (Nat.le_succ i) (ih (i + 1) (depth - 1))
    · exact le_trans (Nat.le_succ i) (ih (i + 1) depth)
    · exact le_refl i

theorem squashG_le (json : List Nat) :
    ∀ g i depth, i ≤ json.length → squashG json g i depth ≤ json.length := by
  intro g
  induction g with
  | zero => intro i depth h; simpa [squashG] using h
  | succ g ih =>
    intro i depth h
    simp only [squashG]
    split_ifs with h1 h2 h3 h4 h5 h6
    · exact ih _ _ (by omega)
    · exact squashStr_le (i + 1) (by omega)
    · exact ih _ _ (by omega)
    · omega
    · exact ih _ _ (by omega)
    · exact ih _ _ (by omega)
    · exact h

theorem squash_ge (json : List Nat) (i : Nat) : i ≤ squash json i :=
  squashG_ge json _ i 1

theorem squash_le {json : List Nat} {i : Nat} (h : i ≤ json.length) :
    squash json i ≤ json.length :=
  squashG_le json _ i 1 h

end PJson

namespace PJson

/-! ### Helper facts about the callback wrappers -/

theorem vscalarTail_i (mark i2 info : Nat) (ok stop : Bool) (dinfo : Nat)
    (f : Vis) (skip : Bool) (tr : List Ev) :
    (vscalarTail mark i2 info ok stop dinfo f skip tr).i = i2 := by
  simp only [vscalarTail]
  split_ifs <;> rfl

theorem vclose_i (i dinfo : Nat) (f : Vis) (skip : Bool) (tr : List Ev) (kind : Nat) :
    (vclose i dinfo f skip tr kind).i = i := by
  simp only [vclose]
  split_ifs <;> rfl

theorem vclose_ok (i dinfo : Nat) (f : Vis) (skip : Bool) (tr : List Ev) (kind : Nat) :
    (vclose i dinfo f skip tr kind).ok = true := by
  simp only [vclose]
  split_ifs <;> rfl

end PJson

namespace PJson

/-! ### Cursor bound for the grammar recognizers -/

/-- Entry precondition on the cursor of each pending call, as established
at every call site. -/
def Call.pre (json : List Nat) : Call → Prop
  | .any i _ _ _ => i ≤ json.length
  | .opn i _ _ _ _ => i < json.length
  | .body i _ _ _ _ _ => i < json.length
  | .obj i _ _ => i ≤ json.length
  | .okey i _ _ => i < json.length
  | .okey1 _ si _ _ _ => si ≤ json.length
  | .okey2 si _ _ => si ≤ json.length
  | .okey3 ci _ _ => ci ≤ json.length
  | .okey4 ci _ _ => ci ≤ json.length
  | .okey5 ai _ _ => ai ≤ json.length
  | .okey6 mi _ _ => mi < json.length
  | .arr i _ _ => i ≤ json.length
  | .elems i _ _ => i ≤ json.length
  | .elems1 ai _ _ => ai ≤ json.length
  | .elems2 mi _ _ => mi < json.length

theorem run_le (json : List Nat) (opts : Nat) (f : Vis) :
    ∀ fuel c, Call.pre json c → (run json opts f fuel c).i ≤ json.length := by
  intro fuel
  induction fuel with
  | zero =>
    intro c hc
    cases c <;> simp only [run, Call.pos, Call.pre] at hc ⊢ <;> omega
  | succ n ih =>
    intro c hc
    cases c with
    | any i dinfo skip tr =>
      simp only [Call.pre] at hc
      have hj : skipWs json i ≤ json.length := skipWs_le json i hc
      simp only [run]
      by_cases h1 : skipWs json i < json.length
      · rw [if_pos h1]
        by_cases h2 : rd json (skipWs json i) = 34
        · rw [if_pos h2, vscalarTail_i]
          exact vstring_le (by omega)
        · rw [if_neg h2]
          by_cases h3 : rd json (skipWs json i) = 123
          · rw [if_pos h3]; exact ih _ h1
          · rw [if_neg h3]
            by_cases h4 : rd json (skipWs json i) = 91
            · rw [if_pos h4]; exact ih _ h1
            · rw [if_neg h4]
              by_cases h5 : rd json (skipWs json i) = 45 ∨ isnum (rd json (skipWs json i)) = true
              · rw [if_pos h5, vscalarTail_i]
                exact vnumber_le (by omega)
              · rw [if_neg h5]
                by_cases h6 : rd json (skipWs json i) = 116
                · rw [if_pos h6, vscalarTail_i]; exact vtrue_le (by omega)
                · rw [if_neg h6]
                  by_cases h7 : rd json (skipWs json i) = 110
                  · rw [if_pos h7, vscalarTail_i]; exact vnull_le (by omega)
                  · rw [if_neg h7]
                    by_cases h8 : rd json (skipWs json i) = 102
                    · rw [if_pos h8, vscalarTail_i]; exact vfalse_le (by omega)
                    · rw [if_neg h8]; exact hj
      · rw [if_neg h1]; exact hj
    | opn i dinfo skip tr kind =>
      simp only [Call.pre] at hc
      simp only [run]
      by_cases hs : skip = true
      · rw [if_pos hs]; exact ih _ hc
      · rw [if_neg hs]
        by_cases hr : f tr ⟨i, i + 1, kind ||| OPEN ||| dinfo⟩ = 0
        · rw [if_pos hr]; exact hc.le
        · rw [if_neg hr]; exact ih _ hc
    | body i dinfo skip oskip tr kind =>
      simp only [Call.pre] at hc
      simp only [run]
      by_cases hu : opts &&& UNCHECKED = UNCHECKED ∧ oskip = true
      · rw [if_pos hu, vclose_i]; exact squash_le (by omega)
      · rw [if_neg hu]
        by_cases hk : kind = OBJECT
        · rw [if_pos hk]
          by_cases hst : (run json opts f n (Call.obj (i + 1) oskip tr)).stop = true
          · rw [if_pos hst]; exact ih _ (by simpa [Call.pre] using hc)
          · rw [if_neg hst, vclose_i]; exact ih _ (by simpa [Call.pre] using hc)
        · rw [if_neg hk]
          by_cases hst : (run json opts f n (Call.arr (i + 1) oskip tr)).stop = true
          · rw [if_pos hst]; exact ih _ (by simpa [Call.pre] using hc)
          · rw [if_neg hst, vclose_i]; exact ih _ (by simpa [Call.pre] using hc)
    | obj i skip tr =>
      simp only [Call.pre] at hc
      have hj : skipWs json i ≤ json.length := skipWs_le json i hc
      simp only [run]
      by_cases h1 : skipWs json i < json.length
      · rw [if_pos h1]
        by_cases h2 : rd json (skipWs json i) = 125
        · rw [if_pos h2]; exact h1
        · rw [if_neg h2]
          by_cases h3 : rd json (skipWs json i) = 34
          · rw [if_pos h3]; exact ih _ h1
          · rw [if_neg h3]; exact hj
      · rw [if_neg h1]; exact hj
    | okey i skip tr =>
      simp only [Call.pre] at hc
      have hsr : (vstring json (i + 1)).i ≤ json.length := vstring_le (by omega)
      simp only [run]
      by_cases h1 : (vstring json (i + 1)).stop = true
      · rw [if_pos h1]; exact hsr
      · rw [if_neg h1]; exact ih _ hsr
    | okey1 mark si sinfo skip tr =>
      simp only [Call.pre] at hc
      simp only [run]
      by_cases h1 : (fireStop f skip tr ⟨mark, si, sinfo ||| KEY ||| STRING⟩).1 = true
      · rw [if_pos h1]; exact hc
      · rw [if_neg h1]; exact ih _ hc
    | okey2 si skip tr =>
      simp only [Call.pre] at hc
      have hcr : (vcolon json si).i ≤ json.length := vcolon_le hc
      simp only [run]
      by_cases h1 : (vcolon json si).stop = true
      · rw [if_pos h1]; exact hcr
      · rw [if_neg h1]; exact ih _ hcr
    | okey3 ci skip tr =>
      simp only [Call.pre] at hc
      simp only [run]
      by_cases h1 : (fireStop f skip tr ⟨ci - 1, ci, COLON⟩).1 = true
      · rw [if_pos h1]; exact hc
      · rw [if_neg h1]; exact ih _ hc
    | okey4 ci skip tr =>
      simp only [Call.pre] at hc
      simp only [run]
      have har : (run json opts f n (Call.any ci VALUE skip tr)).i ≤ json.length :=
        ih _ hc
      by_cases h1 : (run json opts f n (Call.any ci VALUE skip tr)).stop = true
      · rw [if_pos h1]; exact har
      · rw [if_neg h1]; exact ih _ har
    | okey5 ai skip tr =>
      simp only [Call.pre] at hc
      have hmr : (vcomma json ai 125).i ≤ json.length := vcomma_le 125 hc
      simp only [run]
      by_cases h1 : (vcomma json ai 125).stop = true
      · rw [if_pos h1]; exact hmr
      · rw [if_neg h1]
        have hsp := vcomma_spec (show (vcomma json ai 125).stop = false by simpa using h1)
        by_cases h2 : rd json (vcomma json ai 125).i = 125
        · rw [if_pos h2]; exact hsp.1
        · rw [if_neg h2]; exact ih _ hsp.1
    | okey6 mi skip tr =>
      simp only [Call.pre] at hc
      simp only [run]
      have hj : skipWs json (mi + 1) ≤ json.length := skipWs_le json _ (by omega)
      by_cases h1 : (fireStop f skip tr ⟨mi, mi + 1, COMMA⟩).1 = true
      · rw [if_pos h1]; exact hc.le
      · rw [if_neg h1]
        by_cases h2 : skipWs json (mi + 1) < json.length
        · rw [if_pos h2]
          by_cases h3 : rd json (skipWs json (mi + 1)) = 34
          · rw [if_pos h3]; exact ih _ h2
          · rw [if_neg h3]; exact hj
        · rw [if_neg h2]; exact hj
    | arr i skip tr =>
      simp only [Call.pre] at hc
      have hj : skipWs json i ≤ json.length := skipWs_le json i hc
      simp only [run]
      by_cases h1 : skipWs json i < json.length
      · rw [if_pos h1]
        by_cases h2 : rd json (skipWs json i) = 93
        · rw [if_pos h2]; exact h1
        · rw [if_neg h2]; exact ih _ h1.le
      · rw [if_neg h1]; exact hj
    | elems i skip tr =>
      simp only [Call.pre] at hc
      have hj : skipWs json i ≤ json.length := skipWs_le json i hc
      simp only [run]
      by_cases h1 : skipWs json i < json.length
      · rw [if_pos h1]
        have har : (run json opts f n (Call.any (skipWs json i) VALUE skip tr)).i ≤ json.length :=
          ih _ hj
        by_cases h2 : (run json opts f n (Call.any (skipWs json i) VALUE skip tr)).stop = true
        · rw [if_pos h2]; exact har
        · rw [if_neg h2]; exact ih _ har
      · rw [if_neg h1]; exact hj
    | elems1 ai skip tr =>
      simp only [Call.pre] at hc
      have hmr : (vcomma json ai 93).i ≤ json.length := vcomma_le 93 hc
      simp only [run]
      by_cases h1 : (vcomma json ai 93).stop = true
      · rw [if_pos h1]; exact hmr
      · rw [if_neg h1]
        have hsp := vcomma_spec (show (vcomma json ai 93).stop = false by simpa using h1)
        by_cases h2 : rd json (vcomma json ai 93).i = 93
        · rw [if_pos h2]; exact hsp.1
        · rw [if_neg h2]; exact ih _ hsp.1
    | elems2 mi skip tr =>
      simp only [Call.pre] at hc
      simp only [run]
      by_cases h1 : (fireStop f skip tr ⟨mi, mi + 1, COMMA⟩).1 = true
      · rw [if_pos h1]; exact hc.le
      · rw [if_neg h1]; exact ih _ (by simpa [Call.pre] using hc)

theorem vany_le {fuel : Nat} {json : List Nat} {i opts dinfo : Nat} {f : Vis}
    {skip : Bool} {tr : List Ev} (h : i ≤ json.length) :
    (vany fuel json i opts dinfo f skip tr).i ≤ json.length :=
  run_le json opts f fuel _ h

end PJson

namespace PJson

/-! ### Facts about `fireStop`, `vclose`, `vscalarTail` -/

theorem fireStop_skipped (f : Vis) (tr : List Ev) (ev : Ev) :
    fireStop f true tr ev = (false, tr) := rfl

theorem fireStop_nostop (f : Vis) (skip : Bool) (tr : List Ev) (ev : Ev)
    (hf : ∀ t e, f t e ≠ 0) : (fireStop f skip tr ev).1 = false := by
  simp only [fireStop]
  split_ifs <;> simp [hf tr ev]

theorem fireStop_fired {f : Vis} {skip : Bool} {tr : List Ev} {ev : Ev}
    (h : (fireStop f skip tr ev).1 = true) :
    skip = false ∧ f tr ev = 0 ∧ (fireStop f skip tr ev).2 = ev :: tr := by
  by_cases hs : skip = true
  · rw [hs, fireStop_skipped] at h; simp at h
  · have hs' : skip = false := by revert hs; cases skip <;> simp
    rw [hs'] at h ⊢
    simp only [fireStop, if_neg (by simp : ¬(false = true))] at h ⊢
    simpa using h

theorem fireStop_notfired {f : Vis} {skip : Bool} {tr : List Ev} {ev : Ev}
    (h : ¬(fireStop f skip tr ev).1 = true) :
    (fireStop f skip tr ev).2 = tr ∨ (fireStop f skip tr ev).2 = ev :: tr := by
  simp only [fireStop]
  split_ifs <;> simp

theorem vclose_skipped (i dinfo : Nat) (f : Vis) (tr : List Ev) (kind : Nat) :
    vclose i dinfo f true tr kind = ⟨i, true, false, tr⟩ := rfl

theorem vclose_nostop (i dinfo : Nat) (f : Vis) (skip : Bool) (tr : List Ev)
    (kind : Nat) (hf : ∀ t e, f t e ≠ 0) :
    (vclose i dinfo f skip tr kind).stop = false := by
  simp only [vclose]
  split_ifs with h1 h2 h3 h4
  · rfl
  · exact absurd h3 (hf _ _)
  · rfl
  · exact absurd h4 (hf _ _)
  · rfl

theorem vclose_stopLast {i dinfo : Nat} {f : Vis} {skip : Bool} {tr : List Ev}
    {kind : Nat} (h : (vclose i dinfo f skip tr kind).stop = true) :
    ∃ ev, (vclose i dinfo f skip tr kind).tr = ev :: tr ∧ f tr ev = 0 := by
  simp only [vclose] at h ⊢
  split_ifs at h ⊢ with h1 h2 h3 h4
  · exact ⟨_, rfl, h3⟩
  · exact ⟨_, rfl, h4⟩

theorem vscalarTail_skipped (mark i2 info : Nat) (ok stop : Bool) (dinfo : Nat)
    (f : Vis) (tr : List Ev) :
    vscalarTail mark i2 info ok stop dinfo f true tr = ⟨i2, ok, stop, tr⟩ := by
  simp only [vscalarTail]
  split_ifs <;> rfl

theorem vscalarTail_nostop {mark i2 info : Nat} {ok stop : Bool} {dinfo : Nat}
    {f : Vis} {skip : Bool} {tr : List Ev} (hok : ok = !stop)
    (hf : ∀ t e, f t e ≠ 0) :
    (vscalarTail mark i2 info ok stop dinfo f skip tr).stop = true →
    (vscalarTail mark i2 info ok stop dinfo f skip tr).ok = false := by
  intro h
  simp only [vscalarTail] at h ⊢
  split_ifs at h ⊢ with h1 h2 h3 h4 h5
  · simpa [h1] using hok
  · exact absurd h h1
  · exact absurd h4 (hf _ _)
  · exact absurd h h1
  · exact absurd h5 (hf _ _)
  · exact absurd h h1

theorem vscalarTail_stopLast {mark i2 info : Nat} {ok stop : Bool} {dinfo : Nat}
    {f : Vis} {skip : Bool} {tr : List Ev} (hok : ok = !stop) :
    (vscalarTail mark i2 info ok stop dinfo f skip tr).ok = true →
    (vscalarTail mark i2 info ok stop dinfo f skip tr).stop = true →
    ∃ ev tl, (vscalarTail mark i2 info ok stop dinfo f skip tr).tr = ev :: tl ∧
      f tl ev = 0 := by
  intro hko hst
  simp only [vscalarTail] at hko hst ⊢
  split_ifs at hko hst ⊢ with h1 h2 h3 h4 h5
  · subst h1; simp only [Bool.not_true] at hok; subst hok; simp at hko
  · exact absurd hst h1
  · exact ⟨_, tr, rfl, h4⟩
  · exact absurd hst h1
  · exact ⟨_, tr, rfl, h5⟩
  · exact absurd hst h1

end PJson

namespace PJson

/-! ### Suppressed subtrees: no callbacks fire, and no visitor stop arises -/

/-- The call is inside a suppressed (skip) subtree. -/
def Call.skippy : Call → Prop
  | .any _ _ skip _ => skip = true
  | .opn _ _ skip _ _ => skip = true
  | .body _ _ skip oskip _ _ => skip = true ∧ oskip = true
  | .obj _ skip _ => skip = true
  | .okey _ skip _ => skip = true
  | .okey1 _ _ _ skip _ => skip = true
  | .okey2 _ skip _ => skip = true
  | .okey3 _ skip _ => skip = true
  | .okey4 _ skip _ => skip = true
  | .okey5 _ skip _ => skip = true
  | .okey6 _ skip _ => skip = true
  | .arr _ skip _ => skip = true
  | .elems _ skip _ => skip = true
  | .elems1 _ skip _ => skip = true
  | .elems2 _ skip _ => skip = true

theorem run_skip (json : List Nat) (opts : Nat) (f : Vis) :
    ∀ fuel c, Call.skippy c →
      (run json opts f fuel c).tr = c.trace ∧
      ((run json opts f fuel c).stop = true → (run json opts f fuel c).ok = false) := by
  intro fuel
  induction fuel with
  | zero =>
    intro c hc
    cases c <;> simp [run, Call.trace]
  | succ n ih =>
    intro c hc
    cases c with
    | any i dinfo skip tr =>
      simp only [Call.skippy] at hc
      subst hc
      simp only [run, Call.trace]
      by_cases h1 : skipWs json i < json.length
      · rw [if_pos h1]
        by_cases h2 : rd json (skipWs json i) = 34
        · rw [if_pos h2, vscalarTail_skipped]
          exact ⟨rfl, fun hst => by
            have hx := vstring_okstop json (skipWs json i + 1)
            dsimp only at hst ⊢; rw [hst] at hx; simpa using hx⟩
        · rw [if_neg h2]
          by_cases h3 : rd json (skipWs json i) = 123
          · rw [if_pos h3]; simpa [Call.trace] using ih _ (by simp [Call.skippy])
          · rw [if_neg h3]
            by_cases h4 : rd json (skipWs json i) = 91
            · rw [if_pos h4]; simpa [Call.trace] using ih _ (by simp [Call.skippy])
            · rw [if_neg h4]
              by_cases h5 : rd json (skipWs json i) = 45 ∨ isnum (rd json (skipWs json i)) = true
              · rw [if_pos h5, vscalarTail_skipped]
                exact ⟨rfl, fun hst => by
                  have hx := vnumber_okstop json (skipWs json i + 1)
                  dsimp only at hst ⊢; rw [hst] at hx; simpa using hx⟩
              · rw [if_neg h5]
                by_cases h6 : rd json (skipWs json i) = 116
                · rw [if_pos h6, vscalarTail_skipped]
                  exact ⟨rfl, fun hst => by
                    have hx := vtrue_okstop json (skipWs json i + 1)
                    dsimp only at hst ⊢; rw [hst] at hx; simpa using hx⟩
                · rw [if_neg h6]
                  by_cases h7 : rd json (skipWs json i) = 110
                  · rw [if_pos h7, vscalarTail_skipped]
                    exact ⟨rfl, fun hst => by
                      have hx := vnull_okstop json (skipWs json i + 1)
                      dsimp only at hst ⊢; rw [hst] at hx; simpa using hx⟩
                  · rw [if_neg h7]
                    by_cases h8 : rd json (skipWs json i) = 102
                    · rw [if_pos h8, vscalarTail_skipped]
                      exact ⟨rfl, fun hst => by
                        have hx := vfalse_okstop json (skipWs json i + 1)
                        dsimp only at hst ⊢; rw [hst] at hx; simpa using hx⟩
                    · rw [if_neg h8]; exact ⟨rfl, by simp⟩
      · rw [if_neg h1]; exact ⟨rfl, by simp⟩
    | opn i dinfo skip tr kind =>
      simp only [Call.skippy] at hc
      subst hc
      simp only [run, Call.trace]
      rw [if_pos trivial]
      simpa [Call.trace] using ih _ (by simp [Call.skippy])
    | body i dinfo skip oskip tr kind =>
      obtain ⟨hc1, hc2⟩ := hc
      subst hc1; subst hc2
      simp only [run, Call.trace]
      by_cases hu : opts &&& UNCHECKED = UNCHECKED
      · rw [if_pos (⟨hu, trivial⟩ : opts &&& UNCHECKED = UNCHECKED ∧ True), vclose_skipped]
        exact ⟨rfl, by simp⟩
      · rw [if_neg (by simp [hu] : ¬(opts &&& UNCHECKED = UNCHECKED ∧ True))]
        by_cases hk : kind = OBJECT
        · rw [if_pos hk]
          obtain ⟨htr, himp⟩ := ih (Call.obj (i + 1) true tr) (by simp [Call.skippy])
          simp only [Call.trace] at htr
          by_cases hst : (run json opts f n (Call.obj (i + 1) true tr)).stop = true
          · rw [if_pos hst]; exact ⟨htr, himp⟩
          · rw [if_neg hst, vclose_skipped]; exact ⟨htr, by simp⟩
        · rw [if_neg hk]
          obtain ⟨htr, himp⟩ := ih (Call.arr (i + 1) true tr) (by simp [Call.skippy])
          simp only [Call.trace] at htr
          by_cases hst : (run json opts f n (Call.arr (i + 1) true tr)).stop = true
          · rw [if_pos hst]; exact ⟨htr, himp⟩
          · rw [if_neg hst, vclose_skipped]; exact ⟨htr, by simp⟩
    | obj i skip tr =>
      simp only [Call.skippy] at hc
      subst hc
      simp only [run, Call.trace]
      by_cases h1 : skipWs json i < json.length
      · rw [if_pos h1]
        by_cases h2 : rd json (skipWs json i) = 125
        · rw [if_pos h2]; exact ⟨rfl, by simp⟩
        · rw [if_neg h2]
          by_cases h3 : rd json (skipWs json i) = 34
          · rw [if_pos h3]; simpa [Call.trace] using ih _ (by simp [Call.skippy])
          · rw [if_neg h3]; exact ⟨rfl, by simp⟩
      · rw [if_neg h1]; exact ⟨rfl, by simp⟩
    | okey i skip tr =>
      simp only [Call.skippy] at hc
      subst hc
      simp only [run, Call.trace]
      by_cases h1 : (vstring json (i + 1)).stop = true
      · rw [if_pos h1]
        exact ⟨rfl, fun _ => by
          have hx := vstring_okstop json (i + 1)
          rw [h1] at hx; simpa using hx⟩
      · rw [if_neg h1]; simpa [Call.trace] using ih _ (by simp [Call.skippy])
    | okey1 mark si sinfo skip tr =>
      simp only [Call.skippy] at hc
      subst hc
      have he : run json opts f (n + 1) (Call.okey1 mark si sinfo true tr) =
          run json opts f n (Call.okey2 si true tr) := by
        simp [run, fireStop_skipped]
      rw [he]
      simpa [Call.trace] using ih _ (by simp [Call.skippy])
    | okey2 si skip tr =>
      simp only [Call.skippy] at hc
      subst hc
      simp only [run, Call.trace]
      by_cases h1 : (vcolon json si).stop = true
      · rw [if_pos h1]
        exact ⟨rfl, fun _ => by
          have hx := vcolon_okstop json si
          rw [h1] at hx; simpa using hx⟩
      · rw [if_neg h1]; simpa [Call.trace] using ih _ (by simp [Call.skippy])
    | okey3 ci skip tr =>
      simp only [Call.skippy] at hc
      subst hc
      have he : run json opts f (n + 1) (Call.okey3 ci true tr) =
          run json opts f n (Call.okey4 ci true tr) := by
        simp [run, fireStop_skipped]
      rw [he]
      simpa [Call.trace] using ih _ (by simp [Call.skippy])
    | okey4 ci skip tr =>
      simp only [Call.skippy] at hc
      subst hc
      simp only [run, Call.trace]
      obtain ⟨htr, himp⟩ := ih (Call.any ci VALUE true tr) (by simp [Call.skippy])
      simp only [Call.trace] at htr
      by_cases h1 : (run json opts f n (Call.any ci VALUE true tr)).stop = true
      · rw [if_pos h1]; exact ⟨htr, himp⟩
      · rw [if_neg h1]
        obtain ⟨htr2, himp2⟩ := ih (Call.okey5 (run json opts f n (Call.any ci VALUE true tr)).i
          true (run json opts f n (Call.any ci VALUE true tr)).tr) (by simp [Call.skippy])
        simp only [Call.trace] at htr2
        exact ⟨htr2.trans htr, himp2⟩
    | okey5 ai skip tr =>
      simp only [Call.skippy] at hc
      subst hc
      simp only [run, Call.trace]
      by_cases h1 : (vcomma json ai 125).stop = true
      · rw [if_pos h1]
        exact ⟨rfl, fun _ => by
          have hx := vcomma_okstop json ai 125
          rw [h1] at hx; simpa using hx⟩
      · rw [if_neg h1]
        by_cases h2 : rd json (vcomma json ai 125).i = 125
        · rw [if_pos h2]; exact ⟨rfl, by simp⟩
        · rw [if_neg h2]; simpa [Call.trace] using ih _ (by simp [Call.skippy])
    | okey6 mi skip tr =>
      simp only [Call.skippy] at hc
      subst hc
      by_cases h2 : skipWs json (mi + 1) < json.length
      · by_cases h3 : rd json (skipWs json (mi + 1)) = 34
        · have he : run json opts f (n + 1) (Call.okey6 mi true tr) =
              run json opts f n (Call.okey (skipWs json (mi + 1)) true tr) := by
            simp [run, fireStop_skipped, h2, h3]
          rw [he]
          simpa [Call.trace] using ih _ (by simp [Call.skippy])
        · have he : run json opts f (n + 1) (Call.okey6 mi true tr) =
              ⟨skipWs json (mi + 1), false, true, tr⟩ := by
            simp [run, fireStop_skipped, h2, h3]
          rw [he]
          exact ⟨rfl, by simp⟩
      · have he : run json opts f (n + 1) (Call.okey6 mi true tr) =
            ⟨skipWs json (mi + 1), false, true, tr⟩ := by
          simp [run, fireStop_skipped, h2]
        rw [he]
        exact ⟨rfl, by simp⟩
    | arr i skip tr =>
      simp only [Call.skippy] at hc
      subst hc
      simp only [run, Call.trace]
      by_cases h1 : skipWs json i < json.length
      · rw [if_pos h1]
        by_cases h2 : rd json (skipWs json i) = 93
        · rw [if_pos h2]; exact ⟨rfl, by simp⟩
        · rw [if_neg h2]; simpa [Call.trace] using ih _ (by simp [Call.skippy])
      · rw [if_neg h1]; exact ⟨rfl, by simp⟩
    | elems i skip tr =>
      simp only [Call.skippy] at hc
      subst hc
      simp only [run, Call.trace]
      by_cases h1 : skipWs json i < json.length
      · rw [if_pos h1]
        obtain ⟨htr, himp⟩ := ih (Call.any (skipWs json i) VALUE true tr) (by simp [Call.skippy])
        simp only [Call.trace] at htr
        by_cases h2 : (run json opts f n (Call.any (skipWs json i) VALUE true tr)).stop = true
        · rw [if_pos h2]; exact ⟨htr, himp⟩
        · rw [if_neg h2]
          obtain ⟨htr2, himp2⟩ := ih (Call.elems1
            (run json opts f n (Call.any (skipWs json i) VALUE true tr)).i true
            (run json opts f n (Call.any (skipWs json i) VALUE true tr)).tr)
            (by simp [Call.skippy])
          simp only [Call.trace] at htr2
          exact ⟨htr2.trans htr, himp2⟩
      · rw [if_neg h1]; exact ⟨rfl, by simp⟩
    | elems1 ai skip tr =>
      simp only [Call.skippy] at hc
      subst hc
      simp only [run, Call.trace]
      by_cases h1 : (vcomma json ai 93).stop = true
      · rw [if_pos h1]
        exact ⟨rfl, fun _ => by
          have hx := vcomma_okstop json ai 93
          rw [h1] at hx; simpa using hx⟩
      · rw [if_neg h1]
        by_cases h2 : rd json (vcomma json ai 93).i = 93
        · rw [if_pos h2]; exact ⟨rfl, by simp⟩
        · rw [if_neg h2]; simpa [Call.trace] using ih _ (by simp [Call.skippy])
    | elems2 mi skip tr =>
      simp only [Call.skippy] at hc
      subst hc
      have he : run json opts f (n + 1) (Call.elems2 mi true tr) =
          run json opts f n (Call.elems (mi + 1) true tr) := by
        simp [run, fireStop_skipped]
      rw [he]
      simpa [Call.trace] using ih _ (by simp [Call.skippy])

end PJson

namespace PJson

/-! ### A visitor that never returns 0 can never stop the parse -/

theorem run_nostop (json : List Nat) (opts : Nat) (f : Vis)
    (hf : ∀ t e, f t e ≠ 0) :
    ∀ fuel c, (run json opts f fuel c).stop = true →
      (run json opts f fuel c).ok = false := by
  intro fuel
  induction fuel with
  | zero =>
    intro c
    cases c <;> simp [run]
  | succ n ih =>
    intro c
    cases c with
    | any i dinfo skip tr =>
      simp only [run]
      by_cases h1 : skipWs json i < json.length
      · rw [if_pos h1]
        by_cases h2 : rd json (skipWs json i) = 34
        · rw [if_pos h2]; exact vscalarTail_nostop (vstring_okstop json _) hf
        · rw [if_neg h2]
          by_cases h3 : rd json (skipWs json i) = 123
          · rw [if_pos h3]; exact ih _
          · rw [if_neg h3]
            by_cases h4 : rd json (skipWs json i) = 91
            · rw [if_pos h4]; exact ih _
            · rw [if_neg h4]
              by_cases h5 : rd json (skipWs json i) = 45 ∨ isnum (rd json (skipWs json i)) = true
              · rw [if_pos h5]; exact vscalarTail_nostop (vnumber_okstop json _) hf
              · rw [if_neg h5]
                by_cases h6 : rd json (skipWs json i) = 116
                · rw [if_pos h6]; exact vscalarTail_nostop (vtrue_okstop json _) hf
                · rw [if_neg h6]
                  by_cases h7 : rd json (skipWs json i) = 110
                  · rw [if_pos h7]; exact vscalarTail_nostop (vnull_okstop json _) hf
                  · rw [if_neg h7]
                    by_cases h8 : rd json (skipWs json i) = 102
                    · rw [if_pos h8]; exact vscalarTail_nostop (vfalse_okstop json _) hf
                    · rw [if_neg h8]; intro _; rfl
      · rw [if_neg h1]; intro _; rfl
    | opn i dinfo skip tr kind =>
      simp only [run]
      by_cases hs : skip = true
      · rw [if_pos hs]; exact ih _
      · rw [if_neg hs]
        rw [if_neg (hf tr ⟨i, i + 1, kind ||| OPEN ||| dinfo⟩)]
        exact ih _
    | body i dinfo skip oskip tr kind =>
      simp only [run]
      by_cases hu : opts &&& UNCHECKED = UNCHECKED ∧ oskip = true
      · rw [if_pos hu]
        intro h
        rw [vclose_nostop _ _ _ _ _ _ hf] at h
        simp at h
      · rw [if_neg hu]
        by_cases hk : kind = OBJECT
        · rw [if_pos hk]
          by_cases hst : (run json opts f n (Call.obj (i + 1) oskip tr)).stop = true
          · rw [if_pos hst]; exact ih _
          · rw [if_neg hst]
            intro h
            rw [vclose_nostop _ _ _ _ _ _ hf] at h
            simp at h
        · rw [if_neg hk]
          by_cases hst : (run json opts f n (Call.arr (i + 1) oskip tr)).stop = true
          · rw [if_pos hst]; exact ih _
          · rw [if_neg hst]
            intro h
            rw [vclose_nostop _ _ _ _ _ _ hf] at h
            simp at h
    | obj i skip tr =>
      simp only [run]
      by_cases h1 : skipWs json i < json.length
      · rw [if_pos h1]
        by_cases h2 : rd json (skipWs json i) = 125
        · rw [if_pos h2]; intro h; dsimp only at h; simp at h
        · rw [if_neg h2]
          by_cases h3 : rd json (skipWs json i) = 34
          · rw [if_pos h3]; exact ih _
          · rw [if_neg h3]; intro _; rfl
      · rw [if_neg h1]; intro _; rfl
    | okey i skip tr =>
      simp only [run]
      by_cases h1 : (vstring json (i + 1)).stop = true
      · rw [if_pos h1]
        intro _
        have hx := vstring_okstop json (i + 1)
        rw [h1] at hx
        dsimp only
        simpa using hx
      · rw [if_neg h1]; exact ih _
    | okey1 mark si sinfo skip tr =>
      simp only [run]
      by_cases hp : (fireStop f skip tr ⟨mark, si, sinfo ||| KEY ||| STRING⟩).1 = true
      · exact absurd hp (by simp [fireStop_nostop _ _ _ _ hf])
      · rw [if_neg hp]; exact ih _
    | okey2 si skip tr =>
      simp only [run]
      by_cases h1 : (vcolon json si).stop = true
      · rw [if_pos h1]
        intro _
        have hx := vcolon_okstop json si
        rw [h1] at hx
        dsimp only
        simpa using hx
      · rw [if_neg h1]; exact ih _
    | okey3 ci skip tr =>
      simp only [run]
      by_cases hp : (fireStop f skip tr ⟨ci - 1, ci, COLON⟩).1 = true
      · exact absurd hp (by simp [fireStop_nostop _ _ _ _ hf])
      · rw [if_neg hp]; exact ih _
    | okey4 ci skip tr =>
      simp only [run]
      by_cases h1 : (run json opts f n (Call.any ci VALUE skip tr)).stop = true
      · rw [if_pos h1]; exact ih _
      · rw [if_neg h1]; exact ih _
    | okey5 ai skip tr =>
      simp only [run]
      by_cases h1 : (vcomma json ai 125).stop = true
      · rw [if_pos h1]
        intro _
        have hx := vcomma_okstop json ai 125
        rw [h1] at hx
        dsimp only
        simpa using hx
      · rw [if_neg h1]
        by_cases h2 : rd json (vcomma json ai 125).i = 125
        · rw [if_pos h2]; intro h; dsimp only at h; simp at h
        · rw [if_neg h2]; exact ih _
    | okey6 mi skip tr =>
      simp only [run]
      by_cases hp : (fireStop f skip tr ⟨mi, mi + 1, COMMA⟩).1 = true
      · exact absurd hp (by simp [fireStop_nostop _ _ _ _ hf])
      · rw [if_neg hp]
        by_cases h2 : skipWs json (mi + 1) < json.length
        · rw [if_pos h2]
          by_cases h3 : rd json (skipWs json (mi + 1)) = 34
          · rw [if_pos h3]; exact ih _
          · rw [if_neg h3]; intro _; rfl
        · rw [if_neg h2]; intro _; rfl
    | arr i skip tr =>
      simp only [run]
      by_cases h1 : skipWs json i < json.length
      · rw [if_pos h1]
        by_cases h2 : rd json (skipWs json i) = 93
        · rw [if_pos h2]; intro h; dsimp only at h; simp at h
        · rw [if_neg h2]; exact ih _
      · rw [if_neg h1]; intro _; rfl
    | elems i skip tr =>
      simp only [run]
      by_cases h1 : skipWs json i < json.length
      · rw [if_pos h1]
        by_cases h2 : (run json opts f n (Call.any (skipWs json i) VALUE skip tr)).stop = true
        · rw [if_pos h2]; exact ih _
        · rw [if_neg h2]; exact ih _
      · rw [if_neg h1]; intro _; rfl
    | elems1 ai skip tr =>
      simp only [run]
      by_cases h1 : (vcomma json ai 93).stop = true
      · rw [if_pos h1]
        intro _
        have hx := vcomma_okstop json ai 93
        rw [h1] at hx
        dsimp only
        simpa using hx
      · rw [if_neg h1]
        by_cases h2 : rd json (vcomma json ai 93).i = 93
        · rw [if_pos h2]; intro h; dsimp only at h; simp at h
        · rw [if_neg h2]; exact ih _
    | elems2 mi skip tr =>
      simp only [run]
      by_cases hp : (fireStop f skip tr ⟨mi, mi + 1, COMMA⟩).1 = true
      · exact absurd hp (by simp [fireStop_nostop _ _ _ _ hf])
      · rw [if_neg hp]; exact ih _

end PJson

namespace PJson

/-! ### A visitor stop always comes from the callback that returned 0,
and no callback fires afterwards (the 0-returning event heads the trace) -/

theorem run_stopLast (json : List Nat) (opts : Nat) (f : Vis) :
    ∀ fuel c, (run json opts f fuel c).ok = true →
      (run json opts f fuel c).stop = true →
      ∃ ev tl, (run json opts f fuel c).tr = ev :: tl ∧ f tl ev = 0 := by
  intro fuel
  induction fuel with
  | zero =>
    intro c
    cases c <;> simp [run]
  | succ n ih =>
    intro c
    cases c with
    | any i dinfo skip tr =>
      simp only [run]
      by_cases h1 : skipWs json i < json.length
      · rw [if_pos h1]
        by_cases h2 : rd json (skipWs json i) = 34
        · rw [if_pos h2]; exact vscalarTail_stopLast (vstring_okstop json _)
        · rw [if_neg h2]
          by_cases h3 : rd json (skipWs json i) = 123
          · rw [if_pos h3]; exact ih _
          · rw [if_neg h3]
            by_cases h4 : rd json (skipWs json i) = 91
            · rw [if_pos h4]; exact ih _
            · rw [if_neg h4]
              by_cases h5 : rd json (skipWs json i) = 45 ∨ isnum (rd json (skipWs json i)) = true
              · rw [if_pos h5]; exact vscalarTail_stopLast (vnumber_okstop json _)
              · rw [if_neg h5]
                by_cases h6 : rd json (skipWs json i) = 116
                · rw [if_pos h6]; exact vscalarTail_stopLast (vtrue_okstop json _)
                · rw [if_neg h6]
                  by_cases h7 : rd json (skipWs json i) = 110
                  · rw [if_pos h7]; exact vscalarTail_stopLast (vnull_okstop json _)
                  · rw [if_neg h7]
                    by_cases h8 : rd json (skipWs json i) = 102
                    · rw [if_pos h8]; exact vscalarTail_stopLast (vfalse_okstop json _)
                    · rw [if_neg h8]; intro hko; dsimp only at hko; simp at hko
      · rw [if_neg h1]; intro hko; dsimp only at hko; simp at hko
    | opn i dinfo skip tr kind =>
      simp only [run]
      by_cases hs : skip = true
      · rw [if_pos hs]; exact ih _
      · rw [if_neg hs]
        by_cases hr : f tr ⟨i, i + 1, kind ||| OPEN ||| dinfo⟩ = 0
        · rw [if_pos hr]
          intro _ _
          exact ⟨_, tr, rfl, hr⟩
        · rw [if_neg hr]; exact ih _
    | body i dinfo skip oskip tr kind =>
      simp only [run]
      by_cases hu : opts &&& UNCHECKED = UNCHECKED ∧ oskip = true
      · rw [if_pos hu]
        intro _ hst
        obtain ⟨ev, he, hz⟩ := vclose_stopLast hst
        exact ⟨ev, tr, he, hz⟩
      · rw [if_neg hu]
        by_cases hk : kind = OBJECT
        · rw [if_pos hk]
          by_cases hst : (run json opts f n (Call.obj (i + 1) oskip tr)).stop = true
          · rw [if_pos hst]; exact ih _
          · rw [if_neg hst]
            intro _ hst2
            obtain ⟨ev, he, hz⟩ := vclose_stopLast hst2
            exact ⟨ev, _, he, hz⟩
        · rw [if_neg hk]
          by_cases hst : (run json opts f n (Call.arr (i + 1) oskip tr)).stop = true
          · rw [if_pos hst]; exact ih _
          · rw [if_neg hst]
            intro _ hst2
            obtain ⟨ev, he, hz⟩ := vclose_stopLast hst2
            exact ⟨ev, _, he, hz⟩
    | obj i skip tr =>
      simp only [run]
      by_cases h1 : skipWs json i < json.length
      · rw [if_pos h1]
        by_cases h2 : rd json (skipWs json i) = 125
        · rw [if_pos h2]; intro _ hst; dsimp only at hst; simp at hst
        · rw [if_neg h2]
          by_cases h3 : rd json (skipWs json i) = 34
          · rw [if_pos h3]; exact ih _
          · rw [if_neg h3]; intro hko; dsimp only at hko; simp at hko
      · rw [if_neg h1]; intro hko; dsimp only at hko; simp at hko
    | okey i skip tr =>
      simp only [run]
      by_cases h1 : (vstring json (i + 1)).stop = true
      · rw [if_pos h1]
        intro hko _
        have hx := vstring_okstop json (i + 1)
        rw [h1] at hx
        dsimp only at hko
        rw [hko] at hx
        simp at hx
      · rw [if_neg h1]; exact ih _
    | okey1 mark si sinfo skip tr =>
      simp only [run]
      by_cases hp : (fireStop f skip tr ⟨mark, si, sinfo ||| KEY ||| STRING⟩).1 = true
      · rw [if_pos hp]
        intro _ _
        obtain ⟨_, hz, he⟩ := fireStop_fired hp
        exact ⟨_, tr, by dsimp only; rw [he], hz⟩
      · rw [if_neg hp]; exact ih _
    | okey2 si skip tr =>
      simp only [run]
      by_cases h1 : (vcolon json si).stop = true
      · rw [if_pos h1]
        intro hko _
        have hx := vcolon_okstop json si
        rw [h1] at hx
        dsimp only at hko
        rw [hko] at hx
        simp at hx
      · rw [if_neg h1]; exact ih _
    | okey3 ci skip tr =>
      simp only [run]
      by_cases hp : (fireStop f skip tr ⟨ci - 1, ci, COLON⟩).1 = true
      · rw [if_pos hp]
        intro _ _
        obtain ⟨_, hz, he⟩ := fireStop_fired hp
        exact ⟨_, tr, by dsimp only; rw [he], hz⟩
      · rw [if_neg hp]; exact ih _
    | okey4 ci skip tr =>
      simp only [run]
      by_cases h1 : (run json opts f n (Call.any ci VALUE skip tr)).stop = true
      · rw [if_pos h1]; exact ih _
      · rw [if_neg h1]; exact ih _
    | okey5 ai skip tr =>
      simp only [run]
      by_cases h1 : (vcomma json ai 125).stop = true
      · rw [if_pos h1]
        intro hko _
        have hx := vcomma_okstop json ai 125
        rw [h1] at hx
        dsimp only at hko
        rw [hko] at hx
        simp at hx
      · rw [if_neg h1]
        by_cases h2 : rd json (vcomma json ai 125).i = 125
        · rw [if_pos h2]; intro _ hst; dsimp only at hst; simp at hst
        · rw [if_neg h2]; exact ih _
    | okey6 mi skip tr =>
      simp only [run]
      by_cases hp : (fireStop f skip tr ⟨mi, mi + 1, COMMA⟩).1 = true
      · rw [if_pos hp]
        intro _ _
        obtain ⟨_, hz, he⟩ := fireStop_fired hp
        exact ⟨_, tr, by dsimp only; rw [he], hz⟩
      · rw [if_neg hp]
        by_cases h2 : skipWs json (mi + 1) < json.length
        · rw [if_pos h2]
          by_cases h3 : rd json (skipWs json (mi + 1)) = 34
          · rw [if_pos h3]; exact ih _
          · rw [if_neg h3]; intro hko; dsimp only at hko; simp at hko
        · rw [if_neg h2]; intro hko; dsimp only at hko; simp at hko
    | arr i skip tr =>
      simp only [run]
      by_cases h1 : skipWs json i < json.length
      · rw [if_pos h1]
        by_cases h2 : rd json (skipWs json i) = 93
        · rw [if_pos h2]; intro _ hst; dsimp only at hst; simp at hst
        · rw [if_neg h2]; exact ih _
      · rw [if_neg h1]; intro hko; dsimp only at hko; simp at hko
    | elems i skip tr =>
      simp only [run]
      by_cases h1 : skipWs json i < json.length
      · rw [if_pos h1]
        by_cases h2 : (run json opts f n (Call.any (skipWs json i) VALUE skip tr)).stop = true
        · rw [if_pos h2]; exact ih _
        · rw [if_neg h2]; exact ih _
      · rw [if_neg h1]; intro hko; dsimp only at hko; simp at hko
    | elems1 ai skip tr =>
      simp only [run]
      by_cases h1 : (vcomma json ai 93).stop = true
      · rw [if_pos h1]
        intro hko _
        have hx := vcomma_okstop json ai 93
        rw [h1] at hx
        dsimp only at hko
        rw [hko] at hx
        simp at hx
      · rw [if_neg h1]
        by_cases h2 : rd json (vcomma json ai 93).i = 93
        · rw [if_pos h2]; intro _ hst; dsimp only at hst; simp at hst
        · rw [if_neg h2]; exact ih _
    | elems2 mi skip tr =>
      simp only [run]
      by_cases hp : (fireStop f skip tr ⟨mi, mi + 1, COMMA⟩).1 = true
      · rw [if_pos hp]
        intro _ _
        obtain ⟨_, hz, he⟩ := fireStop_fired hp
        exact ⟨_, tr, by dsimp only; rw [he], hz⟩
      · rw [if_neg hp]; exact ih _

end PJson

namespace PJson

/-! ### With `UNCHECKED` unset, the control answer (cursor/ok/stop) does not
depend on the visitor (as long as it never stops) nor on the skip flag -/

/-- Results agree on everything but the trace. -/
def EqIOS (r1 r2 : PRes) : Prop := r1.i = r2.i ∧ r1.ok = r2.ok ∧ r1.stop = r2.stop

theorem vscalarTail_ios {mark i2 info : Nat} {ok stop : Bool} {dinfo : Nat}
    {f g : Vis} {s1 s2 : Bool} {t1 t2 : List Ev}
    (hf : ∀ t e, f t e ≠ 0) (hg : ∀ t e, g t e ≠ 0) :
    EqIOS (vscalarTail mark i2 info ok stop dinfo f s1 t1)
      (vscalarTail mark i2 info ok stop dinfo g s2 t2) := by
  simp only [vscalarTail, EqIOS]
  split_ifs <;>
    first
      | exact ⟨rfl, rfl, rfl⟩
      | exact absurd (by assumption) (hf _ _)
      | exact absurd (by assumption) (hg _ _)

theorem vclose_ios {i dinfo : Nat} {f g : Vis} {s1 s2 : Bool} {t1 t2 : List Ev}
    {kind : Nat} (hf : ∀ t e, f t e ≠ 0) (hg : ∀ t e, g t e ≠ 0) :
    EqIOS (vclose i dinfo f s1 t1 kind) (vclose i dinfo g s2 t2 kind) := by
  simp only [vclose, EqIOS]
  split_ifs <;>
    first
      | exact ⟨rfl, rfl, rfl⟩
      | exact absurd (by assumption) (hf _ _)
      | exact absurd (by assumption) (hg _ _)

theorem run_congr (json : List Nat) (opts : Nat) (f g : Vis)
    (hu : ¬opts &&& UNCHECKED = UNCHECKED)
    (hf : ∀ t e, f t e ≠ 0) (hg : ∀ t e, g t e ≠ 0) :
    ∀ fuel,
      (∀ i dinfo s1 s2 t1 t2, EqIOS (run json opts f fuel (.any i dinfo s1 t1))
        (run json opts g fuel (.any i dinfo s2 t2)))
      ∧ (∀ i dinfo s1 s2 t1 t2 kind, EqIOS (run json opts f fuel (.opn i dinfo s1 t1 kind))
        (run json opts g fuel (.opn i dinfo s2 t2 kind)))
      ∧ (∀ i dinfo s1 s2 o1 o2 t1 t2 kind,
        EqIOS (run json opts f fuel (.body i dinfo s1 o1 t1 kind))
          (run json opts g fuel (.body i dinfo s2 o2 t2 kind)))
      ∧ (∀ i s1 s2 t1 t2, EqIOS (run json opts f fuel (.obj i s1 t1))
        (run json opts g fuel (.obj i s2 t2)))
      ∧ (∀ i s1 s2 t1 t2, EqIOS (run json opts f fuel (.okey i s1 t1))
        (run json opts g fuel (.okey i s2 t2)))
      ∧ (∀ mark si sinfo s1 s2 t1 t2, EqIOS (run json opts f fuel (.okey1 mark si sinfo s1 t1))
        (run json opts g fuel (.okey1 mark si sinfo s2 t2)))
      ∧ (∀ si s1 s2 t1 t2, EqIOS (run json opts f fuel (.okey2 si s1 t1))
        (run json opts g fuel (.okey2 si s2 t2)))
      ∧ (∀ ci s1 s2 t1 t2, EqIOS (run json opts f fuel (.okey3 ci s1 t1))
        (run json opts g fuel (.okey3 ci s2 t2)))
      ∧ (∀ ci s1 s2 t1 t2, EqIOS (run json opts f fuel (.okey4 ci s1 t1))
        (run json opts g fuel (.okey4 ci s2 t2)))
      ∧ (∀ ai s1 s2 t1 t2, EqIOS (run json opts f fuel (.okey5 ai s1 t1))
        (run json opts g fuel (.okey5 ai s2 t2)))
      ∧ (∀ mi s1 s2 t1 t2, EqIOS (run json opts f fuel (.okey6 mi s1 t1))
        (run json opts g fuel (.okey6 mi s2 t2)))
      ∧ (∀ i s1 s2 t1 t2, EqIOS (run json opts f fuel (.arr i s1 t1))
        (run json opts g fuel (.arr i s2 t2)))
      ∧ (∀ i s1 s2 t1 t2, EqIOS (run json opts f fuel (.elems i s1 t1))
        (run json opts g fuel (.elems i s2 t2)))
      ∧ (∀ ai s1 s2 t1 t2, EqIOS (run json opts f fuel (.elems1 ai s1 t1))
        (run json opts g fuel (.elems1 ai s2 t2)))
      ∧ (∀ mi s1 s2 t1 t2, EqIOS (run json opts f fuel (.elems2 mi s1 t1))
        (run json opts g fuel (.elems2 mi s2 t2))) := by
  intro fuel
  induction fuel with
  | zero =>
    refine ⟨?_, ?_, ?_, ?_, ?_, ?_, ?_, ?_, ?_, ?_, ?_, ?_, ?_, ?_, ?_⟩ <;>
      intros <;> exact ⟨rfl, rfl, rfl⟩
  | succ n ih =>
    obtain ⟨ihany, ihopn, ihbody, ihobj, ihokey, ihk1, ihk2, ihk3, ihk4, ihk5, ihk6,
      iharr, ihel, ihe1, ihe2⟩ := ih
    refine ⟨?_, ?_, ?_, ?_, ?_, ?_, ?_, ?_, ?_, ?_, ?_, ?_, ?_, ?_, ?_⟩
    -- any
    · intro i dinfo s1 s2 t1 t2
      simp only [run]
      by_cases h1 : skipWs json i < json.length
      · simp only [if_pos h1]
        by_cases h2 : rd json (skipWs json i) = 34
        · simp only [if_pos h2]; exact vscalarTail_ios hf hg
        · simp only [if_neg h2]
          by_cases h3 : rd json (skipWs json i) = 123
          · simp only [if_pos h3]; exact ihopn _ _ _ _ _ _ _
          · simp only [if_neg h3]
            by_cases h4 : rd json (skipWs json i) = 91
            · simp only [if_pos h4]; exact ihopn _ _ _ _ _ _ _
            · simp only [if_neg h4]
              by_cases h5 : rd json (skipWs json i) = 45 ∨ isnum (rd json (skipWs json i)) = true
              · simp only [if_pos h5]; exact vscalarTail_ios hf hg
              · simp only [if_neg h5]
                by_cases h6 : rd json (skipWs json i) = 116
                · simp only [if_pos h6]; exact vscalarTail_ios hf hg
                · simp only [if_neg h6]
                  by_cases h7 : rd json (skipWs json i) = 110
                  · simp only [if_pos h7]; exact vscalarTail_ios hf hg
                  · simp only [if_neg h7]
                    by_cases h8 : rd json (skipWs json i) = 102
                    · simp only [if_pos h8]; exact vscalarTail_ios hf hg
                    · simp only [if_neg h8]; exact ⟨rfl, rfl, rfl⟩
      · simp only [if_neg h1]; exact ⟨rfl, rfl, rfl⟩
    -- opn
    · intro i dinfo s1 s2 t1 t2 kind
      simp only [run]
      by_cases hs1 : s1 = true
      · simp only [if_pos hs1]
        by_cases hs2 : s2 = true
        · simp only [if_pos hs2]; exact ihbody _ _ _ _ _ _ _ _ _
        · simp only [if_neg hs2]
          simp only [if_neg (hg t2 ⟨i, i + 1, kind ||| OPEN ||| dinfo⟩)]
          exact ihbody _ _ _ _ _ _ _ _ _
      · simp only [if_neg hs1]
        simp only [if_neg (hf t1 ⟨i, i + 1, kind ||| OPEN ||| dinfo⟩)]
        by_cases hs2 : s2 = true
        · simp only [if_pos hs2]; exact ihbody _ _ _ _ _ _ _ _ _
        · simp only [if_neg hs2]
          simp only [if_neg (hg t2 ⟨i, i + 1, kind ||| OPEN ||| dinfo⟩)]
          exact ihbody _ _ _ _ _ _ _ _ _
    -- body
    · intro i dinfo s1 s2 o1 o2 t1 t2 kind
      simp only [run]
      simp only [if_neg (by simp [hu] : ¬(opts &&& UNCHECKED = UNCHECKED ∧ o1 = true))]
      simp only [if_neg (by simp [hu] : ¬(opts &&& UNCHECKED = UNCHECKED ∧ o2 = true))]
      by_cases hk : kind = OBJECT
      · simp only [if_pos hk]
        obtain ⟨hi, hok, hst⟩ := ihobj (i + 1) o1 o2 t1 t2
        by_cases hst1 : (run json opts f n (Call.obj (i + 1) o1 t1)).stop = true
        · simp only [if_pos hst1, if_pos (hst ▸ hst1)]
          exact ⟨hi, hok, hst⟩
        · simp only [if_neg hst1, if_neg (fun hh => hst1 (hst ▸ hh))]
          rw [hi]
          exact vclose_ios hf hg
      · simp only [if_neg hk]
        obtain ⟨hi, hok, hst⟩ := iharr (i + 1) o1 o2 t1 t2
        by_cases hst1 : (run json opts f n (Call.arr (i + 1) o1 t1)).stop = true
        · simp only [if_pos hst1, if_pos (hst ▸ hst1)]
          exact ⟨hi, hok, hst⟩
        · simp only [if_neg hst1, if_neg (fun hh => hst1 (hst ▸ hh))]
          rw [hi]
          exact vclose_ios hf hg
    -- obj
    · intro i s1 s2 t1 t2
      simp only [run]
      by_cases h1 : skipWs json i < json.length
      · simp only [if_pos h1]
        by_cases h2 : rd json (skipWs json i) = 125
        · simp only [if_pos h2]; exact ⟨rfl, rfl, rfl⟩
        · simp only [if_neg h2]
          by_cases h3 : rd json (skipWs json i) = 34
          · simp only [if_pos h3]; exact ihokey _ _ _ _ _
          · simp only [if_neg h3]; exact ⟨rfl, rfl, rfl⟩
      · simp only [if_neg h1]; exact ⟨rfl, rfl, rfl⟩
    -- okey
    · intro i s1 s2 t1 t2
      simp only [run]
      by_cases h1 : (vstring json (i + 1)).stop = true
      · simp only [if_pos h1]; exact ⟨rfl, rfl, rfl⟩
      · simp only [if_neg h1]; exact ihk1 _ _ _ _ _ _ _
    -- okey1
    · intro mark si sinfo s1 s2 t1 t2
      simp only [run]
      simp only [if_neg (by simp [fireStop_nostop _ _ _ _ hf] :
        ¬(fireStop f s1 t1 ⟨mark, si, sinfo ||| KEY ||| STRING⟩).1 = true)]
      simp only [if_neg (by simp [fireStop_nostop _ _ _ _ hg] :
        ¬(fireStop g s2 t2 ⟨mark, si, sinfo ||| KEY ||| STRING⟩).1 = true)]
      exact ihk2 _ _ _ _ _
    -- okey2
    · intro si s1 s2 t1 t2
      simp only [run]
      by_cases h1 : (vcolon json si).stop = true
      · simp only [if_pos h1]; exact ⟨rfl, rfl, rfl⟩
      · simp only [if_neg h1]; exact ihk3 _ _ _ _ _
    -- okey3
    · intro ci s1 s2 t1 t2
      simp only [run]
      simp only [if_neg (by simp [fireStop_nostop _ _ _ _ hf] :
        ¬(fireStop f s1 t1 ⟨ci - 1, ci, COLON⟩).1 = true)]
      simp only [if_neg (by simp [fireStop_nostop _ _ _ _ hg] :
        ¬(fireStop g s2 t2 ⟨ci - 1, ci, COLON⟩).1 = true)]
      exact ihk4 _ _ _ _ _
    -- okey4
    · intro ci s1 s2 t1 t2
      simp only [run]
      obtain ⟨hi, hok, hst⟩ := ihany ci VALUE s1 s2 t1 t2
      by_cases hst1 : (run json opts f n (Call.any ci VALUE s1 t1)).stop = true
      · simp only [if_pos hst1, if_pos (hst ▸ hst1)]
        exact ⟨hi, hok, hst⟩
      · simp only [if_neg hst1, if_neg (fun hh => hst1 (hst ▸ hh))]
        rw [hi]
        exact ihk5 _ _ _ _ _
    -- okey5
    · intro ai s1 s2 t1 t2
      simp only [run]
      by_cases h1 : (vcomma json ai 125).stop = true
      · simp only [if_pos h1]; exact ⟨rfl, rfl, rfl⟩
      · simp only [if_neg h1]
        by_cases h2 : rd json (vcomma json ai 125).i = 125
        · simp only [if_pos h2]; exact ⟨rfl, rfl, rfl⟩
        · simp only [if_neg h2]; exact ihk6 _ _ _ _ _
    -- okey6
    · intro mi s1 s2 t1 t2
      simp only [run]
      simp only [if_neg (by simp [fireStop_nostop _ _ _ _ hf] :
        ¬(fireStop f s1 t1 ⟨mi, mi + 1, COMMA⟩).1 = true)]
      simp only [if_neg (by simp [fireStop_nostop _ _ _ _ hg] :
        ¬(fireStop g s2 t2 ⟨mi, mi + 1, COMMA⟩).1 = true)]
      by_cases h2 : skipWs json (mi + 1) < json.length
      · simp only [if_pos h2]
        by_cases h3 : rd json (skipWs json (mi + 1)) = 34
        · simp only [if_pos h3]; exact ihokey _ _ _ _ _
        · simp only [if_neg h3]; exact ⟨rfl, rfl, rfl⟩
      · simp only [if_neg h2]; exact ⟨rfl, rfl, rfl⟩
    -- arr
    · intro i s1 s2 t1 t2
      simp only [run]
      by_cases h1 : skipWs json i < json.length
      · simp only [if_pos h1]
        by_cases h2 : rd json (skipWs json i) = 93
        · simp only [if_pos h2]; exact ⟨rfl, rfl, rfl⟩
        · simp only [if_neg h2]; exact ihel _ _ _ _ _
      · simp only [if_neg h1]; exact ⟨rfl, rfl, rfl⟩
    -- elems
    · intro i s1 s2 t1 t2
      simp only [run]
      by_cases h1 : skipWs json i < json.length
      · simp only [if_pos h1]
        obtain ⟨hi, hok, hst⟩ := ihany (skipWs json i) VALUE s1 s2 t1 t2
        by_cases hst1 : (run json opts f n (Call.any (skipWs json i) VALUE s1 t1)).stop = true
        · simp only [if_pos hst1, if_pos (hst ▸ hst1)]
          exact ⟨hi, hok, hst⟩
        · simp only [if_neg hst1, if_neg (fun hh => hst1 (hst ▸ hh))]
          rw [hi]
          exact ihe1 _ _ _ _ _
      · simp only [if_neg h1]; exact ⟨rfl, rfl, rfl⟩
    -- elems1
    · intro ai s1 s2 t1 t2
      simp only [run]
      by_cases h1 : (vcomma json ai 93).stop = true
      · simp only [if_pos h1]; exact ⟨rfl, rfl, rfl⟩
      · simp only [if_neg h1]
        by_cases h2 : rd json (vcomma json ai 93).i = 93
        · simp only [if_pos h2]; exact ⟨rfl, rfl, rfl⟩
        · simp only [if_neg h2]; exact ihe2 _ _ _ _ _
    -- elems2
    · intro mi s1 s2 t1 t2
      simp only [run]
      simp only [if_neg (by simp [fireStop_nostop _ _ _ _ hf] :
        ¬(fireStop f s1 t1 ⟨mi, mi + 1, COMMA⟩).1 = true)]
      simp only [if_neg (by simp [fireStop_nostop _ _ _ _ hg] :
        ¬(fireStop g s2 t2 ⟨mi, mi + 1, COMMA⟩).1 = true)]
      exact ihel _ _ _ _ _

end PJson

namespace PJson

/-! ### Document-driver facts and claim theorems -/

theorem vdoc_ok_i {fuel : Nat} {json : List Nat} {opts : Nat} {f : Vis}
    (hf : ∀ t e, f t e ≠ 0)
    (hok : (vdoc fuel json 0 opts f false []).ok = true) :
    (vdoc fuel json 0 opts f false []).i = json.length ∧
    (vdoc fuel json 0 opts f false []).stop = false := by
  simp only [vdoc, vany] at hok ⊢
  by_cases hs : (run json opts f fuel (Call.any 0 START false [])).stop = true
  · rw [if_pos hs] at hok ⊢
    exact absurd hok (by simp [run_nostop json opts f hf fuel _ hs])
  · rw [if_neg hs] at hok ⊢
    by_cases hj : skipWs json (run json opts f fuel (Call.any 0 START false [])).i < json.length
    · rw [if_pos hj] at hok; simp at hok
    · rw [if_neg hj] at hok ⊢
      have h1 : (run json opts f fuel (Call.any 0 START false [])).i ≤ json.length :=
        run_le json opts f fuel _ (by simp [Call.pre])
      have h2 := skipWs_le json (run json opts f fuel (Call.any 0 START false [])).i h1
      exact ⟨by simp; omega, rfl⟩

/-- C1: for every input on which the parse fully succeeds (the run with the
always-continue visitor returns a positive value), `parse` returns exactly
`bytes.len()`, which is then positive. -/
theorem parse_success_eq_length (json : List Nat)
    (h : 0 < parse json 0 (fun _ _ => 1)) :
    parse json 0 (fun _ _ => 1) = (json.length : Int) ∧ 0 < (json.length : Int) := by
  have hone : ∀ (t : List Ev) (e : Ev), ((fun _ _ => (1 : Int)) : Vis) t e ≠ 0 :=
    fun _ _ => by norm_num
  by_cases hok : (parseR json 0 (fun _ _ => 1)).ok = true
  · have hp : parse json 0 (fun _ _ => 1) = ((parseR json 0 (fun _ _ => 1)).i : Int) := by
      simp only [parse]
      rw [if_pos hok]
    simp only [parseR] at hok hp
    have hi := vdoc_ok_i hone hok
    constructor
    · rw [hp, hi.1]
    · rw [hp, hi.1] at h
      exact h
  · exfalso
    have hp : parse json 0 (fun _ _ => 1) = -((parseR json 0 (fun _ _ => 1)).i : Int) := by
      simp only [parse]
      rw [if_neg hok]
    rw [hp] at h
    omega

/-- C1 witness: on the document `true` the hypothesis holds and the theorem
computes the return value 4 = length. -/
theorem parse_success_eq_length_witness :
    parse [116, 114, 117, 101] 0 (fun _ _ => 1) = (([116, 114, 117, 101] : List Nat).length : Int) ∧
    0 < (([116, 114, 117, 101] : List Nat).length : Int) :=
  parse_success_eq_length [116, 114, 117, 101] (by decide)

/-- C3: whenever the run ends in a grammar error (`ok = false`), `parse`
returns the negated error offset; on the empty input the error offset is 0
and the return value is 0. -/
theorem parse_error_neg_offset (json : List Nat) (opts : Nat) (f : Vis) :
    ((parseR json opts f).ok = false →
      parse json opts f = -(((parseR json opts f).i : Nat) : Int)) ∧
    parse ([] : List Nat) opts f = 0 := by
  constructor
  · intro hok
    simp only [parse]
    rw [if_neg (by simp [hok])]
  · rfl

/-- C3 witness: on the input `" a"` (error at offset 1) the run fails and
the theorem yields the return value -1. -/
theorem parse_error_neg_offset_witness :
    parse [32, 97] 0 (fun _ _ => 1) =
      -(((parseR [32, 97] 0 (fun _ _ => 1)).i : Nat) : Int) ∧
    parse ([] : List Nat) 0 (fun _ _ => (1 : Int)) = 0 :=
  ⟨(parse_error_neg_offset [32, 97] 0 (fun _ _ => 1)).1 (by decide),
    (parse_error_neg_offset [32, 97] 0 (fun _ _ => 1)).2⟩

/-- C4 counterexample: on the input `{}` with the visitor that returns 0 on
every callback, a callback does return 0 (the run ends with ok and stop both
set), yet `parse` returns 0 — the parser's offset at the stop — which is not
positive.  This refutes the claim that the returned offset is always
positive. -/
theorem parse_stop_zero_offset_ctex :
    (parseR [123, 125] 0 (fun _ _ => 0)).ok = true ∧
    (parseR [123, 125] 0 (fun _ _ => 0)).stop = true ∧
    parse [123, 125] 0 (fun _ _ => 0) = 0 ∧
    ¬(0 < parse [123, 125] 0 (fun _ _ => 0)) := by
  refine ⟨by decide, by decide, by decide, by decide⟩

/-- C4 (amended): if some callback returns 0 (the run ends with ok and stop
both set), `parse` returns the parser's current offset — a non-negative
value not exceeding `bytes.len()`, and 0 exactly when the stop happened on a
callback at offset 0 — and no further callback fires after the one that
returned 0: the event heading the final trace is the one on which the
visitor returned 0. -/
theorem parse_stop_offset (json : List Nat) (opts : Nat) (f : Vis)
    (hok : (parseR json opts f).ok = true)
    (hst : (parseR json opts f).stop = true) :
    parse json opts f = (((parseR json opts f).i : Nat) : Int) ∧
    (parseR json opts f).i ≤ json.length ∧
    ∃ ev tl, (parseR json opts f).tr = ev :: tl ∧ f tl ev = 0 := by
  refine ⟨by simp only [parse]; rw [if_pos hok], ?_, ?_⟩
  · simp only [parseR, vdoc, vany] at hok hst ⊢
    by_cases hs : (run json opts f (FUEL json) (Call.any 0 START false [])).stop = true
    · rw [if_pos hs] at hok hst ⊢
      exact run_le json opts f (FUEL json) _ (by simp [Call.pre])
    · rw [if_neg hs] at hok hst
      by_cases hj : skipWs json (run json opts f (FUEL json) (Call.any 0 START false [])).i < json.length
      · rw [if_pos hj] at hok; simp at hok
      · rw [if_neg hj] at hst; simp at hst
  · simp only [parseR, vdoc, vany] at hok hst ⊢
    by_cases hs : (run json opts f (FUEL json) (Call.any 0 START false [])).stop = true
    · rw [if_pos hs] at hok hst ⊢
      exact run_stopLast json opts f (FUEL json) _ hok hs
    · rw [if_neg hs] at hok hst
      by_cases hj : skipWs json (run json opts f (FUEL json) (Call.any 0 START false [])).i < json.length
      · rw [if_pos hj] at hok; simp at hok
      · rw [if_neg hj] at hst; simp at hst

/-- C4 witness: stopping on the sole callback of `" true "` returns offset 5
with the 0-returning event heading the trace. -/
theorem parse_stop_offset_witness :
    parse [32, 116, 114, 117, 101, 32] 0 (fun _ _ => 0) =
      (((parseR [32, 116, 114, 117, 101, 32] 0 (fun _ _ => 0)).i : Nat) : Int) ∧
    (parseR [32, 116, 114, 117, 101, 32] 0 (fun _ _ => 0)).i ≤
      ([32, 116, 114, 117, 101, 32] : List Nat).length ∧
    ∃ ev tl, (parseR [32, 116, 114, 117, 101, 32] 0 (fun _ _ => 0)).tr = ev :: tl ∧
      (fun _ _ => (0 : Int)) tl ev = 0 :=
  parse_stop_offset [32, 116, 114, 117, 101, 32] 0 (fun _ _ => 0) (by decide) (by decide)

/-- C6: with `opts = 0` (UNCHECKED unset), skipping children does not change
validation: the always-skip visitor and the always-continue visitor produce
exactly the same return value on every input (same sign, same offset). -/
theorem parse_skip_same_validation (json : List Nat) :
    parse json 0 (fun _ _ => -1) = parse json 0 (fun _ _ => 1) := by
  have hneg : ∀ (t : List Ev) (e : Ev), ((fun _ _ => (-1 : Int)) : Vis) t e ≠ 0 :=
    fun _ _ => by norm_num
  have hone : ∀ (t : List Ev) (e : Ev), ((fun _ _ => (1 : Int)) : Vis) t e ≠ 0 :=
    fun _ _ => by norm_num
  obtain ⟨hi, hok, hst⟩ :=
    (run_congr json 0 (fun _ _ => -1) (fun _ _ => 1) (by decide) hneg hone (FUEL json)).1
      0 START false false [] []
  simp only [parse, parseR, vdoc, vany]
  by_cases hs : (run json 0 (fun _ _ => -1) (FUEL json) (Call.any 0 START false [])).stop = true
  · rw [if_pos hs, if_pos (hst.symm.trans hs)]
    rw [hi, hok]
  · rw [if_neg hs, if_neg (fun hh => hs (hst.trans hh))]
    rw [hi]
    by_cases hj : skipWs json (run json 0 (fun _ _ => 1) (FUEL json) (Call.any 0 START false [])).i < json.length
    · rw [if_pos hj, if_pos hj]
    · rw [if_neg hj, if_neg hj]

/-- C7: numbers with a leading zero in the significand (`00`, `0123`) are
rejected (non-positive return), while a leading zero in the exponent
(`1e0123`) parses successfully to the full length. -/
theorem parse_leading_zero :
    parse [48, 48] 0 (fun _ _ => 1) ≤ 0 ∧
    parse [48, 49, 50, 51] 0 (fun _ _ => 1) ≤ 0 ∧
    parse [49, 101, 48, 49, 50, 51] 0 (fun _ _ => 1) =
      (([49, 101, 48, 49, 50, 51] : List Nat).length : Int) ∧
    0 < parse [49, 101, 48, 49, 50, 51] 0 (fun _ _ => 1) := by
  refine ⟨by decide, by decide, by decide, by decide⟩

/-- C8: the 14-byte input `" {"hel\y" : 1}"` — with the invalid escape
`\y` whose backslash sits at offset 6 — makes `parse` return -7, the
negation of the position just past the backslash. -/
theorem parse_invalid_escape_offset :
    ([32, 123, 34, 104, 101, 108, 92, 121, 34, 32, 58, 32, 49, 125] : List Nat).length = 14 ∧
    rd [32, 123, 34, 104, 101, 108, 92, 121, 34, 32, 58, 32, 49, 125] 6 = 92 ∧
    parse [32, 123, 34, 104, 101, 108, 92, 121, 34, 32, 58, 32, 49, 125] 0 (fun _ _ => 1) = -7 := by
  refine ⟨by decide, by decide, by decide⟩

end PJson

namespace PJson

/-! ### Skip-children on a container OPEN: no inner callbacks, CLOSE still fires -/

/-- The `dinfo` transformation at a container close
(`if dinfo & START == START { dinfo = (dinfo ^ START) | END }`). -/
def closedi (dinfo : Nat) : Nat :=
  if dinfo &&& START = START then (dinfo ^^^ START) ||| END else dinfo

theorem vclose_fired (i dinfo : Nat) (f : Vis) (tr : List Ev) (kind : Nat) :
    (vclose i dinfo f false tr kind).tr =
      (⟨i - 1, i, kind ||| CLOSE ||| closedi dinfo⟩ : Ev) :: tr := by
  simp only [vclose]
  rw [if_neg (show ¬(false = true) by simp)]
  simp only [closedi]
  split_ifs <;> rfl

theorem run_body_closetr (json : List Nat) (opts : Nat) (f : Vis) :
    ∀ n i dinfo tr kind,
      (run json opts f n (.body i dinfo false true tr kind)).ok = true →
      (run json opts f n (.body i dinfo false true tr kind)).tr =
        (⟨(run json opts f n (.body i dinfo false true tr kind)).i - 1,
          (run json opts f n (.body i dinfo false true tr kind)).i,
          kind ||| CLOSE ||| closedi dinfo⟩ : Ev) :: tr := by
  intro n i dinfo tr kind hok
  cases n with
  | zero => simp [run] at hok
  | succ n =>
    by_cases hu : opts &&& UNCHECKED = UNCHECKED
    · have he : run json opts f (n + 1) (.body i dinfo false true tr kind) =
          vclose (squash json (i + 1)) dinfo f false tr kind := by
        simp [run, hu]
      rw [he, vclose_fired, vclose_i]
    · by_cases hk : kind = OBJECT
      · subst hk
        have he : run json opts f (n + 1) (.body i dinfo false true tr OBJECT) =
            (if (run json opts f n (Call.obj (i + 1) true tr)).stop = true then
              run json opts f n (Call.obj (i + 1) true tr)
            else vclose (run json opts f n (Call.obj (i + 1) true tr)).i dinfo f false
              (run json opts f n (Call.obj (i + 1) true tr)).tr OBJECT) := by
          simp [run, hu]
        obtain ⟨htr, himp⟩ := run_skip json opts f n (Call.obj (i + 1) true tr)
          (by simp [Call.skippy])
        simp only [Call.trace] at htr
        by_cases hst : (run json opts f n (Call.obj (i + 1) true tr)).stop = true
        · rw [he, if_pos hst] at hok
          rw [himp hst] at hok
          simp at hok
        · rw [he, if_neg hst] at hok ⊢
          rw [vclose_fired, vclose_i, htr]
      · have he : run json opts f (n + 1) (.body i dinfo false true tr kind) =
            (if (run json opts f n (Call.arr (i + 1) true tr)).stop = true then
              run json opts f n (Call.arr (i + 1) true tr)
            else vclose (run json opts f n (Call.arr (i + 1) true tr)).i dinfo f false
              (run json opts f n (Call.arr (i + 1) true tr)).tr kind) := by
          simp [run, hu, hk]
        obtain ⟨htr, himp⟩ := run_skip json opts f n (Call.arr (i + 1) true tr)
          (by simp [Call.skippy])
        simp only [Call.trace] at htr
        by_cases hst : (run json opts f n (Call.arr (i + 1) true tr)).stop = true
        · rw [he, if_pos hst] at hok
          rw [himp hst] at hok
          simp at hok
        · rw [he, if_neg hst] at hok ⊢
          rw [vclose_fired, vclose_i, htr]

theorem run_opn_skipchildren (json : List Nat) (opts : Nat) (f : Vis)
    (n i dinfo : Nat) (tr : List Ev) (kind : Nat)
    (hf : f tr ⟨i, i + 1, kind ||| OPEN ||| dinfo⟩ = -1)
    (hok : (run json opts f n (.opn i dinfo false tr kind)).ok = true) :
    (run json opts f n (.opn i dinfo false tr kind)).tr =
      (⟨(run json opts f n (.opn i dinfo false tr kind)).i - 1,
        (run json opts f n (.opn i dinfo false tr kind)).i,
        kind ||| CLOSE ||| closedi dinfo⟩ : Ev) ::
        (⟨i, i + 1, kind ||| OPEN ||| dinfo⟩ : Ev) :: tr := by
  cases n with
  | zero => simp [run] at hok
  | succ n =>
    have he : run json opts f (n + 1) (.opn i dinfo false tr kind) =
        run json opts f n
          (.body i dinfo false true ((⟨i, i + 1, kind ||| OPEN ||| dinfo⟩ : Ev) :: tr) kind) := by
      simp [run, hf]
    rw [he] at hok ⊢
    exact run_body_closetr json opts f n i dinfo _ kind hok

/-- C5: on a container `OPEN` callback (`{` or `[` at the cursor after
whitespace), a visitor return of -1 suppresses every callback from inside
the container, and the matching `CLOSE` callback is still emitted — for any
`opts` value, i.e. with or without `UNCHECKED`.  Whenever the recognizer
returns successfully (`ok`), the events added to the trace are exactly the
`OPEN` event and the final `CLOSE` event, with nothing in between. -/
theorem vany_skip_children (fuel : Nat) (json : List Nat) (i opts dinfo : Nat)
    (f : Vis) (tr : List Ev) (kind : Nat)
    (hj : skipWs json i < json.length)
    (hk : (rd json (skipWs json i) = 123 ∧ kind = OBJECT) ∨
      (rd json (skipWs json i) = 91 ∧ kind = ARRAY))
    (hf : f tr ⟨skipWs json i, skipWs json i + 1, kind ||| OPEN ||| dinfo⟩ = -1)
    (hok : (vany fuel json i opts dinfo f false tr).ok = true) :
    (vany fuel json i opts dinfo f false tr).tr =
      (⟨(vany fuel json i opts dinfo f false tr).i - 1,
        (vany fuel json i opts dinfo f false tr).i,
        kind ||| CLOSE ||| closedi dinfo⟩ : Ev) ::
        (⟨skipWs json i, skipWs json i + 1, kind ||| OPEN ||| dinfo⟩ : Ev) :: tr := by
  cases fuel with
  | zero => simp [vany, run] at hok
  | succ n =>
    rcases hk with ⟨hb, hkk⟩ | ⟨hb, hkk⟩ <;> subst hkk
    · have he : vany (n + 1) json i opts dinfo f false tr =
          run json opts f n (.opn (skipWs json i) dinfo false tr OBJECT) := by
        simp [vany, run, hj, hb]
      rw [he] at hok ⊢
      exact run_opn_skipchildren json opts f n _ dinfo tr OBJECT hf hok
    · have he : vany (n + 1) json i opts dinfo f false tr =
          run json opts f n (.opn (skipWs json i) dinfo false tr ARRAY) := by
        simp [vany, run, hj, hb]
      rw [he] at hok ⊢
      exact run_opn_skipchildren json opts f n _ dinfo tr ARRAY hf hok

/-- C5 witness: on `[1]` with the always-skip visitor, the trace is exactly
CLOSE then OPEN. -/
theorem vany_skip_children_witness :
    (vany 16 [91, 49, 93] 0 0 START (fun _ _ => -1) false []).tr =
      (⟨(vany 16 [91, 49, 93] 0 0 START (fun _ _ => -1) false []).i - 1,
        (vany 16 [91, 49, 93] 0 0 START (fun _ _ => -1) false []).i,
        ARRAY ||| CLOSE ||| closedi START⟩ : Ev) ::
        (⟨skipWs [91, 49, 93] 0, skipWs [91, 49, 93] 0 + 1, ARRAY ||| OPEN ||| START⟩ : Ev) ::
        [] :=
  vany_skip_children 16 [91, 49, 93] 0 0 START (fun _ _ => -1) [] ARRAY
    (by decide) (Or.inr ⟨by decide, rfl⟩) rfl (by decide)

end PJson

namespace PJson

/-! ### Per-event invariants: the VALUE flag (C2) and token ranges (C9) -/

/-- All info bits below 16 are clear (holds for the scanner modifier flags
`ESCAPED`, `SIGN`, `DOT`, `E`). -/
def lowClear (n : Nat) : Prop := ∀ k, k < 16 → n.testBit k = false

theorem lowClear_zero : lowClear 0 := fun k _ => by simp

theorem lowClear_lor {a b : Nat} (ha : lowClear a) (hb : lowClear b) :
    lowClear (a ||| b) := fun k hk => by
  rw [Nat.testBit_lor, ha k hk, hb k hk]
  rfl

theorem lowClear_ESCAPED : lowClear ESCAPED := by
  intro k hk
  interval_cases k <;> decide

theorem lowClear_SIGN : lowClear SIGN := by
  intro k hk
  interval_cases k <;> decide

theorem lowClear_DOT : lowClear DOT := by
  intro k hk
  interval_cases k <;> decide

theorem lowClear_E : lowClear E := by
  intro k hk
  interval_cases k <;> decide

theorem vstringG_low (json : List Nat) :
    ∀ g i info, lowClear info → lowClear (vstringG json g i info).info := by
  intro g
  induction g with
  | zero => intro i info h; simpa [vstringG] using h
  | succ g ih =>
    intro i info h
    simp only [vstringG]
    split_ifs <;>
      first
        | exact h
        | exact lowClear_lor h lowClear_ESCAPED
        | exact ih _ _ h
        | exact ih _ _ (lowClear_lor h lowClear_ESCAPED)

theorem vstring_low (json : List Nat) (i : Nat) : lowClear (vstring json i).info :=
  vstringG_low json _ i 0 lowClear_zero

theorem vnumExp_low (json : List Nat) (i info : Nat) (h : lowClear info) :
    lowClear (vnumExp json i info).info := by
  simp only [vnumExp]
  split_ifs <;> first | exact h | exact lowClear_lor h lowClear_E

theorem vnumFrac_low (json : List Nat) (i info : Nat) (h : lowClear info) :
    lowClear (vnumFrac json i info).info := by
  simp only [vnumFrac]
  split_ifs <;>
    first
      | exact h
      | exact lowClear_lor h lowClear_DOT
      | exact vnumExp_low json _ _ h
      | exact vnumExp_low json _ _ (lowClear_lor h lowClear_DOT)

theorem vnumSig_low (json : List Nat) (i info : Nat) (h : lowClear info) :
    lowClear (vnumSig json i info).info := by
  simp only [vnumSig]
  split_ifs <;> first | exact h | exact vnumFrac_low json _ _ h

theorem vnumber_low (json : List Nat) (i0 : Nat) : lowClear (vnumber json i0).info := by
  simp only [vnumber]
  split_ifs <;>
    first
      | exact lowClear_SIGN
      | exact vnumSig_low json _ _ lowClear_SIGN
      | exact vnumSig_low json _ _ lowClear_zero

/-- C2's per-event property: the VALUE bit (15) is set exactly when none of
START (10), END (11), KEY (14), COLON (9), COMMA (8) is — i.e. exactly on
elements in value position (object member values and array elements),
including their container OPEN and CLOSE events. -/
@[reducible] def ValueFlagOK (v : Ev) : Prop :=
  v.info.testBit 15 =
    !(v.info.testBit 10 || v.info.testBit 11 || v.info.testBit 14 ||
      v.info.testBit 9 || v.info.testBit 8)

/-- C9's per-event property: OPEN (12), COMMA (8), COLON (9) events span
exactly their single byte, which is the corresponding punctuation; CLOSE
(13) events span a single byte. -/
@[reducible] def TokenRangeOK (json : List Nat) (v : Ev) : Prop :=
  (v.info.testBit 12 = true → v.e = v.s + 1 ∧
    ((v.info.testBit 6 = true ∧ rd json v.s = 123) ∨
      (v.info.testBit 7 = true ∧ rd json v.s = 91)))
  ∧ (v.info.testBit 8 = true → v.e = v.s + 1 ∧ rd json v.s = 44)
  ∧ (v.info.testBit 9 = true → v.e = v.s + 1 ∧ rd json v.s = 58)
  ∧ (v.info.testBit 13 = true → v.e = v.s + 1)

/-- The byte of a CLOSE event is the matching closing bracket. -/
@[reducible] def CloseByteOK (json : List Nat) (v : Ev) : Prop :=
  v.info.testBit 13 = true →
    ((v.info.testBit 6 = true ∧ rd json v.s = 125) ∨
      (v.info.testBit 7 = true ∧ rd json v.s = 93))

/-- The conjunction of the per-event invariants; the closing-bracket byte is
only guaranteed when `UNCHECKED` is unset (squash may stop elsewhere). -/
@[reducible] def EvOK (json : List Nat) (opts : Nat) (v : Ev) : Prop :=
  ValueFlagOK v ∧ TokenRangeOK json v ∧
    (¬opts &&& UNCHECKED = UNCHECKED → CloseByteOK json v)

theorem tokenRange_noTok {json : List Nat} {s e info : Nat}
    (h12 : info.testBit 12 = false) (h8 : info.testBit 8 = false)
    (h9 : info.testBit 9 = false) (h13 : info.testBit 13 = false) :
    TokenRangeOK json ⟨s, e, info⟩ :=
  ⟨fun h => by simp [h12] at h, fun h => by simp [h8] at h,
    fun h => by simp [h9] at h, fun h => by simp [h13] at h⟩

theorem closeByte_noClose {json : List Nat} {s e info : Nat}
    (h13 : info.testBit 13 = false) : CloseByteOK json ⟨s, e, info⟩ :=
  fun h => by simp [h13] at h

theorem EvOK_lor_low {json : List Nat} {opts : Nat} {s e a b : Nat}
    (ha : lowClear a) (h : EvOK json opts ⟨s, e, b⟩) :
    EvOK json opts ⟨s, e, a ||| b⟩ := by
  have hb : ∀ k, k < 16 → (a ||| b).testBit k = b.testBit k := fun k hk => by
    rw [Nat.testBit_lor, ha k hk]
    simp
  obtain ⟨h1, ⟨h2a, h2b, h2c, h2d⟩, h3⟩ := h
  refine ⟨?_, ⟨?_, ?_, ?_, ?_⟩, ?_⟩
  · simp only [ValueFlagOK] at h1 ⊢
    simpa only [hb 15 (by omega), hb 10 (by omega), hb 11 (by omega),
      hb 14 (by omega), hb 9 (by omega), hb 8 (by omega)] using h1
  · intro hx
    simp only at hx
    rw [hb 12 (by omega)] at hx
    simpa only [hb 6 (by omega), hb 7 (by omega)] using h2a hx
  · intro hx
    simp only at hx
    rw [hb 8 (by omega)] at hx
    exact h2b hx
  · intro hx
    simp only at hx
    rw [hb 9 (by omega)] at hx
    exact h2c hx
  · intro hx
    simp only at hx
    rw [hb 13 (by omega)] at hx
    exact h2d hx
  · intro hu hx
    simp only at hx
    rw [hb 13 (by omega)] at hx
    simpa only [hb 6 (by omega), hb 7 (by omega)] using h3 hu hx

end PJson

namespace PJson

/-! ### Trace shapes of the callback helpers -/

theorem vscalarTail_tr_cases (mark i2 info : Nat) (ok stop : Bool) (dinfo : Nat)
    (f : Vis) (skip : Bool) (tr : List Ev) :
    (vscalarTail mark i2 info ok stop dinfo f skip tr).tr = tr ∨
    (vscalarTail mark i2 info ok stop dinfo f skip tr).tr =
      ⟨mark, i2, info ||| (if dinfo &&& START = START then dinfo ||| END else dinfo)⟩
        :: tr := by
  simp only [vscalarTail]
  split_ifs <;> simp

theorem fireStop_snd_cases (f : Vis) (skip : Bool) (tr : List Ev) (ev : Ev) :
    (fireStop f skip tr ev).2 = tr ∨ (fireStop f skip tr ev).2 = ev :: tr := by
  simp only [fireStop]
  split_ifs <;> simp

theorem vclose_tr_cases (i dinfo : Nat) (f : Vis) (skip : Bool) (tr : List Ev)
    (kind : Nat) :
    (vclose i dinfo f skip tr kind).tr = tr ∨
    (vclose i dinfo f skip tr kind).tr =
      ⟨i - 1, i, kind ||| CLOSE ||| closedi dinfo⟩ :: tr := by
  simp only [vclose, closedi]
  split_ifs <;> simp

/-! ### The byte preceding a successful object/array body run is the
matching closing bracket (the checked path of C9) -/

/-- The closing bracket a pending call must end on (`none` for calls that
do not belong to a container loop). -/
def Call.cb : Call → Option Nat
  | .obj _ _ _ => some 125
  | .okey _ _ _ => some 125
  | .okey1 _ _ _ _ _ => some 125
  | .okey2 _ _ _ => some 125
  | .okey3 _ _ _ => some 125
  | .okey4 _ _ _ => some 125
  | .okey5 _ _ _ => some 125
  | .okey6 _ _ _ => some 125
  | .arr _ _ _ => some 93
  | .elems _ _ _ => some 93
  | .elems1 _ _ _ => some 93
  | .elems2 _ _ _ => some 93
  | _ => none

theorem run_closeByte (json : List Nat) (opts : Nat) (f : Vis) :
    ∀ fuel c b, Call.cb c = some b → (run json opts f fuel c).stop = false →
      1 ≤ (run json opts f fuel c).i ∧
      rd json ((run json opts f fuel c).i - 1) = b := by
  intro fuel
  induction fuel with
  | zero =>
    intro c b _ hst
    simp [run] at hst
  | succ n ih =>
    intro c b hcb hst
    cases c with
    | any i dinfo skip tr => simp [Call.cb] at hcb
    | opn i dinfo skip tr kind => simp [Call.cb] at hcb
    | body i dinfo skip oskip tr kind => simp [Call.cb] at hcb
    | obj i skip tr =>
      have hb : 125 = b := by simpa [Call.cb] using hcb
      subst hb
      simp only [run] at hst ⊢
      by_cases h1 : skipWs json i < json.length
      · rw [if_pos h1] at hst ⊢
        by_cases h2 : rd json (skipWs json i) = 125
        · rw [if_pos h2] at hst ⊢
          exact ⟨by dsimp only; omega, by simpa using h2⟩
        · rw [if_neg h2] at hst ⊢
          by_cases h3 : rd json (skipWs json i) = 34
          · rw [if_pos h3] at hst ⊢
            exact ih _ _ (by simp [Call.cb]) hst
          · rw [if_neg h3] at hst; simp at hst
      · rw [if_neg h1] at hst; simp at hst
    | okey i skip tr =>
      have hb : 125 = b := by simpa [Call.cb] using hcb
      subst hb
      simp only [run] at hst ⊢
      by_cases h1 : (vstring json (i + 1)).stop = true
      · rw [if_pos h1] at hst; simp at hst
      · rw [if_neg h1] at hst ⊢
        exact ih _ _ (by simp [Call.cb]) hst
    | okey1 mark si sinfo skip tr =>
      have hb : 125 = b := by simpa [Call.cb] using hcb
      subst hb
      simp only [run] at hst ⊢
      by_cases h1 : (fireStop f skip tr ⟨mark, si, sinfo ||| KEY ||| STRING⟩).1 = true
      · rw [if_pos h1] at hst; simp at hst
      · rw [if_neg h1] at hst ⊢
        exact ih _ _ (by simp [Call.cb]) hst
    | okey2 si skip tr =>
      have hb : 125 = b := by simpa [Call.cb] using hcb
      subst hb
      simp only [run] at hst ⊢
      by_cases h1 : (vcolon json si).stop = true
      · rw [if_pos h1] at hst; simp at hst
      · rw [if_neg h1] at hst ⊢
        exact ih _ _ (by simp [Call.cb]) hst
    | okey3 ci skip tr =>
      have hb : 125 = b := by simpa [Call.cb] using hcb
      subst hb
      simp only [run] at hst ⊢
      by_cases h1 : (fireStop f skip tr ⟨ci - 1, ci, COLON⟩).1 = true
      · rw [if_pos h1] at hst; simp at hst
      · rw [if_neg h1] at hst ⊢
        exact ih _ _ (by simp [Call.cb]) hst
    | okey4 ci skip tr =>
      have hb : 125 = b := by simpa [Call.cb] using hcb
      subst hb
      simp only [run] at hst ⊢
      by_cases h1 : (run json opts f n (.any ci VALUE skip tr)).stop = true
      · rw [if_pos h1] at hst; rw [h1] at hst; simp at hst
      · rw [if_neg h1] at hst ⊢
        exact ih _ _ (by simp [Call.cb]) hst
    | okey5 ai skip tr =>
      have hb : 125 = b := by simpa [Call.cb] using hcb
      subst hb
      simp only [run] at hst ⊢
      by_cases h1 : (vcomma json ai 125).stop = true
      · rw [if_pos h1] at hst; simp at hst
      · rw [if_neg h1] at hst ⊢
        by_cases h2 : rd json (vcomma json ai 125).i = 125
        · rw [if_pos h2] at hst ⊢
          exact ⟨by dsimp only; omega, by simpa using h2⟩
        · rw [if_neg h2] at hst ⊢
          exact ih _ _ (by simp [Call.cb]) hst
    | okey6 mi skip tr =>
      have hb : 125 = b := by simpa [Call.cb] using hcb
      subst hb
      simp only [run] at hst ⊢
      by_cases h1 : (fireStop f skip tr ⟨mi, mi + 1, COMMA⟩).1 = true
      · rw [if_pos h1] at hst; simp at hst
      · rw [if_neg h1] at hst ⊢
        by_cases h2 : skipWs json (mi + 1) < json.length
        · rw [if_pos h2] at hst ⊢
          by_cases h3 : rd json (skipWs json (mi + 1)) = 34
          · rw [if_pos h3] at hst ⊢
            exact ih _ _ (by simp [Call.cb]) hst
          · rw [if_neg h3] at hst; simp at hst
        · rw [if_neg h2] at hst; simp at hst
    | arr i skip tr =>
      have hb : 93 = b := by simpa [Call.cb] using hcb
      subst hb
      simp only [run] at hst ⊢
      by_cases h1 : skipWs json i < json.length
      · rw [if_pos h1] at hst ⊢
        by_cases h2 : rd json (skipWs json i) = 93
        · rw [if_pos h2] at hst ⊢
          exact ⟨by dsimp only; omega, by simpa using h2⟩
        · rw [if_neg h2] at hst ⊢
          exact ih _ _ (by simp [Call.cb]) hst
      · rw [if_neg h1] at hst; simp at hst
    | elems i skip tr =>
      have hb : 93 = b := by simpa [Call.cb] using hcb
      subst hb
      simp only [run] at hst ⊢
      by_cases h1 : skipWs json i < json.length
      · rw [if_pos h1] at hst ⊢
        by_cases h2 : (run json opts f n (.any (skipWs json i) VALUE skip tr)).stop = true
        · rw [if_pos h2] at hst; rw [h2] at hst; simp at hst
        · rw [if_neg h2] at hst ⊢
          exact ih _ _ (by simp [Call.cb]) hst
      · rw [if_neg h1] at hst; simp at hst
    | elems1 ai skip tr =>
      have hb : 93 = b := by simpa [Call.cb] using hcb
      subst hb
      simp only [run] at hst ⊢
      by_cases h1 : (vcomma json ai 93).stop = true
      · rw [if_pos h1] at hst; simp at hst
      · rw [if_neg h1] at hst ⊢
        by_cases h2 : rd json (vcomma json ai 93).i = 93
        · rw [if_pos h2] at hst ⊢
          exact ⟨by dsimp only; omega, by simpa using h2⟩
        · rw [if_neg h2] at hst ⊢
          exact ih _ _ (by simp [Call.cb]) hst
    | elems2 mi skip tr =>
      have hb : 93 = b := by simpa [Call.cb] using hcb
      subst hb
      simp only [run] at hst ⊢
      by_cases h1 : (fireStop f skip tr ⟨mi, mi + 1, COMMA⟩).1 = true
      · rw [if_pos h1] at hst; simp at hst
      · rw [if_neg h1] at hst ⊢
        exact ih _ _ (by simp [Call.cb]) hst

end PJson


namespace PJson

/-! ### EvOK for each concrete event shape fired by `run` -/

theorem evok_open {json : List Nat} {opts : Nat} (i dinfo kind : Nat)
    (hd : dinfo = START ∨ dinfo = VALUE)
    (hk : (kind = OBJECT ∧ rd json i = 123) ∨ (kind = ARRAY ∧ rd json i = 91)) :
    EvOK json opts ⟨i, i + 1, kind ||| OPEN ||| dinfo⟩ := by
  rcases hk with ⟨rfl, hb⟩ | ⟨rfl, hb⟩ <;> rcases hd with rfl | rfl
  · exact ⟨by dsimp only [ValueFlagOK]; decide,
      ⟨fun _ => ⟨rfl, Or.inl ⟨by dsimp only [ValueFlagOK]; decide, hb⟩⟩,
        fun h => absurd h (by dsimp only; decide),
        fun h => absurd h (by dsimp only; decide),
        fun h => absurd h (by dsimp only; decide)⟩,
      fun _ h => absurd h (by dsimp only; decide)⟩
  · exact ⟨by dsimp only [ValueFlagOK]; decide,
      ⟨fun _ => ⟨rfl, Or.inl ⟨by dsimp only [ValueFlagOK]; decide, hb⟩⟩,
        fun h => absurd h (by dsimp only; decide),
        fun h => absurd h (by dsimp only; decide),
        fun h => absurd h (by dsimp only; decide)⟩,
      fun _ h => absurd h (by dsimp only; decide)⟩
  · exact ⟨by dsimp only [ValueFlagOK]; decide,
      ⟨fun _ => ⟨rfl, Or.inr ⟨by dsimp only [ValueFlagOK]; decide, hb⟩⟩,
        fun h => absurd h (by dsimp only; decide),
        fun h => absurd h (by dsimp only; decide),
        fun h => absurd h (by dsimp only; decide)⟩,
      fun _ h => absurd h (by dsimp only; decide)⟩
  · exact ⟨by dsimp only [ValueFlagOK]; decide,
      ⟨fun _ => ⟨rfl, Or.inr ⟨by dsimp only [ValueFlagOK]; decide, hb⟩⟩,
        fun h => absurd h (by dsimp only; decide),
        fun h => absurd h (by dsimp only; decide),
        fun h => absurd h (by dsimp only; decide)⟩,
      fun _ h => absurd h (by dsimp only; decide)⟩

theorem evok_close {json : List Nat} {opts : Nat} (i2 dinfo kind : Nat)
    (hd : dinfo = START ∨ dinfo = VALUE)
    (hk : kind = OBJECT ∨ kind = ARRAY)
    (hi1 : 1 ≤ i2)
    (hb : ¬opts &&& UNCHECKED = UNCHECKED →
      (kind = OBJECT → rd json (i2 - 1) = 125) ∧
      (kind = ARRAY → rd json (i2 - 1) = 93)) :
    EvOK json opts ⟨i2 - 1, i2, kind ||| CLOSE ||| closedi dinfo⟩ := by
  rcases hk with rfl | rfl <;> rcases hd with rfl | rfl <;>
    refine ⟨by dsimp only [ValueFlagOK]; decide,
      ⟨fun h => absurd h (by dsimp only; decide),
        fun h => absurd h (by dsimp only; decide),
        fun h => absurd h (by dsimp only; decide),
        fun _ => by dsimp only; omega⟩,
      fun hu _ => ?_⟩
  · exact Or.inl ⟨by dsimp only [ValueFlagOK]; decide, by dsimp only; exact (hb hu).1 rfl⟩
  · exact Or.inl ⟨by dsimp only [ValueFlagOK]; decide, by dsimp only; exact (hb hu).1 rfl⟩
  · exact Or.inr ⟨by dsimp only [ValueFlagOK]; decide, by dsimp only; exact (hb hu).2 rfl⟩
  · exact Or.inr ⟨by dsimp only [ValueFlagOK]; decide, by dsimp only; exact (hb hu).2 rfl⟩

theorem evok_scalar {json : List Nat} {opts : Nat} (mark i2 sinfo kf dinfo : Nat)
    (hs : lowClear sinfo)
    (hd : dinfo = START ∨ dinfo = VALUE)
    (hkf : kf = STRING ∨ kf = NUMBER) :
    EvOK json opts
      ⟨mark, i2, (sinfo ||| kf) |||
        (if dinfo &&& START = START then dinfo ||| END else dinfo)⟩ := by
  rw [Nat.lor_assoc]
  apply EvOK_lor_low hs
  rcases hd with rfl | rfl <;> rcases hkf with rfl | rfl <;>
    exact ⟨by dsimp only [ValueFlagOK]; decide,
      tokenRange_noTok (by decide) (by decide) (by decide) (by decide),
      fun _ => closeByte_noClose (by decide)⟩

theorem evok_keyword {json : List Nat} {opts : Nat} (mark i2 kf dinfo : Nat)
    (hd : dinfo = START ∨ dinfo = VALUE)
    (hkf : kf = TRUE ∨ kf = NULL ∨ kf = FALSE) :
    EvOK json opts
      ⟨mark, i2, kf ||| (if dinfo &&& START = START then dinfo ||| END else dinfo)⟩ := by
  rcases hd with rfl | rfl <;> rcases hkf with rfl | rfl | rfl <;>
    exact ⟨by dsimp only [ValueFlagOK]; decide,
      tokenRange_noTok (by decide) (by decide) (by decide) (by decide),
      fun _ => closeByte_noClose (by decide)⟩

theorem evok_key {json : List Nat} {opts : Nat} (mark si sinfo : Nat)
    (hs : lowClear sinfo) :
    EvOK json opts ⟨mark, si, sinfo ||| KEY ||| STRING⟩ := by
  rw [Nat.lor_assoc]
  apply EvOK_lor_low hs
  exact ⟨by dsimp only [ValueFlagOK]; decide,
    tokenRange_noTok (by decide) (by decide) (by decide) (by decide),
    fun _ => closeByte_noClose (by decide)⟩

theorem evok_colon {json : List Nat} {opts : Nat} (ci : Nat)
    (hci : 1 ≤ ci) (hb : rd json (ci - 1) = 58) :
    EvOK json opts ⟨ci - 1, ci, COLON⟩ :=
  ⟨by dsimp only [ValueFlagOK]; decide,
    ⟨fun h => absurd h (by dsimp only; decide),
      fun h => absurd h (by dsimp only; decide),
      fun _ => ⟨by dsimp only; omega, hb⟩,
      fun h => absurd h (by dsimp only; decide)⟩,
    fun _ h => absurd h (by dsimp only; decide)⟩

theorem evok_comma {json : List Nat} {opts : Nat} (mi : Nat)
    (hb : rd json mi = 44) :
    EvOK json opts ⟨mi, mi + 1, COMMA⟩ :=
  ⟨by dsimp only [ValueFlagOK]; decide,
    ⟨fun h => absurd h (by dsimp only; decide),
      fun _ => ⟨rfl, hb⟩,
      fun h => absurd h (by dsimp only; decide),
      fun h => absurd h (by dsimp only; decide)⟩,
    fun _ h => absurd h (by dsimp only; decide)⟩

/-- Invariant on pending calls under which every event fired from them
satisfies `EvOK`: the positional flags are `START` or `VALUE`, a pending
OPEN sits on its bracket byte, a scanned key info has only high bits, and
a pending COMMA sits on a comma byte. -/
def Call.wf (json : List Nat) : Call → Prop
  | .any _ dinfo _ _ => dinfo = START ∨ dinfo = VALUE
  | .opn i dinfo _ _ kind => (dinfo = START ∨ dinfo = VALUE) ∧
      ((kind = OBJECT ∧ rd json i = 123) ∨ (kind = ARRAY ∧ rd json i = 91))
  | .body _ dinfo _ _ _ kind => (dinfo = START ∨ dinfo = VALUE) ∧
      (kind = OBJECT ∨ kind = ARRAY)
  | .okey1 _ _ sinfo _ _ => lowClear sinfo
  | .okey3 ci _ _ => 1 ≤ ci ∧ rd json (ci - 1) = 58
  | .okey6 mi _ _ => rd json mi = 44
  | .elems2 mi _ _ => rd json mi = 44
  | _ => True

end PJson

namespace PJson

/-! ### Every fired event satisfies the per-event invariants -/

theorem run_evok (json : List Nat) (opts : Nat) (f : Vis) :
    ∀ fuel c, ∀ ev, ev ∈ (run json opts f fuel c).tr → Call.wf json c →
      ev ∈ c.trace ∨ EvOK json opts ev := by
  intro fuel
  induction fuel with
  | zero =>
    intro c ev hev _
    exact Or.inl (by simpa [run] using hev)
  | succ n ih =>
    intro c ev hev hw
    cases c with
    | any i dinfo skip tr =>
      simp only [Call.wf] at hw
      simp only [run] at hev
      simp only [Call.trace]
      by_cases h1 : skipWs json i < json.length
      · rw [if_pos h1] at hev
        by_cases h2 : rd json (skipWs json i) = 34
        · rw [if_pos h2] at hev
          rcases vscalarTail_tr_cases (skipWs json i) (vstring json (skipWs json i + 1)).i
              ((vstring json (skipWs json i + 1)).info ||| STRING)
              (vstring json (skipWs json i + 1)).ok (vstring json (skipWs json i + 1)).stop
              dinfo f skip tr with htc | htc
          · rw [htc] at hev; exact Or.inl hev
          · rw [htc] at hev
            rcases List.mem_cons.mp hev with rfl | hmem
            · exact Or.inr (evok_scalar _ _ _ _ _ (vstring_low json _) hw (Or.inl rfl))
            · exact Or.inl hmem
        · rw [if_neg h2] at hev
          by_cases h3 : rd json (skipWs json i) = 123
          · rw [if_pos h3] at hev
            have := ih _ ev hev (by simp only [Call.wf]; exact ⟨hw, Or.inl ⟨by trivial, h3⟩⟩)
            simpa [Call.trace] using this
          · rw [if_neg h3] at hev
            by_cases h4 : rd json (skipWs json i) = 91
            · rw [if_pos h4] at hev
              have := ih _ ev hev (by simp only [Call.wf]; exact ⟨hw, Or.inr ⟨by trivial, h4⟩⟩)
              simpa [Call.trace] using this
            · rw [if_neg h4] at hev
              by_cases h5 : rd json (skipWs json i) = 45 ∨ isnum (rd json (skipWs json i)) = true
              · rw [if_pos h5] at hev
                rcases vscalarTail_tr_cases (skipWs json i) (vnumber json (skipWs json i + 1)).i
                    ((vnumber json (skipWs json i + 1)).info ||| NUMBER)
                    (vnumber json (skipWs json i + 1)).ok (vnumber json (skipWs json i + 1)).stop
                    dinfo f skip tr with htc | htc
                · rw [htc] at hev; exact Or.inl hev
                · rw [htc] at hev
                  rcases List.mem_cons.mp hev with rfl | hmem
                  · exact Or.inr (evok_scalar _ _ _ _ _ (vnumber_low json _) hw (Or.inr rfl))
                  · exact Or.inl hmem
              · rw [if_neg h5] at hev
                by_cases h6 : rd json (skipWs json i) = 116
                · rw [if_pos h6] at hev
                  rcases vscalarTail_tr_cases (skipWs json i) (vtrue json (skipWs json i + 1)).i
                      TRUE (vtrue json (skipWs json i + 1)).ok
                      (vtrue json (skipWs json i + 1)).stop dinfo f skip tr with htc | htc
                  · rw [htc] at hev; exact Or.inl hev
                  · rw [htc] at hev
                    rcases List.mem_cons.mp hev with rfl | hmem
                    · exact Or.inr (evok_keyword _ _ _ _ hw (Or.inl rfl))
                    · exact Or.inl hmem
                · rw [if_neg h6] at hev
                  by_cases h7 : rd json (skipWs json i) = 110
                  · rw [if_pos h7] at hev
                    rcases vscalarTail_tr_cases (skipWs json i) (vnull json (skipWs json i + 1)).i
                        NULL (vnull json (skipWs json i + 1)).ok
                        (vnull json (skipWs json i + 1)).stop dinfo f skip tr with htc | htc
                    · rw [htc] at hev; exact Or.inl hev
                    · rw [htc] at hev
                      rcases List.mem_cons.mp hev with rfl | hmem
                      · exact Or.inr (evok_keyword _ _ _ _ hw (Or.inr (Or.inl rfl)))
                      · exact Or.inl hmem
                  · rw [if_neg h7] at hev
                    by_cases h8 : rd json (skipWs json i) = 102
                    · rw [if_pos h8] at hev
                      rcases vscalarTail_tr_cases (skipWs json i)
                          (vfalse json (skipWs json i + 1)).i FALSE
                          (vfalse json (skipWs json i + 1)).ok
                          (vfalse json (skipWs json i + 1)).stop dinfo f skip tr with htc | htc
                      · rw [htc] at hev; exact Or.inl hev
                      · rw [htc] at hev
                        rcases List.mem_cons.mp hev with rfl | hmem
                        · exact Or.inr (evok_keyword _ _ _ _ hw (Or.inr (Or.inr rfl)))
                        · exact Or.inl hmem
                    · rw [if_neg h8] at hev; dsimp only at hev; exact Or.inl hev
      · rw [if_neg h1] at hev; dsimp only at hev; exact Or.inl hev
    | opn i dinfo skip tr kind =>
      simp only [Call.wf] at hw
      obtain ⟨hd, hbk⟩ := hw
      have hk : kind = OBJECT ∨ kind = ARRAY := by
        rcases hbk with ⟨h, _⟩ | ⟨h, _⟩
        exacts [Or.inl h, Or.inr h]
      simp only [run] at hev
      simp only [Call.trace]
      by_cases h1 : skip = true
      · rw [if_pos h1] at hev
        have := ih _ ev hev (by simp only [Call.wf]; exact ⟨hd, hk⟩)
        simpa [Call.trace] using this
      · rw [if_neg h1] at hev
        by_cases h2 : f tr ⟨i, i + 1, kind ||| OPEN ||| dinfo⟩ = 0
        · rw [if_pos h2] at hev
          dsimp only at hev
          rcases List.mem_cons.mp hev with rfl | hmem
          · exact Or.inr (evok_open i dinfo kind hd hbk)
          · exact Or.inl hmem
        · rw [if_neg h2] at hev
          have := ih _ ev hev (by simp only [Call.wf]; exact ⟨hd, hk⟩)
          simp only [Call.trace] at this
          rcases this with hmem | hok
          · rcases List.mem_cons.mp hmem with rfl | hmem2
            · exact Or.inr (evok_open i dinfo kind hd hbk)
            · exact Or.inl hmem2
          · exact Or.inr hok
    | body i dinfo skip oskip tr kind =>
      simp only [Call.wf] at hw
      obtain ⟨hd, hk⟩ := hw
      simp only [run] at hev
      simp only [Call.trace]
      by_cases hu : opts &&& UNCHECKED = UNCHECKED ∧ oskip = true
      · rw [if_pos hu] at hev
        rcases vclose_tr_cases (squash json (i + 1)) dinfo f skip tr kind with htc | htc
        · rw [htc] at hev; exact Or.inl hev
        · rw [htc] at hev
          rcases List.mem_cons.mp hev with rfl | hmem
          · exact Or.inr (evok_close _ dinfo kind hd hk
              (Nat.le_trans (by omega) (squash_ge json (i + 1)))
              (fun hnu => absurd hu.1 hnu))
          · exact Or.inl hmem
      · rw [if_neg hu] at hev
        by_cases hko : kind = OBJECT
        · subst hko
          rw [if_pos rfl] at hev
          by_cases hst : (run json opts f n (.obj (i + 1) oskip tr)).stop = true
          · rw [if_pos hst] at hev
            have := ih _ ev hev (by simp only [Call.wf])
            simpa [Call.trace] using this
          · rw [if_neg hst] at hev
            rcases vclose_tr_cases (run json opts f n (.obj (i + 1) oskip tr)).i dinfo f skip
                (run json opts f n (.obj (i + 1) oskip tr)).tr OBJECT with htc | htc
            · rw [htc] at hev
              have := ih _ ev hev (by simp only [Call.wf])
              simpa [Call.trace] using this
            · rw [htc] at hev
              rcases List.mem_cons.mp hev with rfl | hmem
              · have hcb := run_closeByte json opts f n (.obj (i + 1) oskip tr) 125
                  (by simp [Call.cb]) (by simpa using hst)
                exact Or.inr (evok_close _ dinfo OBJECT hd (Or.inl rfl) hcb.1
                  (fun _ => ⟨fun _ => hcb.2, fun hc => absurd hc (by decide)⟩))
              · have := ih _ ev hmem (by simp only [Call.wf])
                simpa [Call.trace] using this
        · rcases hk with hka | hka
          · exact absurd hka hko
          subst hka
          rw [if_neg hko] at hev
          by_cases hst : (run json opts f n (.arr (i + 1) oskip tr)).stop = true
          · rw [if_pos hst] at hev
            have := ih _ ev hev (by simp only [Call.wf])
            simpa [Call.trace] using this
          · rw [if_neg hst] at hev
            rcases vclose_tr_cases (run json opts f n (.arr (i + 1) oskip tr)).i dinfo f skip
                (run json opts f n (.arr (i + 1) oskip tr)).tr ARRAY with htc | htc
            · rw [htc] at hev
              have := ih _ ev hev (by simp only [Call.wf])
              simpa [Call.trace] using this
            · rw [htc] at hev
              rcases List.mem_cons.mp hev with rfl | hmem
              · have hcb := run_closeByte json opts f n (.arr (i + 1) oskip tr) 93
                  (by simp [Call.cb]) (by simpa using hst)
                exact Or.inr (evok_close _ dinfo ARRAY hd (Or.inr rfl) hcb.1
                  (fun _ => ⟨fun hc => absurd hc (by decide), fun _ => hcb.2⟩))
              · have := ih _ ev hmem (by simp only [Call.wf])
                simpa [Call.trace] using this
    | obj i skip tr =>
      simp only [run] at hev
      simp only [Call.trace]
      by_cases h1 : skipWs json i < json.length
      · rw [if_pos h1] at hev
        by_cases h2 : rd json (skipWs json i) = 125
        · rw [if_pos h2] at hev; dsimp only at hev; exact Or.inl hev
        · rw [if_neg h2] at hev
          by_cases h3 : rd json (skipWs json i) = 34
          · rw [if_pos h3] at hev
            have := ih _ ev hev (by simp only [Call.wf])
            simpa [Call.trace] using this
          · rw [if_neg h3] at hev; dsimp only at hev; exact Or.inl hev
      · rw [if_neg h1] at hev; dsimp only at hev; exact Or.inl hev
    | okey i skip tr =>
      simp only [run] at hev
      simp only [Call.trace]
      by_cases h1 : (vstring json (i + 1)).stop = true
      · rw [if_pos h1] at hev; dsimp only at hev; exact Or.inl hev
      · rw [if_neg h1] at hev
        have := ih _ ev hev (by simp only [Call.wf]; exact vstring_low json (i + 1))
        simpa [Call.trace] using this
    | okey1 mark si sinfo skip tr =>
      simp only [Call.wf] at hw
      simp only [run] at hev
      simp only [Call.trace]
      by_cases h1 : (fireStop f skip tr ⟨mark, si, sinfo ||| KEY ||| STRING⟩).1 = true
      · rw [if_pos h1] at hev
        dsimp only at hev
        rcases fireStop_snd_cases f skip tr ⟨mark, si, sinfo ||| KEY ||| STRING⟩ with hs2 | hs2
        · rw [hs2] at hev; exact Or.inl hev
        · rw [hs2] at hev
          rcases List.mem_cons.mp hev with rfl | hmem
          · exact Or.inr (evok_key mark si sinfo hw)
          · exact Or.inl hmem
      · rw [if_neg h1] at hev
        have := ih _ ev hev (by simp only [Call.wf])
        simp only [Call.trace] at this
        rcases this with hmem | hok
        · rcases fireStop_snd_cases f skip tr ⟨mark, si, sinfo ||| KEY ||| STRING⟩ with hs2 | hs2
          · rw [hs2] at hmem; exact Or.inl hmem
          · rw [hs2] at hmem
            rcases List.mem_cons.mp hmem with rfl | hmem2
            · exact Or.inr (evok_key mark si sinfo hw)
            · exact Or.inl hmem2
        · exact Or.inr hok
    | okey2 si skip tr =>
      simp only [run] at hev
      simp only [Call.trace]
      by_cases h1 : (vcolon json si).stop = true
      · rw [if_pos h1] at hev; dsimp only at hev; exact Or.inl hev
      · rw [if_neg h1] at hev
        obtain ⟨ha, _, hc⟩ := vcolon_spec (show (vcolon json si).stop = false by simpa using h1)
        have := ih _ ev hev (by simp only [Call.wf]; exact ⟨ha, hc⟩)
        simpa [Call.trace] using this
    | okey3 ci skip tr =>
      simp only [Call.wf] at hw
      simp only [run] at hev
      simp only [Call.trace]
      by_cases h1 : (fireStop f skip tr ⟨ci - 1, ci, COLON⟩).1 = true
      · rw [if_pos h1] at hev
        dsimp only at hev
        rcases fireStop_snd_cases f skip tr ⟨ci - 1, ci, COLON⟩ with hs2 | hs2
        · rw [hs2] at hev; exact Or.inl hev
        · rw [hs2] at hev
          rcases List.mem_cons.mp hev with rfl | hmem
          · exact Or.inr (evok_colon ci hw.1 hw.2)
          · exact Or.inl hmem
      · rw [if_neg h1] at hev
        have := ih _ ev hev (by simp only [Call.wf])
        simp only [Call.trace] at this
        rcases this with hmem | hok
        · rcases fireStop_snd_cases f skip tr ⟨ci - 1, ci, COLON⟩ with hs2 | hs2
          · rw [hs2] at hmem; exact Or.inl hmem
          · rw [hs2] at hmem
            rcases List.mem_cons.mp hmem with rfl | hmem2
            · exact Or.inr (evok_colon ci hw.1 hw.2)
            · exact Or.inl hmem2
        · exact Or.inr hok
    | okey4 ci skip tr =>
      simp only [run] at hev
      simp only [Call.trace]
      by_cases h1 : (run json opts f n (.any ci VALUE skip tr)).stop = true
      · rw [if_pos h1] at hev
        have := ih _ ev hev (by simp only [Call.wf]; exact Or.inr (by trivial))
        simpa [Call.trace] using this
      · rw [if_neg h1] at hev
        have h5 := ih _ ev hev (by simp only [Call.wf])
        simp only [Call.trace] at h5
        rcases h5 with hmem | hok
        · have := ih _ ev hmem (by simp only [Call.wf]; exact Or.inr (by trivial))
          simpa [Call.trace] using this
        · exact Or.inr hok
    | okey5 ai skip tr =>
      simp only [run] at hev
      simp only [Call.trace]
      by_cases h1 : (vcomma json ai 125).stop = true
      · rw [if_pos h1] at hev; dsimp only at hev; exact Or.inl hev
      · rw [if_neg h1] at hev
        by_cases h2 : rd json (vcomma json ai 125).i = 125
        · rw [if_pos h2] at hev; dsimp only at hev; exact Or.inl hev
        · rw [if_neg h2] at hev
          have hsp := vcomma_spec (show (vcomma json ai 125).stop = false by simpa using h1)
          have hb : rd json (vcomma json ai 125).i = 44 := by
            rcases hsp.2 with h | h
            · exact h
            · exact absurd h h2
          have := ih _ ev hev (by simp only [Call.wf]; exact hb)
          simpa [Call.trace] using this
    | okey6 mi skip tr =>
      simp only [Call.wf] at hw
      simp only [run] at hev
      simp only [Call.trace]
      by_cases h1 : (fireStop f skip tr ⟨mi, mi + 1, COMMA⟩).1 = true
      · rw [if_pos h1] at hev
        dsimp only at hev
        rcases fireStop_snd_cases f skip tr ⟨mi, mi + 1, COMMA⟩ with hs2 | hs2
        · rw [hs2] at hev; exact Or.inl hev
        · rw [hs2] at hev
          rcases List.mem_cons.mp hev with rfl | hmem
          · exact Or.inr (evok_comma mi hw)
          · exact Or.inl hmem
      · rw [if_neg h1] at hev
        by_cases h2 : skipWs json (mi + 1) < json.length
        · rw [if_pos h2] at hev
          by_cases h3 : rd json (skipWs json (mi + 1)) = 34
          · rw [if_pos h3] at hev
            have := ih _ ev hev (by simp only [Call.wf])
            simp only [Call.trace] at this
            rcases this with hmem | hok
            · rcases fireStop_snd_cases f skip tr ⟨mi, mi + 1, COMMA⟩ with hs2 | hs2
              · rw [hs2] at hmem; exact Or.inl hmem
              · rw [hs2] at hmem
                rcases List.mem_cons.mp hmem with rfl | hmem2
                · exact Or.inr (evok_comma mi hw)
                · exact Or.inl hmem2
            · exact Or.inr hok
          · rw [if_neg h3] at hev
            dsimp only at hev
            rcases fireStop_snd_cases f skip tr ⟨mi, mi + 1, COMMA⟩ with hs2 | hs2
            · rw [hs2] at hev; exact Or.inl hev
            · rw [hs2] at hev
              rcases List.mem_cons.mp hev with rfl | hmem
              · exact Or.inr (evok_comma mi hw)
              · exact Or.inl hmem
        · rw [if_neg h2] at hev
          dsimp only at hev
          rcases fireStop_snd_cases f skip tr ⟨mi, mi + 1, COMMA⟩ with hs2 | hs2
          · rw [hs2] at hev; exact Or.inl hev
          · rw [hs2] at hev
            rcases List.mem_cons.mp hev with rfl | hmem
            · exact Or.inr (evok_comma mi hw)
            · exact Or.inl hmem
    | arr i skip tr =>
      simp only [run] at hev
      simp only [Call.trace]
      by_cases h1 : skipWs json i < json.length
      · rw [if_pos h1] at hev
        by_cases h2 : rd json (skipWs json i) = 93
        · rw [if_pos h2] at hev; dsimp only at hev; exact Or.inl hev
        · rw [if_neg h2] at hev
          have := ih _ ev hev (by simp only [Call.wf])
          simpa [Call.trace] using this
      · rw [if_neg h1] at hev; dsimp only at hev; exact Or.inl hev
    | elems i skip tr =>
      simp only [run] at hev
      simp only [Call.trace]
      by_cases h1 : skipWs json i < json.length
      · rw [if_pos h1] at hev
        by_cases h2 : (run json opts f n (.any (skipWs json i) VALUE skip tr)).stop = true
        · rw [if_pos h2] at hev
          have := ih _ ev hev (by simp only [Call.wf]; exact Or.inr (by trivial))
          simpa [Call.trace] using this
        · rw [if_neg h2] at hev
          have h5 := ih _ ev hev (by simp only [Call.wf])
          simp only [Call.trace] at h5
          rcases h5 with hmem | hok
          · have := ih _ ev hmem (by simp only [Call.wf]; exact Or.inr (by trivial))
            simpa [Call.trace] using this
          · exact Or.inr hok
      · rw [if_neg h1] at hev; dsimp only at hev; exact Or.inl hev
    | elems1 ai skip tr =>
      simp only [run] at hev
      simp only [Call.trace]
      by_cases h1 : (vcomma json ai 93).stop = true
      · rw [if_pos h1] at hev; dsimp only at hev; exact Or.inl hev
      · rw [if_neg h1] at hev
        by_cases h2 : rd json (vcomma json ai 93).i = 93
        · rw [if_pos h2] at hev; dsimp only at hev; exact Or.inl hev
        · rw [if_neg h2] at hev
          have hsp := vcomma_spec (show (vcomma json ai 93).stop = false by simpa using h1)
          have hb : rd json (vcomma json ai 93).i = 44 := by
            rcases hsp.2 with h | h
            · exact h
            · exact absurd h h2
          have := ih _ ev hev (by simp only [Call.wf]; exact hb)
          simpa [Call.trace] using this
    | elems2 mi skip tr =>
      simp only [Call.wf] at hw
      simp only [run] at hev
      simp only [Call.trace]
      by_cases h1 : (fireStop f skip tr ⟨mi, mi + 1, COMMA⟩).1 = true
      · rw [if_pos h1] at hev
        dsimp only at hev
        rcases fireStop_snd_cases f skip tr ⟨mi, mi + 1, COMMA⟩ with hs2 | hs2
        · rw [hs2] at hev; exact Or.inl hev
        · rw [hs2] at hev
          rcases List.mem_cons.mp hev with rfl | hmem
          · exact Or.inr (evok_comma mi hw)
          · exact Or.inl hmem
      · rw [if_neg h1] at hev
        have := ih _ ev hev (by simp only [Call.wf])
        simp only [Call.trace] at this
        rcases this with hmem | hok
        · rcases fireStop_snd_cases f skip tr ⟨mi, mi + 1, COMMA⟩ with hs2 | hs2
          · rw [hs2] at hmem; exact Or.inl hmem
          · rw [hs2] at hmem
            rcases List.mem_cons.mp hmem with rfl | hmem2
            · exact Or.inr (evok_comma mi hw)
            · exact Or.inl hmem2
        · exact Or.inr hok

/-- Lift to the full parse: every event in the trace of `parseR` satisfies
the per-event invariants. -/
theorem parseR_evok (json : List Nat) (opts : Nat) (f : Vis) :
    ∀ ev ∈ (parseR json opts f).tr, EvOK json opts ev := by
  intro ev hev
  simp only [parseR, vdoc, vany] at hev
  by_cases hst : (run json opts f (FUEL json) (.any 0 START false [])).stop = true
  · rw [if_pos hst] at hev
    rcases run_evok json opts f (FUEL json) (.any 0 START false [])
        ev hev (by simp only [Call.wf]; exact Or.inl (by trivial)) with hmem | hok
    · simp [Call.trace] at hmem
    · exact hok
  · rw [if_neg hst] at hev
    have hev2 : ev ∈ (run json opts f (FUEL json) (.any 0 START false [])).tr := by
      by_cases h2 : skipWs json (run json opts f (FUEL json) (.any 0 START false [])).i
          < json.length
      · rw [if_pos h2] at hev; exact hev
      · rw [if_neg h2] at hev; exact hev
    rcases run_evok json opts f (FUEL json) (.any 0 START false [])
        ev hev2 (by simp only [Call.wf]; exact Or.inl (by trivial)) with hmem | hok
    · simp [Call.trace] at hmem
    · exact hok

end PJson

namespace PJson

/-- C2 (counterexample to the original claim): parsing `[[]]` fires the
inner array's CLOSE callback with both `VALUE` (bit 15) and `CLOSE`
(bit 13) set — `vany` keeps the positional flags (including `VALUE`) when
it converts `START` to `END` on close, so `VALUE` does appear on a
container CLOSE callback. -/
theorem parse_value_on_close_ctex :
    (⟨2, 3, ARRAY ||| CLOSE ||| VALUE⟩ : Ev) ∈
        (parseR [91, 91, 93, 93] 0 (fun _ _ => 1)).tr ∧
    (ARRAY ||| CLOSE ||| VALUE).testBit 15 = true ∧
    (ARRAY ||| CLOSE ||| VALUE).testBit 13 = true := by
  decide

/-- C2 (amended): in every callback fired by `parse`, the `VALUE` flag
(bit 15) is present exactly when none of `START` (10), `END` (11), `KEY`
(14), `COLON` (9), `COMMA` (8) is — i.e. exactly on object member values
and array elements, including both the OPEN and the CLOSE callbacks of
such containers. -/
theorem parse_value_flag (json : List Nat) (opts : Nat) (f : Vis) :
    ∀ ev ∈ (parseR json opts f).tr, ValueFlagOK ev :=
  fun ev hev => (parseR_evok json opts f ev hev).1

theorem parse_value_flag_witness :
    (⟨0, 1, OBJECT ||| OPEN ||| START⟩ : Ev) ∈ (parseR [123, 125] 0 (fun _ _ => 1)).tr ∧
    ValueFlagOK ⟨0, 1, OBJECT ||| OPEN ||| START⟩ :=
  ⟨by decide,
    parse_value_flag [123, 125] 0 (fun _ _ => 1) ⟨0, 1, OBJECT ||| OPEN ||| START⟩ (by decide)⟩

/-- C9 (counterexample to the original claim): with `UNCHECKED` set and a
skipping visitor on the truncated input `{`, squash runs off the end of
the buffer and the CLOSE callback fires with range (0, 1) — the single
byte `{`, an opening brace, not the closing bracket byte of the
container. -/
theorem parse_close_range_ctex :
    (parseR [123] UNCHECKED (fun _ _ => -1)).tr =
      [⟨0, 1, OBJECT ||| CLOSE ||| END⟩, ⟨0, 1, OBJECT ||| OPEN ||| START⟩] ∧
    rd [123] 0 = 123 := by
  decide

/-- C9 (amended): in every callback fired by `parse`, an OPEN (bit 12)
event spans exactly the single opening bracket byte of its container, a
COMMA (bit 8) event the single `,` byte, a COLON (bit 9) event the single
`:` byte, and a CLOSE (bit 13) event a single byte; the CLOSE byte is the
matching closing bracket whenever `UNCHECKED` is unset (under `UNCHECKED`
a squashed body may end elsewhere, as the counterexample shows). -/
theorem parse_token_ranges (json : List Nat) (opts : Nat) (f : Vis) :
    ∀ ev ∈ (parseR json opts f).tr,
      TokenRangeOK json ev ∧
      (¬opts &&& UNCHECKED = UNCHECKED → CloseByteOK json ev) :=
  fun ev hev => (parseR_evok json opts f ev hev).2

theorem parse_token_ranges_witness :
    (⟨2, 3, COMMA⟩ : Ev) ∈ (parseR [91, 49, 44, 50, 93] 0 (fun _ _ => 1)).tr ∧
    (TokenRangeOK [91, 49, 44, 50, 93] ⟨2, 3, COMMA⟩ ∧
      (¬(0 : Nat) &&& UNCHECKED = UNCHECKED →
        CloseByteOK [91, 49, 44, 50, 93] ⟨2, 3, COMMA⟩)) :=
  ⟨by decide,
    parse_token_ranges [91, 49, 44, 50, 93] 0 (fun _ _ => 1) ⟨2, 3, COMMA⟩ (by decide)⟩

end PJson

namespace PJson

/-! ### Checked-read mirror of the parser (C10)

Every buffer access of lib.rs is an index into `json` (panicking — or, for
the `get_unchecked` fast paths, undefined — when out of bounds), and every
`usize` subtraction would underflow below zero.  The definitions below
mirror the recognizers exactly, but perform every read through `rdC`
(`Option`-returning indexing) and every read-index subtraction through
`subC`, so a single out-of-range access makes the whole run `none`. -/

/-- Checked read: `none` out of bounds. -/
def rdC (json : List Nat) (i : Nat) : Option Nat := json[i]?

/-- Checked `usize` subtraction: `none` on underflow. -/
def subC (a b : Nat) : Option Nat := if b ≤ a then some (a - b) else none

def skipWsGC (json : List Nat) : Nat → Nat → Option Nat
  | 0, i => some i
  | g + 1, i =>
    if i < json.length then
      match rdC json i with
      | none => none
      | some c => if isws c then skipWsGC json g (i + 1) else some i
    else some i

def skipWsC (json : List Nat) (i : Nat) : Option Nat :=
  skipWsGC json (json.length + 1) i

def digitsGC (json : List Nat) : Nat → Nat → Option Nat
  | 0, i => some i
  | g + 1, i =>
    if i < json.length then
      match rdC json i with
      | none => none
      | some c => if isnum c then digitsGC json g (i + 1) else some i
    else some i

def digitsC (json : List Nat) (i : Nat) : Option Nat :=
  digitsGC json (json.length + 1) i

def hexRunC (json : List Nat) : Nat → Nat → Option (Nat × Bool)
  | i, 0 => some (i, true)
  | i, k + 1 =>
    if i + 1 = json.length then some (i + 1, false)
    else
      match rdC json (i + 1) with
      | none => none
      | some c => if ishex c then hexRunC json (i + 1) k else some (i + 1, false)

def vstringGC (json : List Nat) : Nat → Nat → Nat → Option SRes
  | 0, i, info => some ⟨i, info, false, true⟩
  | g + 1, i, info =>
    if i < json.length then
      match rdC json i with
      | none => none
      | some c =>
        if isstrtok c then
          if c = 34 then some ⟨i + 1, info, true, false⟩
          else if c < 32 then some ⟨i, info, false, true⟩
          else
            if i + 1 = json.length then some ⟨i + 1, info ||| ESCAPED, false, true⟩
            else
              match rdC json (i + 1) with
              | none => none
              | some c2 =>
                if isesc c2 then vstringGC json g (i + 2) (info ||| ESCAPED)
                else if c2 = 117 then
                  match hexRunC json (i + 1) 4 with
                  | none => none
                  | some hr =>
                    if hr.2 then vstringGC json g (i + 6) (info ||| ESCAPED)
                    else some ⟨hr.1, info ||| ESCAPED, false, true⟩
                else some ⟨i + 1, info ||| ESCAPED, false, true⟩
        else vstringGC json g (i + 1) info
    else some ⟨i, info, false, true⟩

def vstringC (json : List Nat) (i : Nat) : Option SRes :=
  vstringGC json (json.length + 1) i 0

def vnumExpC (json : List Nat) (i : Nat) (info : Nat) : Option SRes :=
  match rdC json i with
  | none => none
  | some c =>
    if c = 101 ∨ c = 69 then
      let info := info ||| E
      let i := i + 1
      if i = json.length then some ⟨i, info, false, true⟩
      else
        match rdC json i with
        | none => none
        | some c2 =>
          let i := if c2 = 43 ∨ c2 = 45 then i + 1 else i
          if i = json.length then some ⟨i, info, false, true⟩
          else
            match rdC json i with
            | none => none
            | some c3 =>
              if isnum c3 then
                match digitsC json (i + 1) with
                | none => none
                | some j => some ⟨j, info, true, false⟩
              else some ⟨i, info, false, true⟩
    else some ⟨i, info, true, false⟩

def vnumFracC (json : List Nat) (i : Nat) (info : Nat) : Option SRes :=
  match rdC json i with
  | none => none
  | some c =>
    if c = 46 then
      let info := info ||| DOT
      let i := i + 1
      if i = json.length then some ⟨i, info, false, true⟩
      else
        match rdC json i with
        | none => none
        | some c2 =>
          if isnum c2 then
            match digitsC json (i + 1) with
            | none => none
            | some j =>
              if j = json.length then some ⟨j, info, true, false⟩
              else vnumExpC json j info
          else some ⟨i, info, false, true⟩
    else vnumExpC json i info

def vnumSigC (json : List Nat) (i : Nat) (info : Nat) : Option SRes :=
  match rdC json i with
  | none => none
  | some c =>
    match (if c = 48 then some (i + 1) else digitsC json i) with
    | none => none
    | some j =>
      if j = json.length then some ⟨j, info, true, false⟩
      else vnumFracC json j info

def vnumberC (json : List Nat) (i0 : Nat) : Option SRes :=
  match subC i0 1 with
  | none => none
  | some i =>
    match rdC json i with
    | none => none
    | some c =>
      if c = 45 then
        let i := i + 1
        if i = json.length then some ⟨i, SIGN, false, true⟩
        else
          match rdC json i with
          | none => none
          | some c2 =>
            if isnum c2 then vnumSigC json i SIGN
            else some ⟨i, SIGN, false, true⟩
      else vnumSigC json i 0

def vtrueC (json : List Nat) (i : Nat) : Option KRes :=
  if i + 3 ≤ json.length then
    match rdC json i, rdC json (i + 1), rdC json (i + 2) with
    | some c0, some c1, some c2 =>
      if c0 = 114 ∧ c1 = 117 ∧ c2 = 101 then some ⟨i + 3, true, false⟩
      else some ⟨i, false, true⟩
    | _, _, _ => none
  else some ⟨i, false, true⟩

def vnullC (json : List Nat) (i : Nat) : Option KRes :=
  if i + 3 ≤ json.length then
    match rdC json i, rdC json (i + 1), rdC json (i + 2) with
    | some c0, some c1, some c2 =>
      if c0 = 117 ∧ c1 = 108 ∧ c2 = 108 then some ⟨i + 3, true, false⟩
      else some ⟨i, false, true⟩
    | _, _, _ => none
  else some ⟨i, false, true⟩

def vfalseC (json : List Nat) (i : Nat) : Option KRes :=
  if i + 4 ≤ json.length then
    match rdC json i, rdC json (i + 1), rdC json (i + 2), rdC json (i + 3) with
    | some c0, some c1, some c2, some c3 =>
      if c0 = 97 ∧ c1 = 108 ∧ c2 = 115 ∧ c3 = 101 then some ⟨i + 4, true, false⟩
      else some ⟨i, false, true⟩
    | _, _, _, _ => none
  else some ⟨i, false, true⟩

def vcolonGC (json : List Nat) : Nat → Nat → Option KRes
  | 0, i => some ⟨i, false, true⟩
  | g + 1, i =>
    if i < json.length then
      match rdC json i with
      | none => none
      | some c =>
        if c = 58 then some ⟨i + 1, true, false⟩
        else if isws c then vcolonGC json g (i + 1)
        else some ⟨i, false, true⟩
    else some ⟨i, false, true⟩

def vcolonC (json : List Nat) (i : Nat) : Option KRes :=
  vcolonGC json (json.length + 1) i

def vcommaGC (json : List Nat) (endch : Nat) : Nat → Nat → Option KRes
  | 0, i => some ⟨i, false, true⟩
  | g + 1, i =>
    if i < json.length then
      match rdC json i with
      | none => none
      | some c =>
        if c = 44 then some ⟨i, true, false⟩
        else if c = endch then some ⟨i, true, false⟩
        else if isws c then vcommaGC json endch g (i + 1)
        else some ⟨i, false, true⟩
    else some ⟨i, false, true⟩

def vcommaC (json : List Nat) (i : Nat) (endch : Nat) : Option KRes :=
  vcommaGC json endch (json.length + 1) i

def bsRunC (json : List Nat) : Nat → Nat → Option Nat
  | 0, _ => some 0
  | j + 1, s =>
    if 1 ≤ s ∧ s ≤ j + 1 then
      match rdC json (j + 1) with
      | none => none
      | some c =>
        if c = 92 then
          match bsRunC json j s with
          | none => none
          | some n => some (n + 1)
        else some 0
    else some 0

def squashStrGC (json : List Nat) (s : Nat) : Nat → Nat → Option Nat
  | 0, i => some i
  | g + 1, i =>
    if i < json.length then
      match rdC json i with
      | none => none
      | some c =>
        if c = 34 then
          match subC i 1 with
          | none => none
          | some i1 =>
            match rdC json i1 with
            | none => none
            | some c1 =>
              if c1 = 92 then
                match subC i 2 with
                | none => none
                | some i2 =>
                  match bsRunC json i2 s with
                  | none => none
                  | some n =>
                    if n % 2 = 0 then squashStrGC json s g (i + 1) else some i
              else some i
        else squashStrGC json s g (i + 1)
    else some i

def squashStrC (json : List Nat) (i s : Nat) : Option Nat :=
  squashStrGC json s (json.length + 1) i

def squashGC (json : List Nat) : Nat → Nat → Nat → Option Nat
  | 0, i, _ => some i
  | g + 1, i, depth =>
    if i < json.length then
      match rdC json i with
      | none => none
      | some c =>
        if issquash c then
          if c = 34 then
            match squashStrC json (i + 1) (i + 1) with
            | none => none
            | some j =>
              if j < json.length then squashGC json g (j + 1) depth else some j
          else if isopench c then squashGC json g (i + 1) (depth + 1)
          else if depth = 1 then some (i + 1)
          else squashGC json g (i + 1) (depth - 1)
        else squashGC json g (i + 1) depth
    else some i

def squashC (json : List Nat) (i : Nat) : Option Nat :=
  squashGC json (json.length + 1) i 1

end PJson

namespace PJson

/-! ### The checked scanners simulate the unchecked ones -/

theorem rdC_lt {json : List Nat} {i : Nat} (h : i < json.length) :
    rdC json i = some (rd json i) := by
  unfold rdC rd
  rw [List.getElem?_eq_getElem h, List.getD_eq_getElem?_getD,
    List.getElem?_eq_getElem h]
  rfl

theorem subC_le {a b : Nat} (h : b ≤ a) : subC a b = some (a - b) := if_pos h

theorem skipWsGC_sim (json : List Nat) :
    ∀ g i, skipWsGC json g i = some (skipWsG json g i) := by
  intro g
  induction g with
  | zero => intro i; rfl
  | succ g ih =>
    intro i
    simp only [skipWsGC, skipWsG]
    by_cases h1 : i < json.length
    · simp only [if_pos h1, rdC_lt h1]
      by_cases h2 : isws (rd json i) = true
      · rw [if_pos h2, if_pos ⟨h1, h2⟩, ih]
      · rw [if_neg h2, if_neg (by simp [h2])]
    · rw [if_neg h1, if_neg (by simp [h1])]

theorem skipWsC_sim (json : List Nat) (i : Nat) :
    skipWsC json i = some (skipWs json i) :=
  skipWsGC_sim json _ i

theorem digitsGC_sim (json : List Nat) :
    ∀ g i, digitsGC json g i = some (digitsG json g i) := by
  intro g
  induction g with
  | zero => intro i; rfl
  | succ g ih =>
    intro i
    simp only [digitsGC, digitsG]
    by_cases h1 : i < json.length
    · simp only [if_pos h1, rdC_lt h1]
      by_cases h2 : isnum (rd json i) = true
      · rw [if_pos h2, if_pos ⟨h1, h2⟩, ih]
      · rw [if_neg h2, if_neg (by simp [h2])]
    · rw [if_neg h1, if_neg (by simp [h1])]

theorem digitsC_sim (json : List Nat) (i : Nat) :
    digitsC json i = some (digits json i) :=
  digitsGC_sim json _ i

theorem hexRunC_sim (json : List Nat) :
    ∀ k i, i < json.length → hexRunC json i k = some (hexRun json i k) := by
  intro k
  induction k with
  | zero => intro i _; rfl
  | succ k ih =>
    intro i h
    simp only [hexRunC, hexRun]
    by_cases h1 : i + 1 = json.length
    · simp only [if_pos h1]
    · have h1' : i + 1 < json.length := by omega
      simp only [if_neg h1, rdC_lt h1']
      by_cases h2 : ishex (rd json (i + 1)) = true
      · rw [if_pos h2, if_pos h2, ih _ h1']
      · rw [if_neg h2, if_neg h2]

theorem vstringGC_sim (json : List Nat) :
    ∀ g i info, vstringGC json g i info = some (vstringG json g i info) := by
  intro g
  induction g with
  | zero => intro i info; rfl
  | succ g ih =>
    intro i info
    simp only [vstringGC, vstringG]
    by_cases h1 : i < json.length
    · simp only [if_pos h1, rdC_lt h1]
      by_cases h2 : isstrtok (rd json i) = true
      · simp only [if_pos h2]
        by_cases h3 : rd json i = 34
        · simp only [if_pos h3]
        · simp only [if_neg h3]
          by_cases h4 : rd json i < 32
          · simp only [if_pos h4]
          · simp only [if_neg h4]
            by_cases h5 : i + 1 = json.length
            · simp only [if_pos h5]
            · have h5' : i + 1 < json.length := by omega
              simp only [if_neg h5, rdC_lt h5']
              by_cases h6 : isesc (rd json (i + 1)) = true
              · rw [if_pos h6, if_pos h6, ih]
              · simp only [if_neg h6]
                by_cases h7 : rd json (i + 1) = 117
                · simp only [if_pos h7, hexRunC_sim json 4 (i + 1) h5']
                  by_cases h8 : (hexRun json (i + 1) 4).2 = true
                  · rw [if_pos h8, if_pos h8, ih]
                  · rw [if_neg h8, if_neg h8]
                · simp only [if_neg h7]
      · rw [if_neg h2, if_neg h2, ih]
    · simp only [if_neg h1]

theorem vstringC_sim (json : List Nat) (i : Nat) :
    vstringC json i = some (vstring json i) :=
  vstringGC_sim json _ i 0

theorem vnumExpC_sim (json : List Nat) (info : Nat) {i : Nat} (h : i < json.length) :
    vnumExpC json i info = some (vnumExp json i info) := by
  simp only [vnumExpC, vnumExp, rdC_lt h]
  by_cases h1 : rd json i = 101 ∨ rd json i = 69
  · simp only [if_pos h1]
    by_cases h2 : i + 1 = json.length
    · simp only [if_pos h2]
    · have h2' : i + 1 < json.length := by omega
      simp only [if_neg h2, rdC_lt h2']
      by_cases h3 : rd json (i + 1) = 43 ∨ rd json (i + 1) = 45
      · simp only [if_pos h3]
        by_cases h4 : i + 1 + 1 = json.length
        · simp only [if_pos h4]
        · have h4' : i + 1 + 1 < json.length := by omega
          simp only [if_neg h4, rdC_lt h4']
          by_cases h5 : isnum (rd json (i + 1 + 1)) = true
          · simp only [if_pos h5, digitsC_sim]
          · simp only [if_neg h5]
      · simp only [if_neg h3, if_neg h2, rdC_lt h2']
        by_cases h5 : isnum (rd json (i + 1)) = true
        · simp only [if_pos h5, digitsC_sim]
        · simp only [if_neg h5]
  · simp only [if_neg h1]

theorem vnumFracC_sim (json : List Nat) (info : Nat) {i : Nat} (h : i < json.length) :
    vnumFracC json i info = some (vnumFrac json i info) := by
  simp only [vnumFracC, vnumFrac, rdC_lt h]
  by_cases h1 : rd json i = 46
  · simp only [if_pos h1]
    by_cases h2 : i + 1 = json.length
    · simp only [if_pos h2]
    · have h2' : i + 1 < json.length := by omega
      simp only [if_neg h2, rdC_lt h2']
      by_cases h3 : isnum (rd json (i + 1)) = true
      · simp only [if_pos h3, digitsC_sim]
        by_cases h4 : digits json (i + 1 + 1) = json.length
        · simp only [if_pos h4]
        · have h4' : digits json (i + 1 + 1) < json.length := by
            have := digits_le json (i + 1 + 1) (by omega)
            omega
          simp only [if_neg h4, vnumExpC_sim json _ h4']
      · simp only [if_neg h3]
  · simp only [if_neg h1, vnumExpC_sim json info h]

theorem vnumSigC_sim (json : List Nat) (info : Nat) {i : Nat} (h : i < json.length) :
    vnumSigC json i info = some (vnumSig json i info) := by
  simp only [vnumSigC, vnumSig, rdC_lt h]
  by_cases h1 : rd json i = 48
  · simp only [if_pos h1]
    by_cases h2 : i + 1 = json.length
    · simp only [if_pos h2]
    · have h2' : i + 1 < json.length := by omega
      simp only [if_neg h2, vnumFracC_sim json info h2']
  · simp only [if_neg h1, digitsC_sim]
    by_cases h2 : digits json i = json.length
    · simp only [if_pos h2]
    · have h2' : digits json i < json.length := by
        have := digits_le json i h.le
        omega
      simp only [if_neg h2, vnumFracC_sim json info h2']

theorem vnumberC_sim (json : List Nat) {i0 : Nat} (h0 : 1 ≤ i0)
    (h : i0 - 1 < json.length) :
    vnumberC json i0 = some (vnumber json i0) := by
  simp only [vnumberC, vnumber, subC_le h0, rdC_lt h]
  by_cases h1 : rd json (i0 - 1) = 45
  · simp only [if_pos h1]
    by_cases h2 : i0 - 1 + 1 = json.length
    · simp only [if_pos h2]
    · have h2' : i0 - 1 + 1 < json.length := by omega
      simp only [if_neg h2, rdC_lt h2']
      by_cases h3 : isnum (rd json (i0 - 1 + 1)) = true
      · simp only [if_pos h3, vnumSigC_sim json SIGN h2']
      · simp only [if_neg h3]
  · simp only [if_neg h1, vnumSigC_sim json 0 h]

theorem vtrueC_sim (json : List Nat) (i : Nat) : vtrueC json i = some (vtrue json i) := by
  simp only [vtrueC, vtrue]
  by_cases h1 : i + 3 ≤ json.length
  · simp only [if_pos h1, rdC_lt (show i < json.length by omega),
      rdC_lt (show i + 1 < json.length by omega),
      rdC_lt (show i + 2 < json.length by omega)]
    split_ifs <;> rfl
  · simp only [if_neg h1]

theorem vnullC_sim (json : List Nat) (i : Nat) : vnullC json i = some (vnull json i) := by
  simp only [vnullC, vnull]
  by_cases h1 : i + 3 ≤ json.length
  · simp only [if_pos h1, rdC_lt (show i < json.length by omega),
      rdC_lt (show i + 1 < json.length by omega),
      rdC_lt (show i + 2 < json.length by omega)]
    split_ifs <;> rfl
  · simp only [if_neg h1]

theorem vfalseC_sim (json : List Nat) (i : Nat) : vfalseC json i = some (vfalse json i) := by
  simp only [vfalseC, vfalse]
  by_cases h1 : i + 4 ≤ json.length
  · simp only [if_pos h1, rdC_lt (show i < json.length by omega),
      rdC_lt (show i + 1 < json.length by omega),
      rdC_lt (show i + 2 < json.length by omega),
      rdC_lt (show i + 3 < json.length by omega)]
    split_ifs <;> rfl
  · simp only [if_neg h1]

theorem vcolonGC_sim (json : List Nat) :
    ∀ g i, vcolonGC json g i = some (vcolonG json g i) := by
  intro g
  induction g with
  | zero => intro i; rfl
  | succ g ih =>
    intro i
    simp only [vcolonGC, vcolonG]
    by_cases h1 : i < json.length
    · simp only [if_pos h1, rdC_lt h1]
      by_cases h2 : rd json i = 58
      · simp only [if_pos h2]
      · simp only [if_neg h2]
        by_cases h3 : isws (rd json i) = true
        · rw [if_pos h3, if_pos h3, ih]
        · rw [if_neg h3, if_neg h3]
    · simp only [if_neg h1]

theorem vcolonC_sim (json : List Nat) (i : Nat) :
    vcolonC json i = some (vcolon json i) :=
  vcolonGC_sim json _ i

theorem vcommaGC_sim (json : List Nat) (endch : Nat) :
    ∀ g i, vcommaGC json endch g i = some (vcommaG json endch g i) := by
  intro g
  induction g with
  | zero => intro i; rfl
  | succ g ih =>
    intro i
    simp only [vcommaGC, vcommaG]
    by_cases h1 : i < json.length
    · simp only [if_pos h1, rdC_lt h1]
      by_cases h2 : rd json i = 44
      · simp only [if_pos h2]
      · simp only [if_neg h2]
        by_cases h3 : rd json i = endch
        · simp only [if_pos h3]
        · simp only [if_neg h3]
          by_cases h4 : isws (rd json i) = true
          · rw [if_pos h4, if_pos h4, ih]
          · rw [if_neg h4, if_neg h4]
    · simp only [if_neg h1]

theorem vcommaC_sim (json : List Nat) (i endch : Nat) :
    vcommaC json i endch = some (vcomma json i endch) :=
  vcommaGC_sim json endch _ i

theorem bsRunC_sim (json : List Nat) :
    ∀ j s, j < json.length → bsRunC json j s = some (bsRun json j s) := by
  intro j
  induction j with
  | zero => intro s _; rfl
  | succ j ih =>
    intro s h
    simp only [bsRunC, bsRun]
    by_cases h1 : 1 ≤ s ∧ s ≤ j + 1
    · simp only [if_pos h1, rdC_lt h]
      by_cases h2 : rd json (j + 1) = 92
      · rw [if_pos h2, if_pos h2, ih s (by omega)]
      · rw [if_neg h2, if_neg h2]
    · simp only [if_neg h1]

theorem squashStrGC_sim (json : List Nat) (s : Nat) (hs1 : 1 ≤ s)
    (hq : rd json (s - 1) = 34) :
    ∀ g i, s ≤ i → squashStrGC json s g i = some (squashStrG json s g i) := by
  intro g
  induction g with
  | zero => intro i _; rfl
  | succ g ih =>
    intro i hsi
    simp only [squashStrGC, squashStrG]
    by_cases h1 : i < json.length
    · simp only [if_pos h1, rdC_lt h1]
      by_cases h2 : rd json i = 34
      · simp only [if_pos h2, subC_le (show 1 ≤ i by omega)]
        have hm1 : i - 1 < json.length := by omega
        simp only [rdC_lt hm1]
        by_cases h3 : rd json (i - 1) = 92
        · have hi2 : 2 ≤ i := by
            rcases Nat.lt_or_ge i 2 with hlt | hge
            · have hi1 : i = 1 := by omega
              have hse : s = 1 := by omega
              rw [hi1] at h3
              rw [hse] at hq
              norm_num at h3 hq
              rw [hq] at h3
              exact absurd h3 (by decide)
            · exact hge
          simp only [if_pos h3, subC_le (show 2 ≤ i from hi2),
            bsRunC_sim json (i - 2) s (by omega)]
          by_cases h4 : bsRun json (i - 2) s % 2 = 0
          · rw [if_pos h4, if_pos h4, ih (i + 1) (by omega)]
          · rw [if_neg h4, if_neg h4]
        · simp only [if_neg h3]
      · rw [if_neg h2, if_neg h2, ih (i + 1) (by omega)]
    · simp only [if_neg h1]

theorem squashStrC_sim (json : List Nat) {i s : Nat} (hs1 : 1 ≤ s)
    (hq : rd json (s - 1) = 34) (hsi : s ≤ i) :
    squashStrC json i s = some (squashStr json i s) :=
  squashStrGC_sim json s hs1 hq _ i hsi

theorem squashGC_sim (json : List Nat) :
    ∀ g i depth, squashGC json g i depth = some (squashG json g i depth) := by
  intro g
  induction g with
  | zero => intro i depth; rfl
  | succ g ih =>
    intro i depth
    simp only [squashGC, squashG]
    by_cases h1 : i < json.length
    · simp only [if_pos h1, rdC_lt h1]
      by_cases h2 : issquash (rd json i) = true
      · simp only [if_pos h2]
        by_cases h3 : rd json i = 34
        · have hq : rd json (i + 1 - 1) = 34 := by simpa using h3
          simp only [if_pos h3,
            squashStrC_sim json (show 1 ≤ i + 1 by omega) hq (le_refl (i + 1))]
          by_cases h4 : squashStr json (i + 1) (i + 1) < json.length
          · rw [if_pos h4, if_pos h4, ih]
          · rw [if_neg h4, if_neg h4]
        · simp only [if_neg h3]
          by_cases h5 : isopench (rd json i) = true
          · rw [if_pos h5, if_pos h5, ih]
          · simp only [if_neg h5]
            by_cases h6 : depth = 1
            · simp only [if_pos h6]
            · rw [if_neg h6, if_neg h6, ih]
      · rw [if_neg h2, if_neg h2, ih]
    · simp only [if_neg h1]

theorem squashC_sim (json : List Nat) (i : Nat) :
    squashC json i = some (squash json i) :=
  squashGC_sim json _ i 1

end PJson

namespace PJson

/-- Checked-read mirror of `run`: every buffer access goes through `rdC`
and every checked scanner, so the result is `none` iff some access would
be out of bounds (or a `usize` subtraction would underflow). -/
def runC (json : List Nat) (opts : Nat) (f : Vis) : Nat → Call → Option PRes
  | 0, c => some ⟨c.pos, false, true, c.trace⟩
  | fuel + 1, c =>
    match c with
    | .any i dinfo skip tr =>
      match skipWsC json i with
      | none => none
      | some j =>
        if j < json.length then
          match rdC json j with
          | none => none
          | some c =>
            if c = 34 then
              match vstringC json (j + 1) with
              | none => none
              | some sr =>
                some (vscalarTail j sr.i (sr.info ||| STRING) sr.ok sr.stop dinfo f skip tr)
            else if c = 123 then
              runC json opts f fuel (.opn j dinfo skip tr OBJECT)
            else if c = 91 then
              runC json opts f fuel (.opn j dinfo skip tr ARRAY)
            else if c = 45 ∨ isnum c then
              match vnumberC json (j + 1) with
              | none => none
              | some sr =>
                some (vscalarTail j sr.i (sr.info ||| NUMBER) sr.ok sr.stop dinfo f skip tr)
            else if c = 116 then
              match vtrueC json (j + 1) with
              | none => none
              | some kr => some (vscalarTail j kr.i TRUE kr.ok kr.stop dinfo f skip tr)
            else if c = 110 then
              match vnullC json (j + 1) with
              | none => none
              | some kr => some (vscalarTail j kr.i NULL kr.ok kr.stop dinfo f skip tr)
            else if c = 102 then
              match vfalseC json (j + 1) with
              | none => none
              | some kr => some (vscalarTail j kr.i FALSE kr.ok kr.stop dinfo f skip tr)
            else some ⟨j, false, true, tr⟩
        else some ⟨j, false, true, tr⟩
    | .opn i dinfo skip tr kind =>
      if skip then runC json opts f fuel (.body i dinfo skip true tr kind)
      else
        let oev : Ev := ⟨i, i + 1, kind ||| OPEN ||| dinfo⟩
        let r := f tr oev
        if r = 0 then some ⟨i, true, true, oev :: tr⟩
        else runC json opts f fuel (.body i dinfo skip (decide (r = -1)) (oev :: tr) kind)
    | .body i dinfo skip oskip tr kind =>
      if opts &&& UNCHECKED = UNCHECKED ∧ oskip = true then
        match squashC json (i + 1) with
        | none => none
        | some q => some (vclose q dinfo f skip tr kind)
      else
        match (if kind = OBJECT then runC json opts f fuel (.obj (i + 1) oskip tr)
               else runC json opts f fuel (.arr (i + 1) oskip tr)) with
        | none => none
        | some r =>
          if r.stop then some r
          else some (vclose r.i dinfo f skip r.tr kind)
    | .obj i skip tr =>
      match skipWsC json i with
      | none => none
      | some j =>
        if j < json.length then
          match rdC json j with
          | none => none
          | some c =>
            if c = 125 then some ⟨j + 1, true, false, tr⟩
            else if c = 34 then runC json opts f fuel (.okey j skip tr)
            else some ⟨j, false, true, tr⟩
        else some ⟨j, false, true, tr⟩
    | .okey i skip tr =>
      match vstringC json (i + 1) with
      | none => none
      | some sr =>
        if sr.stop then some ⟨sr.i, sr.ok, true, tr⟩
        else runC json opts f fuel (.okey1 i sr.i sr.info skip tr)
    | .okey1 mark si sinfo skip tr =>
      let p := fireStop f skip tr ⟨mark, si, sinfo ||| KEY ||| STRING⟩
      if p.1 then some ⟨si, true, true, p.2⟩
      else runC json opts f fuel (.okey2 si skip p.2)
    | .okey2 si skip tr =>
      match vcolonC json si with
      | none => none
      | some cr =>
        if cr.stop then some ⟨cr.i, cr.ok, true, tr⟩
        else runC json opts f fuel (.okey3 cr.i skip tr)
    | .okey3 ci skip tr =>
      let p := fireStop f skip tr ⟨ci - 1, ci, COLON⟩
      if p.1 then some ⟨ci, true, true, p.2⟩
      else runC json opts f fuel (.okey4 ci skip p.2)
    | .okey4 ci skip tr =>
      match runC json opts f fuel (.any ci VALUE skip tr) with
      | none => none
      | some ar =>
        if ar.stop then some ar
        else runC json opts f fuel (.okey5 ar.i skip ar.tr)
    | .okey5 ai skip tr =>
      match vcommaC json ai 125 with
      | none => none
      | some mr =>
        if mr.stop then some ⟨mr.i, mr.ok, true, tr⟩
        else
          match rdC json mr.i with
          | none => none
          | some c =>
            if c = 125 then some ⟨mr.i + 1, true, false, tr⟩
            else runC json opts f fuel (.okey6 mr.i skip tr)
    | .okey6 mi skip tr =>
      let p := fireStop f skip tr ⟨mi, mi + 1, COMMA⟩
      if p.1 then some ⟨mi, true, true, p.2⟩
      else
        match skipWsC json (mi + 1) with
        | none => none
        | some j =>
          if j < json.length then
            match rdC json j with
            | none => none
            | some c =>
              if c = 34 then runC json opts f fuel (.okey j skip p.2)
              else some ⟨j, false, true, p.2⟩
          else some ⟨j, false, true, p.2⟩
    | .arr i skip tr =>
      match skipWsC json i with
      | none => none
      | some j =>
        if j < json.length then
          match rdC json j with
          | none => none
          | some c =>
            if c = 93 then some ⟨j + 1, true, false, tr⟩
            else runC json opts f fuel (.elems j skip tr)
        else some ⟨j, false, true, tr⟩
    | .elems i skip tr =>
      match skipWsC json i with
      | none => none
      | some j =>
        if j < json.length then
          match runC json opts f fuel (.any j VALUE skip tr) with
          | none => none
          | some ar =>
            if ar.stop then some ar
            else runC json opts f fuel (.elems1 ar.i skip ar.tr)
        else some ⟨j, false, true, tr⟩
    | .elems1 ai skip tr =>
      match vcommaC json ai 93 with
      | none => none
      | some mr =>
        if mr.stop then some ⟨mr.i, mr.ok, true, tr⟩
        else
          match rdC json mr.i with
          | none => none
          | some c =>
            if c = 93 then some ⟨mr.i + 1, true, false, tr⟩
            else runC json opts f fuel (.elems2 mr.i skip tr)
    | .elems2 mi skip tr =>
      let p := fireStop f skip tr ⟨mi, mi + 1, COMMA⟩
      if p.1 then some ⟨mi, true, true, p.2⟩
      else runC json opts f fuel (.elems (mi + 1) skip p.2)

/-- Checked-read mirror of `vdoc`. -/
def vdocC (fuel : Nat) (json : List Nat) (i : Nat) (opts : Nat) (f : Vis)
    (skip : Bool) (tr : List Ev) : Option PRes :=
  match runC json opts f fuel (.any i START skip tr) with
  | none => none
  | some r =>
    if r.stop then some r
    else
      match skipWsC json r.i with
      | none => none
      | some j =>
        if j < json.length then some ⟨j, false, true, r.tr⟩
        else some ⟨j, true, false, r.tr⟩

/-- Checked-read mirror of `parseR`. -/
def parseRC (json : List Nat) (opts : Nat) (f : Vis) : Option PRes :=
  vdocC (FUEL json) json 0 opts f false []

/-- Checked-read mirror of `parse`. -/
def parseC (json : List Nat) (opts : Nat) (f : Vis) : Option Int :=
  match parseRC json opts f with
  | none => none
  | some r => some (if r.ok then (r.i : Int) else -(r.i : Int))

end PJson

namespace PJson

/-- The checked interpreter simulates `run`: no run of the parser performs
an out-of-bounds read or an underflowing index subtraction. -/
theorem runC_sim (json : List Nat) (opts : Nat) (f : Vis) :
    ∀ fuel c, runC json opts f fuel c = some (run json opts f fuel c) := by
  intro fuel
  induction fuel with
  | zero => intro c; rfl
  | succ n ih =>
    intro c
    cases c with
    | any i dinfo skip tr =>
      simp only [runC, run, skipWsC_sim]
      by_cases h1 : skipWs json i < json.length
      · simp only [if_pos h1, rdC_lt h1]
        by_cases h2 : rd json (skipWs json i) = 34
        · simp only [if_pos h2, vstringC_sim]
        · simp only [if_neg h2]
          by_cases h3 : rd json (skipWs json i) = 123
          · simp only [if_pos h3]
            exact ih _
          · simp only [if_neg h3]
            by_cases h4 : rd json (skipWs json i) = 91
            · simp only [if_pos h4]
              exact ih _
            · simp only [if_neg h4]
              by_cases h5 : rd json (skipWs json i) = 45 ∨ isnum (rd json (skipWs json i)) = true
              · simp only [if_pos h5,
                  vnumberC_sim json (show 1 ≤ skipWs json i + 1 by omega)
                    (show skipWs json i + 1 - 1 < json.length by simpa using h1)]
              · simp only [if_neg h5]
                by_cases h6 : rd json (skipWs json i) = 116
                · simp only [if_pos h6, vtrueC_sim]
                · simp only [if_neg h6]
                  by_cases h7 : rd json (skipWs json i) = 110
                  · simp only [if_pos h7, vnullC_sim]
                  · simp only [if_neg h7]
                    by_cases h8 : rd json (skipWs json i) = 102
                    · simp only [if_pos h8, vfalseC_sim]
                    · simp only [if_neg h8]
      · simp only [if_neg h1]
    | opn i dinfo skip tr kind =>
      simp only [runC, run]
      by_cases h1 : skip = true
      · simp only [if_pos h1]
        exact ih _
      · simp only [if_neg h1]
        by_cases h2 : f tr ⟨i, i + 1, kind ||| OPEN ||| dinfo⟩ = 0
        · simp only [if_pos h2]
        · simp only [if_neg h2]
          exact ih _
    | body i dinfo skip oskip tr kind =>
      simp only [runC, run]
      by_cases hu : opts &&& UNCHECKED = UNCHECKED ∧ oskip = true
      · simp only [if_pos hu, squashC_sim]
      · simp only [if_neg hu]
        by_cases hk : kind = OBJECT
        · simp only [if_pos hk, ih (Call.obj (i + 1) oskip tr)]
          by_cases hst : (run json opts f n (.obj (i + 1) oskip tr)).stop = true
          · simp only [if_pos hst]
          · simp only [if_neg hst]
        · simp only [if_neg hk, ih (Call.arr (i + 1) oskip tr)]
          by_cases hst : (run json opts f n (.arr (i + 1) oskip tr)).stop = true
          · simp only [if_pos hst]
          · simp only [if_neg hst]
    | obj i skip tr =>
      simp only [runC, run, skipWsC_sim]
      by_cases h1 : skipWs json i < json.length
      · simp only [if_pos h1, rdC_lt h1]
        by_cases h2 : rd json (skipWs json i) = 125
        · simp only [if_pos h2]
        · simp only [if_neg h2]
          by_cases h3 : rd json (skipWs json i) = 34
          · simp only [if_pos h3]
            exact ih _
          · simp only [if_neg h3]
      · simp only [if_neg h1]
    | okey i skip tr =>
      simp only [runC, run, vstringC_sim]
      by_cases h1 : (vstring json (i + 1)).stop = true
      · simp only [if_pos h1]
      · simp only [if_neg h1]
        exact ih _
    | okey1 mark si sinfo skip tr =>
      simp only [runC, run]
      by_cases h1 : (fireStop f skip tr ⟨mark, si, sinfo ||| KEY ||| STRING⟩).1 = true
      · simp only [if_pos h1]
      · simp only [if_neg h1]
        exact ih _
    | okey2 si skip tr =>
      simp only [runC, run, vcolonC_sim]
      by_cases h1 : (vcolon json si).stop = true
      · simp only [if_pos h1]
      · simp only [if_neg h1]
        exact ih _
    | okey3 ci skip tr =>
      simp only [runC, run]
      by_cases h1 : (fireStop f skip tr ⟨ci - 1, ci, COLON⟩).1 = true
      · simp only [if_pos h1]
      · simp only [if_neg h1]
        exact ih _
    | okey4 ci skip tr =>
      simp only [runC, run, ih (Call.any ci VALUE skip tr)]
      by_cases h1 : (run json opts f n (.any ci VALUE skip tr)).stop = true
      · simp only [if_pos h1]
      · simp only [if_neg h1]
        exact ih _
    | okey5 ai skip tr =>
      simp only [runC, run, vcommaC_sim]
      by_cases h1 : (vcomma json ai 125).stop = true
      · simp only [if_pos h1]
      · have hsp := vcomma_spec (show (vcomma json ai 125).stop = false by simpa using h1)
        simp only [if_neg h1, rdC_lt hsp.1]
        by_cases h2 : rd json (vcomma json ai 125).i = 125
        · simp only [if_pos h2]
        · simp only [if_neg h2]
          exact ih _
    | okey6 mi skip tr =>
      simp only [runC, run]
      by_cases h1 : (fireStop f skip tr ⟨mi, mi + 1, COMMA⟩).1 = true
      · simp only [if_pos h1]
      · simp only [if_neg h1, skipWsC_sim]
        by_cases h2 : skipWs json (mi + 1) < json.length
        · simp only [if_pos h2, rdC_lt h2]
          by_cases h3 : rd json (skipWs json (mi + 1)) = 34
          · simp only [if_pos h3]
            exact ih _
          · simp only [if_neg h3]
        · simp only [if_neg h2]
    | arr i skip tr =>
      simp only [runC, run, skipWsC_sim]
      by_cases h1 : skipWs json i < json.length
      · simp only [if_pos h1, rdC_lt h1]
        by_cases h2 : rd json (skipWs json i) = 93
        · simp only [if_pos h2]
        · simp only [if_neg h2]
          exact ih _
      · simp only [if_neg h1]
    | elems i skip tr =>
      simp only [runC, run, skipWsC_sim]
      by_cases h1 : skipWs json i < json.length
      · simp only [if_pos h1, ih (Call.any (skipWs json i) VALUE skip tr)]
        by_cases h2 : (run json opts f n (.any (skipWs json i) VALUE skip tr)).stop = true
        · simp only [if_pos h2]
        · simp only [if_neg h2]
          exact ih _
      · simp only [if_neg h1]
    | elems1 ai skip tr =>
      simp only [runC, run, vcommaC_sim]
      by_cases h1 : (vcomma json ai 93).stop = true
      · simp only [if_pos h1]
      · have hsp := vcomma_spec (show (vcomma json ai 93).stop = false by simpa using h1)
        simp only [if_neg h1, rdC_lt hsp.1]
        by_cases h2 : rd json (vcomma json ai 93).i = 93
        · simp only [if_pos h2]
        · simp only [if_neg h2]
          exact ih _
    | elems2 mi skip tr =>
      simp only [runC, run]
      by_cases h1 : (fireStop f skip tr ⟨mi, mi + 1, COMMA⟩).1 = true
      · simp only [if_pos h1]
      · simp only [if_neg h1]
        exact ih _

theorem parseRC_sim (json : List Nat) (opts : Nat) (f : Vis) :
    parseRC json opts f = some (parseR json opts f) := by
  simp only [parseRC, vdocC, runC_sim, skipWsC_sim, parseR, vdoc, vany]
  split_ifs <;> rfl

end PJson

namespace PJson

/-- C10: the parser is total and memory-access safe at the embedding
level.  `parseC` re-runs the whole parser with every buffer read performed
through `Option`-returning checked indexing (and every read-index `usize`
subtraction through checked subtraction) — including the one-byte
back-step entering the number scanner, the backwards backslash-run scan
of squash, and the string scanner reads — and it always returns
`some (parse json opts f)`: for every input, options word and visitor, no
access is out of bounds and `parse` returns a value. -/
theorem parse_memory_safe (json : List Nat) (opts : Nat) (f : Vis) :
    parseC json opts f = some (parse json opts f) := by
  simp only [parseC, parseRC_sim, parse]

end PJson
